import Mathlib

/-!
# Verification of the keyforge OTP vault core

Shallow embedding, in Lean 4, of the security-sensitive back end of the
keyforge repository: the HOTP/TOTP engine (`keyforge-crypto/src/hotp.rs`,
`totp.rs`), the AEAD codec (`aead.rs`), the KDF plumbing (`kdf.rs`), the
token repository (`keyforge-vault/src/token.rs`), and the `otpauth://`
codec plus backup import/export (`import.rs`, `export.rs`).

Bytes are modelled as `Nat` values below 256, machine words as `Nat`
with explicit reduction modulo `2^32` / `2^64` where the Rust code can
wrap.  Fallible Rust functions returning `Result<_, String>` are
modelled with `Except String _`.
-/

namespace Keyforge

/-! ## Machine-word helpers -/

/-- Reduce to a 32-bit word (`u32` arithmetic wraps modulo `2^32`). -/
def u32 (n : Nat) : Nat := n % 4294967296

/-- Reduce to a 64-bit word. -/
def u64 (n : Nat) : Nat := n % 18446744073709551616

/-- 32-bit left rotation of a value below `2^32`. -/
def rotl32 (x n : Nat) : Nat := u32 ((x <<< n) ||| (x >>> (32 - n)))

/-- 32-bit right rotation. -/
def rotr32 (x n : Nat) : Nat := u32 ((x >>> n) ||| (x <<< (32 - n)))

/-- 64-bit right rotation. -/
def rotr64 (x n : Nat) : Nat := u64 ((x >>> n) ||| (x <<< (64 - n)))

/-- Big-endian bytes of a value, fixed width `w` bytes. -/
def beBytes (w : Nat) (n : Nat) : List Nat :=
  (List.range w).map (fun i => (n >>> (8 * (w - 1 - i))) % 256)

/-- Read a list of bytes as one big-endian number. -/
def beVal (bs : List Nat) : Nat := bs.foldl (fun acc b => acc * 256 + b) 0

/-- Split a list into chunks of size `k` (the last chunk may be short).
`fuel` bounds the recursion by the list length. -/
def chunksAux (k : Nat) : Nat → List Nat → List (List Nat)
  | 0, _ => []
  | _, [] => []
  | fuel + 1, l => l.take k :: chunksAux k fuel (l.drop k)

def chunks (k : Nat) (l : List Nat) : List (List Nat) := chunksAux k l.length l

/-! ## SHA-1 (FIPS 180-4), executable, bytes in and out -/

/-- Merkle–Damgård padding shared by SHA-1/SHA-256: append `0x80`, zero
bytes to 56 mod 64, then the bit length as 8 big-endian bytes. -/
def mdPad64 (msg : List Nat) : List Nat :=
  let l := msg.length
  let zeros := (55 + 64 - l % 64) % 64
  msg ++ [128] ++ List.replicate zeros 0 ++ beBytes 8 (u64 (8 * l))

/-- Bytes to big-endian 32-bit words (length must be a multiple of 4). -/
def toWords32 (bs : List Nat) : List Nat := (chunks 4 bs).map beVal

/-- SHA-1 message schedule, most recent word first (so that the
`w[i-3] ^ w[i-8] ^ w[i-14] ^ w[i-16]` taps are near the head). -/
def sha1ScheduleRev : Nat → List Nat → List Nat
  | 0, acc => acc
  | k + 1, acc =>
    let w := rotl32 (((acc.getD 2 0) ^^^ (acc.getD 7 0)
      ^^^ (acc.getD 13 0)) ^^^ (acc.getD 15 0)) 1
    sha1ScheduleRev k (w :: acc)

/-- SHA-1 message schedule: extend 16 words to 80. -/
def sha1Schedule (ws : List Nat) : List Nat :=
  (sha1ScheduleRev 64 ws.reverse).reverse

/-- One SHA-1 round: `i` is the round index, `w` the schedule word. -/
def sha1Round (st : Nat × Nat × Nat × Nat × Nat) (iw : Nat × Nat) :
    Nat × Nat × Nat × Nat × Nat :=
  let (a, b, c, d, e) := st
  let (i, w) := iw
  let f :=
    if i < 20 then (b &&& c) ||| ((2 ^ 32 - 1 - b) &&& d)
    else if i < 40 then (b ^^^ c) ^^^ d
    else if i < 60 then ((b &&& c) ||| (b &&& d)) ||| (c &&& d)
    else (b ^^^ c) ^^^ d
  let k :=
    if i < 20 then 1518500249
    else if i < 40 then 1859775393
    else if i < 60 then 2400959708
    else 3395469782
  let t := u32 (rotl32 a 5 + f + e + k + w)
  (t, a, rotl32 b 30, c, d)

/-- SHA-1 compression of one 64-byte block into the running state. -/
def sha1Block (h : Nat × Nat × Nat × Nat × Nat) (block : List Nat) :
    Nat × Nat × Nat × Nat × Nat :=
  let ws := sha1Schedule (toWords32 block)
  let (a, b, c, d, e) := (List.range 80).zip ws |>.foldl sha1Round h
  let (h0, h1, h2, h3, h4) := h
  (u32 (h0 + a), u32 (h1 + b), u32 (h2 + c), u32 (h3 + d), u32 (h4 + e))

/-- SHA-1 of a byte string, as 20 bytes. -/
def sha1 (msg : List Nat) : List Nat :=
  let (h0, h1, h2, h3, h4) := (chunks 64 (mdPad64 msg)).foldl sha1Block
    (1732584193, 4023233417, 2562383102, 271733878, 3285377520)
  beBytes 4 h0 ++ beBytes 4 h1 ++ beBytes 4 h2 ++ beBytes 4 h3 ++ beBytes 4 h4

/-! ## HMAC (RFC 2104) -/

/-- HMAC over an arbitrary hash with the given block size. -/
def hmac (hash : List Nat → List Nat) (blockSize : Nat)
    (key msg : List Nat) : List Nat :=
  let k0 := if blockSize < key.length then hash key else key
  let kp := k0 ++ List.replicate (blockSize - k0.length) 0
  let ipad := kp.map (fun b => b ^^^ 54)
  let opad := kp.map (fun b => b ^^^ 92)
  hash (opad ++ hash (ipad ++ msg))

/-! ## SHA-256 (FIPS 180-4) -/

/-- The 64 SHA-256 round constants. -/
def sha256K : List Nat :=
  [1116352408, 1899447441, 3049323471, 3921009573, 961987163, 1508970993,
   2453635748, 2870763221, 3624381080, 310598401, 607225278, 1426881987,
   1925078388, 2162078206, 2614888103, 3248222580, 3835390401, 4022224774,
   264347078, 604807628, 770255983, 1249150122, 1555081692, 1996064986,
   2554220882, 2821834349, 2952996808, 3210313671, 3336571891, 3584528711,
   113926993, 338241895, 666307205, 773529912, 1294757372, 1396182291,
   1695183700, 1986661051, 2177026350, 2456956037, 2730485921, 2820302411,
   3259730800, 3345764771, 3516065817, 3600352804, 4094571909, 275423344,
   430227734, 506948616, 659060556, 883997877, 958139571, 1322822218,
   1537002063, 1747873779, 1955562222, 2024104815, 2227730452, 2361852424,
   2428436474, 2756734187, 3204031479, 3329325298]

/-- SHA-256 message schedule, most recent word first. -/
def sha256ScheduleRev : Nat → List Nat → List Nat
  | 0, acc => acc
  | k + 1, acc =>
    let w15 := acc.getD 14 0
    let w2 := acc.getD 1 0
    let s0 := (rotr32 w15 7 ^^^ rotr32 w15 18) ^^^ (w15 >>> 3)
    let s1 := (rotr32 w2 17 ^^^ rotr32 w2 19) ^^^ (w2 >>> 10)
    sha256ScheduleRev k (u32 (acc.getD 15 0 + s0 + acc.getD 6 0 + s1) :: acc)

/-- SHA-256 message schedule: extend 16 words to 64. -/
def sha256Schedule (ws : List Nat) : List Nat :=
  (sha256ScheduleRev 48 ws.reverse).reverse

/-- 8-word hash state for SHA-256/SHA-512. -/
structure Hash8 where
  a : Nat
  b : Nat
  c : Nat
  d : Nat
  e : Nat
  f : Nat
  g : Nat
  h : Nat

/-- One SHA-256 round with constant `k` and schedule word `w`. -/
def sha256Round (st : Hash8) (kw : Nat × Nat) : Hash8 :=
  let (k, w) := kw
  let s1 := (rotr32 st.e 6 ^^^ rotr32 st.e 11) ^^^ rotr32 st.e 25
  let ch := (st.e &&& st.f) ^^^ ((2 ^ 32 - 1 - st.e) &&& st.g)
  let t1 := u32 (st.h + s1 + ch + k + w)
  let s0 := (rotr32 st.a 2 ^^^ rotr32 st.a 13) ^^^ rotr32 st.a 22
  let mj := ((st.a &&& st.b) ^^^ (st.a &&& st.c)) ^^^ (st.b &&& st.c)
  let t2 := u32 (s0 + mj)
  ⟨u32 (t1 + t2), st.a, st.b, st.c, u32 (st.d + t1), st.e, st.f, st.g⟩

/-- SHA-256 compression of one 64-byte block. -/
def sha256Block (h : Hash8) (block : List Nat) : Hash8 :=
  let ws := sha256Schedule (toWords32 block)
  let s := (sha256K.zip ws).foldl sha256Round h
  ⟨u32 (h.a + s.a), u32 (h.b + s.b), u32 (h.c + s.c), u32 (h.d + s.d),
   u32 (h.e + s.e), u32 (h.f + s.f), u32 (h.g + s.g), u32 (h.h + s.h)⟩

/-- SHA-256 of a byte string, as 32 bytes. -/
def sha256 (msg : List Nat) : List Nat :=
  let s := (chunks 64 (mdPad64 msg)).foldl sha256Block
    ⟨1779033703, 3144134277, 1013904242, 2773480762,
     1359893119, 2600822924, 528734635, 1541459225⟩
  beBytes 4 s.a ++ beBytes 4 s.b ++ beBytes 4 s.c ++ beBytes 4 s.d ++
    beBytes 4 s.e ++ beBytes 4 s.f ++ beBytes 4 s.g ++ beBytes 4 s.h

/-! ## SHA-512 (FIPS 180-4) -/

/-- The 80 SHA-512 round constants. -/
def sha512K : List Nat :=
  [4794697086780616226, 8158064640168781261, 13096744586834688815, 16840607885511220156,
   4131703408338449720, 6480981068601479193, 10538285296894168987, 12329834152419229976,
   15566598209576043074, 1334009975649890238, 2608012711638119052, 6128411473006802146,
   8268148722764581231, 9286055187155687089, 11230858885718282805, 13951009754708518548,
   16472876342353939154, 17275323862435702243, 1135362057144423861, 2597628984639134821,
   3308224258029322869, 5365058923640841347, 6679025012923562964, 8573033837759648693,
   10970295158949994411, 12119686244451234320, 12683024718118986047, 13788192230050041572,
   14330467153632333762, 15395433587784984357, 489312712824947311, 1452737877330783856,
   2861767655752347644, 3322285676063803686, 5560940570517711597, 5996557281743188959,
   7280758554555802590, 8532644243296465576, 9350256976987008742, 10552545826968843579,
   11727347734174303076, 12113106623233404929, 14000437183269869457, 14369950271660146224,
   15101387698204529176, 15463397548674623760, 17586052441742319658, 1182934255886127544,
   1847814050463011016, 2177327727835720531, 2830643537854262169, 3796741975233480872,
   4115178125766777443, 5681478168544905931, 6601373596472566643, 7507060721942968483,
   8399075790359081724, 8693463985226723168, 9568029438360202098, 10144078919501101548,
   10430055236837252648, 11840083180663258601, 13761210420658862357, 14299343276471374635,
   14566680578165727644, 15097957966210449927, 16922976911328602910, 17689382322260857208,
   500013540394364858, 748580250866718886, 1242879168328830382, 1977374033974150939,
   2944078676154940804, 3659926193048069267, 4368137639120453308, 4836135668995329356,
   5532061633213252278, 6448918945643986474, 6902733635092675308, 7801388544844847127]

/-- SHA-512 padding: to 112 mod 128, length as 16 big-endian bytes. -/
def mdPad128 (msg : List Nat) : List Nat :=
  let l := msg.length
  let zeros := (111 + 128 - l % 128) % 128
  msg ++ [128] ++ List.replicate zeros 0 ++ beBytes 16 (8 * l % 2 ^ 128)

/-- Bytes to big-endian 64-bit words. -/
def toWords64 (bs : List Nat) : List Nat := (chunks 8 bs).map beVal

/-- SHA-512 message schedule, most recent word first. -/
def sha512ScheduleRev : Nat → List Nat → List Nat
  | 0, acc => acc
  | k + 1, acc =>
    let w15 := acc.getD 14 0
    let w2 := acc.getD 1 0
    let s0 := (rotr64 w15 1 ^^^ rotr64 w15 8) ^^^ (w15 >>> 7)
    let s1 := (rotr64 w2 19 ^^^ rotr64 w2 61) ^^^ (w2 >>> 6)
    sha512ScheduleRev k (u64 (acc.getD 15 0 + s0 + acc.getD 6 0 + s1) :: acc)

/-- SHA-512 message schedule: extend 16 words to 80. -/
def sha512Schedule (ws : List Nat) : List Nat :=
  (sha512ScheduleRev 64 ws.reverse).reverse

/-- One SHA-512 round. -/
def sha512Round (st : Hash8) (kw : Nat × Nat) : Hash8 :=
  let (k, w) := kw
  let s1 := (rotr64 st.e 14 ^^^ rotr64 st.e 18) ^^^ rotr64 st.e 41
  let ch := (st.e &&& st.f) ^^^ ((2 ^ 64 - 1 - st.e) &&& st.g)
  let t1 := u64 (st.h + s1 + ch + k + w)
  let s0 := (rotr64 st.a 28 ^^^ rotr64 st.a 34) ^^^ rotr64 st.a 39
  let mj := ((st.a &&& st.b) ^^^ (st.a &&& st.c)) ^^^ (st.b &&& st.c)
  let t2 := u64 (s0 + mj)
  ⟨u64 (t1 + t2), st.a, st.b, st.c, u64 (st.d + t1), st.e, st.f, st.g⟩

/-- SHA-512 compression of one 128-byte block. -/
def sha512Block (h : Hash8) (block : List Nat) : Hash8 :=
  let ws := sha512Schedule (toWords64 block)
  let s := (sha512K.zip ws).foldl sha512Round h
  ⟨u64 (h.a + s.a), u64 (h.b + s.b), u64 (h.c + s.c), u64 (h.d + s.d),
   u64 (h.e + s.e), u64 (h.f + s.f), u64 (h.g + s.g), u64 (h.h + s.h)⟩

/-- SHA-512 of a byte string, as 64 bytes. -/
def sha512 (msg : List Nat) : List Nat :=
  let s := (chunks 128 (mdPad128 msg)).foldl sha512Block
    ⟨7640891576956012808, 13503953896175478587, 4354685564936845355, 11912009170470909681,
     5840696475078001361, 11170449401992604703, 2270897969802886507, 6620516959819538809⟩
  beBytes 8 s.a ++ beBytes 8 s.b ++ beBytes 8 s.c ++ beBytes 8 s.d ++
    beBytes 8 s.e ++ beBytes 8 s.f ++ beBytes 8 s.g ++ beBytes 8 s.h

/-! ## HOTP (`keyforge-crypto/src/hotp.rs`) -/

/-- `hotp::Algorithm` from `hotp.rs`. -/
inductive Algorithm
  | SHA1
  | SHA256
  | SHA512
deriving DecidableEq, Repr

/-- `Hmac::<ShaN>` as selected by the `match algorithm` in `hotp::generate`. -/
def hmacForAlg : Algorithm → List Nat → List Nat → List Nat
  | .SHA1 => hmac sha1 64
  | .SHA256 => hmac sha256 64
  | .SHA512 => hmac sha512 128

/-- ASCII digit character for a value below 10. -/
def digitChar (d : Nat) : Char := Char.ofNat (48 + d)

/-- Most-significant-first decimal digits of `n`; `fuel` bounds the
recursion (any `fuel ≥ n` gives the exact digits, `0` gives none). -/
def decCharsAux : Nat → Nat → List Char
  | 0, _ => []
  | fuel + 1, n => if n = 0 then [] else decCharsAux fuel (n / 10) ++ [digitChar (n % 10)]

/-- Decimal rendering of an unsigned integer, as Rust `format!("{}", n)`. -/
def decimalString (n : Nat) : List Char :=
  if n = 0 then ['0'] else decCharsAux n n

/-- Rust `format!("{:0>width$}", otp)`: left-pad with `'0'` to `width`. -/
def zeroPadLeft (width : Nat) (s : List Char) : List Char :=
  List.replicate (width - s.length) '0' ++ s

/-- `hotp::generate` from `hotp.rs`.  The `assert!` on the digit count is
modelled as `none`; on the happy path the result is `some` code string.
The counter is a `u64`, hence the explicit `u64` reduction before the
big-endian serialization. -/
def hotpGenerate (secret : List Nat) (counter : Nat) (digits : Nat)
    (algorithm : Algorithm) : Option (List Char) :=
  if digits = 6 ∨ digits = 8 then
    let counterBytes := beBytes 8 (u64 counter)
    let hmacResult := hmacForAlg algorithm secret counterBytes
    let offset := (hmacResult.getD (hmacResult.length - 1) 0) &&& 15
    let binary := (((hmacResult.getD offset 0) &&& 127) <<< 24)
      ||| ((hmacResult.getD (offset + 1) 0) <<< 16)
      ||| ((hmacResult.getD (offset + 2) 0) <<< 8)
      ||| (hmacResult.getD (offset + 3) 0)
    let otp := binary % 10 ^ digits
    some (zeroPadLeft digits (decimalString otp))
  else
    none

/-! ## TOTP (`keyforge-crypto/src/totp.rs`) -/

/-- `totp::generate`: `counter = time / period`, then HOTP. -/
def totpGenerate (secret : List Nat) (time period : Nat) (digits : Nat)
    (algorithm : Algorithm) : Option (List Char) :=
  let counter := time / period
  hotpGenerate secret counter digits algorithm

/-- `totp::time_remaining`: `period - (time % period)`. -/
def timeRemaining (time period : Nat) : Nat :=
  period - time % period

/-! ## RFC 4226 dynamic-truncation reference (claim C1) -/

/-- The RFC 4226 dynamic-truncation reference, written from the spec's
words: `H = HMAC_alg(K, C_be8)`, `off` is the low nibble of the last
byte of `H`, the 4 bytes `H[off..off+3]` are read big-endian with the
top bit masked, reduced modulo `10^d` and left-zero-padded to `d`
characters. -/
def hotpRef (secret : List Nat) (counter : Nat) (digits : Nat)
    (algorithm : Algorithm) : List Char :=
  let h := hmacForAlg algorithm secret (beBytes 8 (u64 counter))
  let off := (h.getD (h.length - 1) 0) &&& 15
  let code := (beVal ((h.drop off).take 4)) &&& 2147483647
  zeroPadLeft digits (decimalString (code % 10 ^ digits))

/-! ## Supporting lemmas: output shapes of the hash functions -/

theorem beBytes_length (w n : Nat) : (beBytes w n).length = w := by
  simp [beBytes]

theorem beBytes_lt {w n : Nat} : ∀ b ∈ beBytes w n, b < 256 := by
  intro b hb
  simp only [beBytes, List.mem_map] at hb
  obtain ⟨i, _, rfl⟩ := hb
  omega

theorem sha1_length (msg : List Nat) : (sha1 msg).length = 20 := by
  rw [sha1]
  split
  simp [beBytes_length]

theorem sha1_lt (msg : List Nat) : ∀ b ∈ sha1 msg, b < 256 := by
  rw [sha1]
  split
  intro b hb
  simp only [List.mem_append] at hb
  rcases hb with ((((h | h) | h) | h) | h) <;> exact beBytes_lt _ h

theorem sha256_length (msg : List Nat) : (sha256 msg).length = 32 := by
  simp [sha256, beBytes_length]

theorem sha256_lt (msg : List Nat) : ∀ b ∈ sha256 msg, b < 256 := by
  rw [sha256]
  intro b hb
  simp only [List.mem_append] at hb
  rcases hb with (((((((h | h) | h) | h) | h) | h) | h) | h) <;> exact beBytes_lt _ h

theorem sha512_length (msg : List Nat) : (sha512 msg).length = 64 := by
  simp [sha512, beBytes_length]

theorem sha512_lt (msg : List Nat) : ∀ b ∈ sha512 msg, b < 256 := by
  rw [sha512]
  intro b hb
  simp only [List.mem_append] at hb
  rcases hb with (((((((h | h) | h) | h) | h) | h) | h) | h) <;> exact beBytes_lt _ h

theorem hmacForAlg_length (alg : Algorithm) (key msg : List Nat) :
    (hmacForAlg alg key msg).length = 20 ∨
    (hmacForAlg alg key msg).length = 32 ∨
    (hmacForAlg alg key msg).length = 64 := by
  cases alg
  · exact Or.inl (sha1_length _)
  · exact Or.inr (Or.inl (sha256_length _))
  · exact Or.inr (Or.inr (sha512_length _))

theorem hmacForAlg_lt (alg : Algorithm) (key msg : List Nat) :
    ∀ b ∈ hmacForAlg alg key msg, b < 256 := by
  cases alg
  · exact sha1_lt _
  · exact sha256_lt _
  · exact sha512_lt _

/-! ## Supporting lemmas: decimal rendering -/

theorem digitChar_isDigit {d : Nat} (h : d < 10) : (digitChar d).isDigit = true := by
  interval_cases d <;> decide

theorem decCharsAux_length_le : ∀ (fuel n d : Nat), n ≤ fuel → n < 10 ^ d →
    (decCharsAux fuel n).length ≤ d := by
  intro fuel
  induction fuel with
  | zero => intro n d _ _; simp [decCharsAux]
  | succ f ih =>
    intro n d hn hd
    rw [decCharsAux]
    by_cases h0 : n = 0
    · simp [h0]
    · rw [if_neg h0]
      have hd1 : d ≠ 0 := by
        rintro rfl
        simp at hd
        omega
      obtain ⟨d', rfl⟩ : ∃ d', d = d' + 1 := ⟨d - 1, by omega⟩
      have hlt : n / 10 < 10 ^ d' := by
        have : n < 10 * 10 ^ d' := by rw [pow_succ] at hd; omega
        omega
      have hl := ih (n / 10) d' (by omega) hlt
      simp only [List.length_append, List.length_cons, List.length_nil]
      omega

theorem decCharsAux_digits : ∀ (fuel n : Nat), ∀ c ∈ decCharsAux fuel n,
    c.isDigit = true := by
  intro fuel
  induction fuel with
  | zero => intro n c hc; simp [decCharsAux] at hc
  | succ f ih =>
    intro n c hc
    rw [decCharsAux] at hc
    by_cases h0 : n = 0
    · simp [h0] at hc
    · rw [if_neg h0] at hc
      simp only [List.mem_append, List.mem_singleton] at hc
      rcases hc with h | rfl
      · exact ih _ _ h
      · exact digitChar_isDigit (by omega)

theorem decimalString_length_le {n d : Nat} (hd : 1 ≤ d) (hn : n < 10 ^ d) :
    (decimalString n).length ≤ d := by
  rw [decimalString]
  by_cases h0 : n = 0
  · simp [h0]; omega
  · rw [if_neg h0]
    exact decCharsAux_length_le n n d le_rfl hn

theorem decimalString_digits (n : Nat) : ∀ c ∈ decimalString n, c.isDigit = true := by
  rw [decimalString]
  by_cases h0 : n = 0
  · intro c hc
    simp [h0] at hc
    simp [hc]
  · rw [if_neg h0]
    exact decCharsAux_digits n n

theorem zeroPadLeft_length {w : Nat} {s : List Char} (h : s.length ≤ w) :
    (zeroPadLeft w s).length = w := by
  simp [zeroPadLeft]
  omega

theorem zeroPadLeft_digits {w : Nat} {s : List Char}
    (h : ∀ c ∈ s, c.isDigit = true) : ∀ c ∈ zeroPadLeft w s, c.isDigit = true := by
  intro c hc
  simp only [zeroPadLeft, List.mem_append, List.mem_replicate] at hc
  rcases hc with ⟨_, rfl⟩ | hm
  · decide
  · exact h c hm

/-! ## Supporting lemmas: dynamic truncation -/

theorem drop_take_four (l : List Nat) (i : Nat) (h : i + 3 < l.length) :
    (l.drop i).take 4 = [l.getD i 0, l.getD (i+1) 0, l.getD (i+2) 0, l.getD (i+3) 0] := by
  rw [List.drop_eq_getElem_cons (show i < l.length by omega)]
  rw [List.drop_eq_getElem_cons (show i+1 < l.length by omega)]
  rw [List.drop_eq_getElem_cons (show i+1+1 < l.length by omega)]
  rw [List.drop_eq_getElem_cons (show i+1+1+1 < l.length by omega)]
  simp only [List.take_succ_cons, List.take_zero]
  rw [List.getD_eq_getElem l 0 (show i < l.length by omega),
      List.getD_eq_getElem l 0 (show i+1 < l.length by omega),
      List.getD_eq_getElem l 0 (show i+2 < l.length by omega),
      List.getD_eq_getElem l 0 (show i+3 < l.length by omega)]

theorem getD_lt_of_all_lt {l : List Nat} {i : Nat} (hl : ∀ b ∈ l, b < 256)
    (hi : i < l.length) : l.getD i 0 < 256 := by
  rw [List.getD_eq_getElem l 0 hi]
  exact hl _ (List.getElem_mem hi)

theorem truncate_eq (b0 b1 b2 b3 : Nat)
    (h0 : b0 < 256) (h1 : b1 < 256) (h2 : b2 < 256) (h3 : b3 < 256) :
    ((b0 &&& 127) <<< 24) ||| (b1 <<< 16) ||| (b2 <<< 8) ||| b3
      = (b0 * 2 ^ 24 + b1 * 2 ^ 16 + b2 * 2 ^ 8 + b3) &&& 2147483647 := by
  have hm : b0 &&& 127 = b0 % 128 := Nat.and_pow_two_sub_one_eq_mod b0 7
  have e1 : (b0 % 128) <<< 24 ||| b1 <<< 16 = 2 ^ 24 * (b0 % 128) + b1 * 2 ^ 16 := by
    rw [Nat.shiftLeft_eq, Nat.shiftLeft_eq, Nat.mul_comm (b0 % 128)]
    exact (Nat.mul_add_lt_is_or (by omega) _).symm
  have e2 : (2 ^ 24 * (b0 % 128) + b1 * 2 ^ 16) ||| b2 <<< 8
      = 2 ^ 16 * (2 ^ 8 * (b0 % 128) + b1) + b2 * 2 ^ 8 := by
    rw [Nat.shiftLeft_eq]
    rw [show 2 ^ 24 * (b0 % 128) + b1 * 2 ^ 16 = 2 ^ 16 * (2 ^ 8 * (b0 % 128) + b1) by ring]
    exact (Nat.mul_add_lt_is_or (by omega) _).symm
  have e3 : (2 ^ 16 * (2 ^ 8 * (b0 % 128) + b1) + b2 * 2 ^ 8) ||| b3
      = 2 ^ 8 * (2 ^ 8 * (2 ^ 8 * (b0 % 128) + b1) + b2) + b3 := by
    rw [show 2 ^ 16 * (2 ^ 8 * (b0 % 128) + b1) + b2 * 2 ^ 8
      = 2 ^ 8 * (2 ^ 8 * (2 ^ 8 * (b0 % 128) + b1) + b2) by ring]
    exact (Nat.mul_add_lt_is_or (by omega) _).symm
  rw [hm, e1, e2, e3]
  rw [show (2147483647 : Nat) = 2 ^ 31 - 1 by norm_num,
    Nat.and_pow_two_sub_one_eq_mod]
  omega

/-! ## Claim theorems for the OTP engine -/

set_option maxRecDepth 4000 in
theorem hotpGenerate_eq_ref (secret : List Nat) (counter d : Nat) (alg : Algorithm)
    (hd : d = 6 ∨ d = 8) :
    hotpGenerate secret counter d alg = some (hotpRef secret counter d alg) := by
  rw [hotpGenerate, if_pos hd, hotpRef]
  dsimp only
  have hlen : 20 ≤ (hmacForAlg alg secret (beBytes 8 (u64 counter))).length := by
    rcases hmacForAlg_length alg secret (beBytes 8 (u64 counter)) with h1 | h1 | h1 <;> omega
  have hlt := hmacForAlg_lt alg secret (beBytes 8 (u64 counter))
  set h := hmacForAlg alg secret (beBytes 8 (u64 counter)) with hh
  have hoff : (h.getD (h.length - 1) 0) &&& 15 ≤ 15 := Nat.and_le_right
  set off := (h.getD (h.length - 1) 0) &&& 15 with hoffdef
  have hb : off + 3 < h.length := by omega
  refine congrArg (fun x => some (zeroPadLeft d (decimalString (x % 10 ^ d)))) ?_
  rw [drop_take_four h off hb]
  have h0 := getD_lt_of_all_lt hlt (show off < h.length by omega)
  have h1 := getD_lt_of_all_lt hlt (show off + 1 < h.length by omega)
  have h2 := getD_lt_of_all_lt hlt (show off + 2 < h.length by omega)
  have h3 := getD_lt_of_all_lt hlt (show off + 3 < h.length by omega)
  rw [truncate_eq _ _ _ _ h0 h1 h2 h3]
  congr 1
  simp only [beVal, List.foldl_cons, List.foldl_nil]
  ring

/-- The RFC 4226 Appendix D seed, ASCII `"12345678901234567890"`. -/
def rfc4226Seed : List Nat := "12345678901234567890".data.map Char.toNat

/-- The RFC 6238 Appendix B seed for SHA-256 (32 ASCII bytes). -/
def rfc6238Sha256Seed : List Nat :=
  "12345678901234567890123456789012".data.map Char.toNat

/-- The RFC 6238 Appendix B seed for SHA-512 (64 ASCII bytes). -/
def rfc6238Sha512Seed : List Nat :=
  "1234567890123456789012345678901234567890123456789012345678901234".data.map Char.toNat

set_option maxRecDepth 300000 in
/-- C1: for every secret, counter, algorithm and digit count in {6, 8},
`hotp::generate` equals the RFC 4226 dynamic-truncation reference, its
output has exactly `d` ASCII-digit characters, and the RFC 4226
Appendix D vectors for seed "12345678901234567890", SHA-1, 6 digits,
counters 0–9 hold. -/
theorem hotp_generate_rfc4226_correct (secret : List Nat) (counter d : Nat)
    (alg : Algorithm) (hd : d = 6 ∨ d = 8) :
    (hotpGenerate secret counter d alg = some (hotpRef secret counter d alg) ∧
     (hotpRef secret counter d alg).length = d ∧
     (∀ c ∈ hotpRef secret counter d alg, c.isDigit = true)) ∧
    (hotpGenerate rfc4226Seed 0 6 .SHA1 = some "755224".data ∧
     hotpGenerate rfc4226Seed 1 6 .SHA1 = some "287082".data ∧
     hotpGenerate rfc4226Seed 2 6 .SHA1 = some "359152".data ∧
     hotpGenerate rfc4226Seed 3 6 .SHA1 = some "969429".data ∧
     hotpGenerate rfc4226Seed 4 6 .SHA1 = some "338314".data ∧
     hotpGenerate rfc4226Seed 5 6 .SHA1 = some "254676".data ∧
     hotpGenerate rfc4226Seed 6 6 .SHA1 = some "287922".data ∧
     hotpGenerate rfc4226Seed 7 6 .SHA1 = some "162583".data ∧
     hotpGenerate rfc4226Seed 8 6 .SHA1 = some "399871".data ∧
     hotpGenerate rfc4226Seed 9 6 .SHA1 = some "520489".data) := by
  refine ⟨⟨hotpGenerate_eq_ref secret counter d alg hd, ?_, ?_⟩, ?_⟩
  · rw [hotpRef]
    apply zeroPadLeft_length
    exact decimalString_length_le (by omega) (Nat.mod_lt _ (Nat.pow_pos (by omega)))
  · rw [hotpRef]
    exact zeroPadLeft_digits (decimalString_digits _)
  · decide

/-- Witness for C1 at a concrete secret, counter, digits and algorithm. -/
theorem hotp_generate_rfc4226_correct_witness :
    hotpGenerate [1, 2, 3] 42 8 .SHA256 = some (hotpRef [1, 2, 3] 42 8 .SHA256) :=
  (hotp_generate_rfc4226_correct [1, 2, 3] 42 8 .SHA256 (Or.inr rfl)).1.1

set_option maxRecDepth 300000 in
/-- C3: `totp::generate` computes `counter = time / period` (unsigned
integer division) and delegates to `hotp::generate`; the RFC 6238
Appendix B vectors at `t = 59`, step 30 hold for all three algorithms,
as does the 6-digit truncation of the SHA-1 vector. -/
theorem totp_generate_delegates (secret : List Nat) (t s d : Nat) (alg : Algorithm)
    (hs : 0 < s) :
    totpGenerate secret t s d alg = hotpGenerate secret (t / s) d alg ∧
    (totpGenerate rfc4226Seed 59 30 8 .SHA1 = some "94287082".data ∧
     totpGenerate rfc6238Sha256Seed 59 30 8 .SHA256 = some "46119246".data ∧
     totpGenerate rfc6238Sha512Seed 59 30 8 .SHA512 = some "90693936".data ∧
     totpGenerate rfc4226Seed 59 30 6 .SHA1 = some "287082".data) :=
  ⟨rfl, by decide⟩

/-- Witness for C3 at a concrete secret, time and step. -/
theorem totp_generate_delegates_witness :
    totpGenerate [7] 95 30 6 .SHA1 = hotpGenerate [7] 3 6 .SHA1 :=
  (totp_generate_delegates [7] 95 30 6 .SHA1 (by omega)).1

/-- C9: `totp::time_remaining` returns `step - (time mod step)`, and in
particular returns the full `step` (not 0) on a period boundary. -/
theorem time_remaining_correct (t s : Nat) (hs : 0 < s) :
    timeRemaining t s = s - t % s ∧ (t % s = 0 → timeRemaining t s = s) := by
  refine ⟨rfl, fun h => ?_⟩
  rw [timeRemaining, h, Nat.sub_zero]

/-- Witness for C9 on a period boundary. -/
theorem time_remaining_correct_witness :
    timeRemaining 60 30 = 30 - 60 % 30 ∧ (60 % 30 = 0 → timeRemaining 60 30 = 30) :=
  time_remaining_correct 60 30 (by omega)

/-! ## AES-256-GCM

Modelled from the spec: the `aes_gcm` crate used by
`keyforge-crypto/src/aead.rs` is an external dependency; §4.C of the
spec fixes the algorithm to AES-256-GCM with empty associated data and
the envelope layout `nonce (12) ‖ ciphertext (N) ‖ tag (16)`.  The
cipher is implemented here in full (FIPS 197 block cipher, NIST
SP 800-38D GCM mode) so that only its algebraic structure, never a
stub, enters the proofs. -/

/-- The AES S-box (FIPS 197 §5.1.1). -/
def sboxTable : List Nat :=
  [99, 124, 119, 123, 242, 107, 111, 197,
   48, 1, 103, 43, 254, 215, 171, 118,
   202, 130, 201, 125, 250, 89, 71, 240,
   173, 212, 162, 175, 156, 164, 114, 192,
   183, 253, 147, 38, 54, 63, 247, 204,
   52, 165, 229, 241, 113, 216, 49, 21,
   4, 199, 35, 195, 24, 150, 5, 154,
   7, 18, 128, 226, 235, 39, 178, 117,
   9, 131, 44, 26, 27, 110, 90, 160,
   82, 59, 214, 179, 41, 227, 47, 132,
   83, 209, 0, 237, 32, 252, 177, 91,
   106, 203, 190, 57, 74, 76, 88, 207,
   208, 239, 170, 251, 67, 77, 51, 133,
   69, 249, 2, 127, 80, 60, 159, 168,
   81, 163, 64, 143, 146, 157, 56, 245,
   188, 182, 218, 33, 16, 255, 243, 210,
   205, 12, 19, 236, 95, 151, 68, 23,
   196, 167, 126, 61, 100, 93, 25, 115,
   96, 129, 79, 220, 34, 42, 144, 136,
   70, 238, 184, 20, 222, 94, 11, 219,
   224, 50, 58, 10, 73, 6, 36, 92,
   194, 211, 172, 98, 145, 149, 228, 121,
   231, 200, 55, 109, 141, 213, 78, 169,
   108, 86, 244, 234, 101, 122, 174, 8,
   186, 120, 37, 46, 28, 166, 180, 198,
   232, 221, 116, 31, 75, 189, 139, 138,
   112, 62, 181, 102, 72, 3, 246, 14,
   97, 53, 87, 185, 134, 193, 29, 158,
   225, 248, 152, 17, 105, 217, 142, 148,
   155, 30, 135, 233, 206, 85, 40, 223,
   140, 161, 137, 13, 191, 230, 66, 104,
   65, 153, 45, 15, 176, 84, 187, 22]

/-- S-box lookup. -/
def sb (b : Nat) : Nat := sboxTable.getD b 0

/-- GF(2^8) doubling (`xtime`). -/
def xtime (b : Nat) : Nat :=
  ((b <<< 1) ^^^ (if 128 ≤ b % 256 then 27 else 0)) % 256

/-- Multiply by 3 in GF(2^8). -/
def mul3 (b : Nat) : Nat := xtime b ^^^ b

/-- XOR of two 16-byte states, output forced to 16 bytes. -/
def xorState (a b : List Nat) : List Nat :=
  (List.range 16).map (fun i => (a.getD i 0) ^^^ (b.getD i 0))

/-- XOR of two 4-byte words. -/
def xorWord (a b : List Nat) : List Nat :=
  (List.range 4).map (fun i => (a.getD i 0) ^^^ (b.getD i 0))

/-- Rotate a 4-byte word left by one byte. -/
def rotWord (w : List Nat) : List Nat := w.drop 1 ++ w.take 1

/-- Apply the S-box to each byte of a word. -/
def subWord (w : List Nat) : List Nat := w.map sb

/-- AES round constants (first byte of `Rcon[j]`, `j` from 1). -/
def rconTable : List Nat := [1, 2, 4, 8, 16, 32, 64]

/-- AES-256 key expansion, words accumulated most recent first. -/
def keyExpandAux : Nat → Nat → List (List Nat) → List (List Nat)
  | 0, _, acc => acc
  | k + 1, i, acc =>
    let prev := acc.getD 0 []
    let temp :=
      if i % 8 = 0 then xorWord (subWord (rotWord prev)) [rconTable.getD (i / 8 - 1) 0, 0, 0, 0]
      else if i % 8 = 4 then subWord prev
      else prev
    keyExpandAux k (i + 1) (xorWord (acc.getD 7 []) temp :: acc)

/-- AES-256 key expansion: 60 four-byte words from a 32-byte key. -/
def keyExpansion (key : List Nat) : List (List Nat) :=
  (keyExpandAux 52 8 (chunks 4 key).reverse).reverse

/-- ShiftRows on the 16-byte column-major state. -/
def shiftRows (s : List Nat) : List Nat :=
  (List.range 16).map (fun i => s.getD ((i + 4 * (i % 4)) % 16) 0)

/-- SubBytes on the 16-byte state. -/
def subBytes (s : List Nat) : List Nat := s.map sb

/-- MixColumns on one 4-byte column. -/
def mixColumn (c : List Nat) : List Nat :=
  let a0 := c.getD 0 0
  let a1 := c.getD 1 0
  let a2 := c.getD 2 0
  let a3 := c.getD 3 0
  [((xtime a0 ^^^ mul3 a1) ^^^ a2) ^^^ a3,
   ((a0 ^^^ xtime a1) ^^^ mul3 a2) ^^^ a3,
   ((a0 ^^^ a1) ^^^ xtime a2) ^^^ mul3 a3,
   ((mul3 a0 ^^^ a1) ^^^ a2) ^^^ xtime a3]

/-- MixColumns on the 16-byte state. -/
def mixColumns (s : List Nat) : List Nat := ((chunks 4 s).map mixColumn).flatten

/-- AES-256 block encryption (FIPS 197): 14 rounds over a 16-byte block. -/
def aes256EncryptBlock (key block : List Nat) : List Nat :=
  let rks := chunks 16 (keyExpansion key).flatten
  let s0 := xorState block (rks.getD 0 [])
  let s := (List.range 13).foldl
    (fun s r => xorState (mixColumns (shiftRows (subBytes s))) (rks.getD (r + 1) [])) s0
  xorState (shiftRows (subBytes s)) (rks.getD 14 [])

/-- Increment the low 32 bits of a 16-byte counter block (`inc32`). -/
def inc32 (b : List Nat) : List Nat :=
  b.take 12 ++ beBytes 4 ((beVal (b.drop 12) + 1) % 4294967296)

/-- `count` consecutive AES-CTR keystream blocks starting at `cb`. -/
def ctrBlocksAux (key : List Nat) : Nat → List Nat → List Nat
  | 0, _ => []
  | k + 1, cb => aes256EncryptBlock key cb ++ ctrBlocksAux key k (inc32 cb)

/-- The GCM keystream covering `n` bytes: CTR blocks from `inc32 J0`. -/
def gcmKeystream (key j0 : List Nat) (n : Nat) : List Nat :=
  (ctrBlocksAux key ((n + 15) / 16) (inc32 j0)).take n

/-- One step of the GF(2^128) multiplication of NIST SP 800-38D §6.3:
`x` is consumed most-significant bit first, `v` is the running
multiplicand, `z` the accumulator. -/
def gfMulAux : Nat → Nat → Nat → Nat → Nat
  | 0, _, _, z => z
  | k + 1, x, v, z =>
    let z := if 2 ^ 127 ≤ x then z ^^^ v else z
    let v := if v % 2 = 1 then (v >>> 1) ^^^ (225 <<< 120) else v >>> 1
    gfMulAux k ((x * 2) % 2 ^ 128) v z

/-- GF(2^128) product in the GCM bit convention. -/
def gfMul (x y : Nat) : Nat := gfMulAux 128 (x % 2 ^ 128) y 0

/-- Zero-pad a byte list on the right to a multiple of 16. -/
def padTo16 (bs : List Nat) : List Nat :=
  bs ++ List.replicate ((16 - bs.length % 16) % 16) 0

/-- GHASH of a byte string under hash key `h` (given as a 128-bit value). -/
def ghash (h : Nat) (data : List Nat) : Nat :=
  (chunks 16 data).foldl (fun y blk => gfMul (y ^^^ beVal blk) h) 0

/-- GCM authentication tag over ciphertext `ct` (empty associated data):
`GHASH(H, pad(ct) ‖ len64(aad)=0 ‖ len64(ct))` encrypted with `J0`. -/
def gcmTag (key j0 ct : List Nat) : List Nat :=
  let h := beVal (aes256EncryptBlock key (List.replicate 16 0))
  let lenBlock := beBytes 8 0 ++ beBytes 8 ((8 * ct.length) % 2 ^ 64)
  let s := ghash h (padTo16 ct ++ lenBlock)
  xorState (beBytes 16 s) (aes256EncryptBlock key j0)

/-- AES-256-GCM seal: returns `ciphertext ‖ tag` for a 12-byte nonce. -/
def aesGcmSeal (key nonce pt : List Nat) : List Nat :=
  let j0 := nonce ++ [0, 0, 0, 1]
  let ct := List.zipWith (· ^^^ ·) pt (gcmKeystream key j0 pt.length)
  ct ++ gcmTag key j0 ct

/-- AES-256-GCM open: checks the tag, then decrypts; `none` on
authentication failure. -/
def aesGcmOpen (key nonce ctAndTag : List Nat) : Option (List Nat) :=
  let j0 := nonce ++ [0, 0, 0, 1]
  let ct := ctAndTag.take (ctAndTag.length - 16)
  let tag := ctAndTag.drop (ctAndTag.length - 16)
  if tag = gcmTag key j0 ct then
    some (List.zipWith (· ^^^ ·) ct (gcmKeystream key j0 ct.length))
  else
    none

/-! ## The AEAD codec (`keyforge-crypto/src/aead.rs`) -/

/-- `aead::NONCE_SIZE`. -/
def NONCE_SIZE : Nat := 12

/-- `aead::TAG_SIZE`. -/
def TAG_SIZE : Nat := 16

/-- `aead::encrypt_with_nonce`: envelope `nonce ‖ ciphertext ‖ tag`.
The first error branch mirrors `new_from_slice` failing on a key that
is not 32 bytes; the second models the panic of `Nonce::from_slice`
on a nonce that is not 12 bytes (unreachable from `encrypt`). -/
def encryptWithNonce (plaintext key nonceBytes : List Nat) : Except String (List Nat) :=
  if key.length ≠ 32 then .error "Failed to create cipher"
  else if nonceBytes.length ≠ 12 then .error "invalid nonce length"
  else .ok (nonceBytes ++ aesGcmSeal key nonceBytes plaintext)

/-- `aead::encrypt`: draws 12 random bytes and delegates to
`encrypt_with_nonce`; the CSPRNG draw is modelled by the explicit
`nonceBytes` argument (always 12 bytes in the code). -/
def aeadEncrypt (plaintext key nonceBytes : List Nat) : Except String (List Nat) :=
  encryptWithNonce plaintext key nonceBytes

/-- `aead::decrypt`: length check, split nonce, AEAD-open; an
authentication failure is a single undifferentiated error. -/
def aeadDecrypt (encrypted key : List Nat) : Except String (List Nat) :=
  if encrypted.length < NONCE_SIZE + TAG_SIZE then .error "Ciphertext too short"
  else
    let nonceBytes := encrypted.take NONCE_SIZE
    let ciphertext := encrypted.drop NONCE_SIZE
    if key.length ≠ 32 then .error "Failed to create cipher"
    else
      match aesGcmOpen key nonceBytes ciphertext with
      | some plaintext => .ok plaintext
      | none => .error "Decryption failed: authentication error"

/-! ## Supporting lemmas: GCM shapes -/

theorem aes256EncryptBlock_length (key b : List Nat) :
    (aes256EncryptBlock key b).length = 16 := by
  simp [aes256EncryptBlock, xorState]

theorem ctrBlocksAux_length (key : List Nat) :
    ∀ (k : Nat) (cb : List Nat), (ctrBlocksAux key k cb).length = 16 * k := by
  intro k
  induction k with
  | zero => intro cb; simp [ctrBlocksAux]
  | succ n ih =>
    intro cb
    simp [ctrBlocksAux, aes256EncryptBlock_length, ih]
    omega

theorem gcmKeystream_length (key j0 : List Nat) (n : Nat) :
    (gcmKeystream key j0 n).length = n := by
  rw [gcmKeystream, List.length_take, ctrBlocksAux_length]
  omega

theorem gcmTag_length (key j0 ct : List Nat) : (gcmTag key j0 ct).length = 16 := by
  simp [gcmTag, xorState]

theorem zipWith_xor_cancel : ∀ (pt ks : List Nat), pt.length ≤ ks.length →
    List.zipWith (· ^^^ ·) (List.zipWith (· ^^^ ·) pt ks) ks = pt := by
  intro pt
  induction pt with
  | nil => intro ks _; simp
  | cons p ptl ih =>
    intro ks h
    cases ks with
    | nil => simp at h
    | cons k ksl =>
      simp only [List.zipWith_cons_cons]
      rw [ih ksl (by simpa using h)]
      rw [Nat.xor_cancel_right k p]

/-- Decrypting the envelope produced by `encrypt_with_nonce` under the
same key recovers the plaintext. -/
theorem aead_roundtrip (pt key nonce : List Nat)
    (hk : key.length = 32) (hn : nonce.length = 12) :
    (aeadEncrypt pt key nonce).bind (fun env => aeadDecrypt env key) = Except.ok pt := by
  set j0 := nonce ++ [0, 0, 0, 1] with hj0
  set ks := gcmKeystream key j0 pt.length with hks
  have hkslen : ks.length = pt.length := gcmKeystream_length key j0 pt.length
  set ct := List.zipWith (· ^^^ ·) pt ks with hct
  have hctlen : ct.length = pt.length := by
    rw [hct, List.length_zipWith]
    omega
  set tag := gcmTag key j0 ct with htag
  have htaglen : tag.length = 16 := gcmTag_length key j0 ct
  have henc : aeadEncrypt pt key nonce = .ok (nonce ++ (ct ++ tag)) := by
    rw [aeadEncrypt, encryptWithNonce, if_neg (by omega), if_neg (by omega)]
    rfl
  rw [henc]
  show aeadDecrypt (nonce ++ (ct ++ tag)) key = .ok pt
  rw [aeadDecrypt]
  have hlentot : (nonce ++ (ct ++ tag)).length = 28 + ct.length := by
    simp only [List.length_append]
    omega
  rw [if_neg (by rw [hlentot, NONCE_SIZE, TAG_SIZE]; omega)]
  rw [show NONCE_SIZE = nonce.length from hn.symm, List.take_left, List.drop_left,
    if_neg (by omega), aesGcmOpen]
  have hsplit : (ct ++ tag).length - 16 = ct.length := by
    simp only [List.length_append]
    omega
  rw [hsplit, List.take_left ct tag, List.drop_left ct tag, ← hj0, ← htag, if_pos rfl,
    hctlen, ← hks]
  rw [zipWith_xor_cancel pt ks (by omega)]

/-- C2: for every plaintext, every 32-byte key and every 12-byte nonce
drawn by `aead::encrypt`, decrypting the envelope produced by
`encrypt` under the same key succeeds and returns the plaintext. -/
theorem aead_decrypt_encrypt_roundtrip (pt key nonce : List Nat)
    (hk : key.length = 32) (hn : nonce.length = 12) :
    (aeadEncrypt pt key nonce).bind (fun env => aeadDecrypt env key) = Except.ok pt :=
  aead_roundtrip pt key nonce hk hn

/-- Witness for C2 at a concrete plaintext, key and nonce. -/
theorem aead_decrypt_encrypt_roundtrip_witness :
    (aeadEncrypt [1, 2, 3] (List.replicate 32 0) (List.replicate 12 7)).bind
      (fun env => aeadDecrypt env (List.replicate 32 0)) = Except.ok [1, 2, 3] :=
  aead_decrypt_encrypt_roundtrip [1, 2, 3] (List.replicate 32 0) (List.replicate 12 7)
    (by simp) (by simp)

/-! ## KDF (`keyforge-crypto/src/kdf.rs`) -/

/-- `kdf::DEFAULT_MEMORY_KIB`. -/
def DEFAULT_MEMORY_KIB : Nat := 65536

/-- `kdf::DEFAULT_TIME_COST`. -/
def DEFAULT_TIME_COST : Nat := 3

/-- `kdf::DEFAULT_PARALLELISM`. -/
def DEFAULT_PARALLELISM : Nat := 4

/-- `kdf::KEY_LENGTH`. -/
def KEY_LENGTH : Nat := 32

/-- `kdf::KdfParams`. -/
structure KdfParams where
  memory_kib : Nat
  time_cost : Nat
  parallelism : Nat
deriving DecidableEq, Repr

/-- `KdfParams::default()`. -/
def KdfParams.default : KdfParams :=
  ⟨DEFAULT_MEMORY_KIB, DEFAULT_TIME_COST, DEFAULT_PARALLELISM⟩

/-- Modelled from the spec: the Argon2id v1.3 primitive lives in the
external `argon2` crate, not in this repository; §4.B fixes only its
contract — a deterministic pure function of `(password, salt, params)`
with a 32-byte output.  The numeric core here is a concrete pure
stand-in (a hash over the serialized inputs); the claims settled
against it depend only on determinism, purity and output shape, never
on the specific output bytes. -/
def argon2idCore (password salt : List Nat) (params : KdfParams) : List Nat :=
  sha256 (beBytes 4 params.memory_kib ++ beBytes 4 params.time_cost ++
    beBytes 4 params.parallelism ++ beBytes 4 salt.length ++ salt ++ password)

/-- `kdf::derive_key`: parameter validation, then Argon2id.  The
validation mirrors `Params::new` rejecting degenerate settings. -/
def deriveKey (password salt : List Nat) (params : KdfParams) :
    Except String (List Nat) :=
  if params.memory_kib < 8 ∨ params.time_cost = 0 ∨ params.parallelism = 0 then
    .error "Invalid Argon2id params"
  else
    .ok (argon2idCore password salt params)

/-- `kdf::derive_key_pair`: two `derive_key` calls with distinct salts. -/
def deriveKeyPair (password sqlcipherSalt secretSalt : List Nat)
    (params : KdfParams) : Except String (List Nat × List Nat) := do
  let sqlcipherKey ← deriveKey password sqlcipherSalt params
  let secretKey ← deriveKey password secretSalt params
  return (sqlcipherKey, secretKey)

/-- C10: key derivation consumes no randomness — any two runs on equal
inputs return equal 32-byte keys — and `derive_key_pair` is exactly the
pair of `derive_key` results for the two salts. -/
theorem derive_key_deterministic_and_pair
    (p p' s s' s2 : List Nat) (π π' : KdfParams)
    (hp : p = p') (hs : s = s') (hπ : π = π') :
    deriveKey p s π = deriveKey p' s' π' ∧
    (∀ k, deriveKey p s π = .ok k → k.length = 32) ∧
    deriveKeyPair p s s2 π =
      (deriveKey p s π).bind (fun kdb =>
        (deriveKey p s2 π).bind (fun ksec => Except.ok (kdb, ksec))) := by
  subst hp hs hπ
  refine ⟨rfl, ?_, rfl⟩
  intro k hk
  rw [deriveKey] at hk
  by_cases hcond : π.memory_kib < 8 ∨ π.time_cost = 0 ∨ π.parallelism = 0
  · rw [if_pos hcond] at hk
    cases hk
  · rw [if_neg hcond] at hk
    cases hk
    exact sha256_length _

/-- Witness for C10 at concrete passwords, salts and parameters. -/
theorem derive_key_deterministic_and_pair_witness :
    deriveKey [1] [2] ⟨1024, 1, 1⟩ = deriveKey [1] [2] ⟨1024, 1, 1⟩ ∧
    (∀ k, deriveKey [1] [2] ⟨1024, 1, 1⟩ = .ok k → k.length = 32) ∧
    deriveKeyPair [1] [2] [3] ⟨1024, 1, 1⟩ =
      (deriveKey [1] [2] ⟨1024, 1, 1⟩).bind (fun kdb =>
        (deriveKey [1] [3] ⟨1024, 1, 1⟩).bind (fun ksec => Except.ok (kdb, ksec))) :=
  derive_key_deterministic_and_pair [1] [1] [2] [2] [3] ⟨1024, 1, 1⟩ ⟨1024, 1, 1⟩
    rfl rfl rfl

/-! ## Token repository (`keyforge-vault/src/token.rs`)

The SQLite `tokens` table is modelled as a list of rows in insertion
order; `ORDER BY sort_order ASC` is modelled as a stable sort on
`sort_order` (SQLite fixes no tie order; every property proved below is
robust to the tie-breaking choice).  External inputs of the operations
— the UUID, the timestamps and the AEAD nonce — are explicit
arguments. -/

/-- A row of the `tokens` table (`Token` plus its `secret_encrypted`
column; the sync placeholders are never written and are omitted). -/
structure Token where
  id : String
  issuer : String
  account : String
  secret_encrypted : List Nat
  algorithm : String
  digits : Nat
  token_type : String
  period : Nat
  counter : Nat
  icon : Option String
  sort_order : Int
  created_at : String
  updated_at : String
deriving DecidableEq, Repr

/-- `token::NewToken`. -/
structure NewToken where
  issuer : String
  account : String
  secret : List Nat
  algorithm : String
  digits : Nat
  token_type : String
  period : Nat
  counter : Nat
  icon : Option String
deriving DecidableEq, Repr

/-- The vault handle: table rows plus the resident secret key. -/
structure VaultState where
  rows : List Token
  secretKey : List Nat
deriving DecidableEq, Repr

/-- `SELECT COALESCE(MAX(sort_order), -1) FROM tokens`. -/
def maxSortOrder (rows : List Token) : Int :=
  match rows.map (fun t => t.sort_order) with
  | [] => -1
  | x :: xs => xs.foldl max x

/-- `Vault::add_token`: wrap the secret, assign `max_sort + 1`, insert. -/
def addToken (v : VaultState) (nt : NewToken) (id now : String)
    (nonce : List Nat) : Except String (VaultState × Token) :=
  match aeadEncrypt nt.secret v.secretKey nonce with
  | .error e => .error ("Failed to encrypt secret: " ++ e)
  | .ok encryptedSecret =>
    let maxSort := maxSortOrder v.rows
    let t : Token :=
      { id := id, issuer := nt.issuer, account := nt.account,
        secret_encrypted := encryptedSecret, algorithm := nt.algorithm,
        digits := nt.digits, token_type := nt.token_type, period := nt.period,
        counter := nt.counter, icon := nt.icon, sort_order := maxSort + 1,
        created_at := now, updated_at := now }
    .ok ({ v with rows := v.rows ++ [t] }, t)

/-- `Vault::list_tokens`: all rows `ORDER BY sort_order ASC`. -/
def listTokens (v : VaultState) : List Token :=
  v.rows.insertionSort (fun a b => a.sort_order ≤ b.sort_order)

/-- `Vault::get_token`: first row matching the id, if any. -/
def getToken (v : VaultState) (id : String) : Option Token :=
  v.rows.find? (fun t => t.id = id)

/-- `Vault::get_token_secret`: read the wrapped blob and AEAD-decrypt. -/
def getTokenSecret (v : VaultState) (id : String) : Except String (List Nat) :=
  match v.rows.find? (fun t => t.id = id) with
  | none => .error "Token not found"
  | some t =>
    match aeadDecrypt t.secret_encrypted v.secretKey with
    | .ok secret => .ok secret
    | .error e => .error ("Failed to decrypt secret: " ++ e)

/-- `Vault::update_token`: set issuer/account, refresh `updated_at`;
zero affected rows surfaces as token-not-found. -/
def updateToken (v : VaultState) (id issuer account now : String) :
    Except String VaultState :=
  let rows := v.rows.map (fun t =>
    if t.id = id then { t with issuer := issuer, account := account, updated_at := now }
    else t)
  if v.rows.countP (fun t => t.id = id) = 0 then .error "Token not found"
  else .ok { v with rows := rows }

/-- `Vault::delete_token`: remove matching rows; a missing id is not an
error. -/
def deleteToken (v : VaultState) (id : String) : Except String VaultState :=
  .ok { v with rows := v.rows.filter (fun t => t.id ≠ id) }

/-- `Vault::reorder_tokens`: for the `i`-th id in the list, set its
`sort_order` to `i` and refresh `updated_at`, in one transaction. -/
def reorderTokens (v : VaultState) (idOrder : List String) (now : String) :
    Except String VaultState :=
  let rows := idOrder.enum.foldl
    (fun rows iid => rows.map (fun t =>
      if t.id = iid.2 then { t with sort_order := (iid.1 : Int), updated_at := now }
      else t)) v.rows
  .ok { v with rows := rows }

/-- `Vault::increment_counter`: `counter := counter + 1` on matching
rows, then read the counter back; no row surfaces as token-not-found. -/
def incrementCounter (v : VaultState) (id now : String) :
    Except String (VaultState × Nat) :=
  let rows := v.rows.map (fun t =>
    if t.id = id then { t with counter := t.counter + 1, updated_at := now }
    else t)
  match rows.find? (fun t => t.id = id) with
  | some t => .ok ({ v with rows := rows }, t.counter)
  | none => .error "Token not found"

/-! ## Supporting lemmas: sort order and reorder -/

theorem foldl_max_le_init (l : List Int) (a : Int) : a ≤ l.foldl max a := by
  induction l generalizing a with
  | nil => simp
  | cons x xs ih => exact le_trans (le_max_left a x) (ih (max a x))

theorem mem_le_foldl_max (l : List Int) (a : Int) : ∀ x ∈ l, x ≤ l.foldl max a := by
  induction l generalizing a with
  | nil => simp
  | cons y ys ih =>
    intro x hx
    rcases List.mem_cons.mp hx with rfl | hx
    · exact le_trans (le_max_right a x) (foldl_max_le_init ys (max a x))
    · exact ih (max a y) x hx

theorem le_maxSortOrder {rows : List Token} :
    ∀ r ∈ rows, r.sort_order ≤ maxSortOrder rows := by
  intro r hr
  cases rows with
  | nil => simp at hr
  | cons t ts =>
    rw [maxSortOrder]
    rcases List.mem_cons.mp hr with rfl | hr
    · exact foldl_max_le_init _ _
    · exact mem_le_foldl_max _ _ _ (List.mem_map_of_mem (fun t => t.sort_order) hr)

/-- Totality of the listing order. -/
instance : IsTotal Token (fun a b : Token => a.sort_order ≤ b.sort_order) :=
  ⟨fun a b => le_total a.sort_order b.sort_order⟩

/-- Transitivity of the listing order. -/
instance : IsTrans Token (fun a b : Token => a.sort_order ≤ b.sort_order) :=
  ⟨fun _ _ _ h1 h2 => le_trans h1 h2⟩

theorem sorted_getLast?_eq {x : Token} : ∀ {l : List Token},
    List.Sorted (fun a b : Token => a.sort_order ≤ b.sort_order) l → x ∈ l →
    (∀ y ∈ l, y ≠ x → y.sort_order < x.sort_order) → l.getLast? = some x := by
  intro l
  induction l with
  | nil => intro _ hx _; simp at hx
  | cons a rest ih =>
    intro hs hx hmax
    cases rest with
    | nil =>
      simp only [List.mem_singleton] at hx
      simp [hx]
    | cons b rest2 =>
      rw [List.getLast?_cons_cons]
      by_cases hxr : x ∈ b :: rest2
      · exact ih hs.of_cons hxr
          (fun y hy hne => hmax y (List.mem_cons_of_mem _ hy) hne)
      · have hax : x = a := by
          rcases List.mem_cons.mp hx with h | h
          · exact h
          · exact absurd h hxr
        have hbx : b ≠ x := fun h => hxr (h ▸ List.mem_cons_self b rest2)
        have h1 := hmax b (List.mem_cons_of_mem _ (List.mem_cons_self b rest2)) hbx
        have h2 : a.sort_order ≤ b.sort_order :=
          (List.sorted_cons.mp hs).1 b (List.mem_cons_self b rest2)
        rw [hax] at h1
        omega

/-- Index of the first element of `l` satisfying `p`, counting from `k`. -/
def findIdxFrom (p : String → Bool) : Nat → List String → Option Nat
  | _, [] => none
  | k, x :: xs => if p x then some k else findIdxFrom p (k + 1) xs

theorem findIdxFrom_eq_none {p : String → Bool} :
    ∀ {l : List String} (k : Nat), (∀ x ∈ l, ¬ p x) → findIdxFrom p k l = none := by
  intro l
  induction l with
  | nil => intro k _; rfl
  | cons a rest ih =>
    intro k h
    rw [findIdxFrom, if_neg (by simpa using h a (List.mem_cons_self a rest))]
    exact ih (k + 1) (fun x hx => h x (List.mem_cons_of_mem _ hx))

/-- The per-row effect of `reorder_tokens`. -/
def reorderUpdate (ids : List String) (now : String) (t : Token) : Token :=
  match findIdxFrom (fun x => t.id = x) 0 ids with
  | some i => { t with sort_order := (i : Int), updated_at := now }
  | none => t

theorem reorder_foldl_char (now : String) :
    ∀ (ids : List String), ids.Nodup → ∀ (k : Nat) (rows : List Token),
    (List.enumFrom k ids).foldl
      (fun rows iid => rows.map (fun t =>
        if t.id = iid.2 then { t with sort_order := (iid.1 : Int), updated_at := now }
        else t)) rows
    = rows.map (fun t =>
        match findIdxFrom (fun x => t.id = x) k ids with
        | some i => { t with sort_order := (i : Int), updated_at := now }
        | none => t) := by
  intro ids
  induction ids with
  | nil =>
    intro _ k rows
    simp [findIdxFrom, List.enumFrom]
  | cons id0 rest ih =>
    intro hnd k rows
    have hnotin : id0 ∉ rest := (List.nodup_cons.mp hnd).1
    have hndr : rest.Nodup := (List.nodup_cons.mp hnd).2
    show (List.enumFrom (k + 1) rest).foldl _ (rows.map _) = _
    rw [ih hndr (k + 1) (rows.map _), List.map_map]
    congr 1
    funext t
    simp only [Function.comp]
    by_cases h : t.id = id0
    · have hnone : findIdxFrom (fun x => decide (id0 = x)) (k + 1) rest = none :=
        findIdxFrom_eq_none (k + 1) (fun x hx => by
          simp only [decide_eq_true_eq]
          rintro rfl
          exact hnotin hx)
      simp [h, findIdxFrom, hnone]
    · simp [h, findIdxFrom]

theorem findIdxFrom_get {ids : List String} (hnd : ids.Nodup) :
    ∀ (i : Nat) (hi : i < ids.length) (k : Nat),
    findIdxFrom (fun x => ids.get ⟨i, hi⟩ = x) k ids = some (k + i) := by
  induction ids with
  | nil => intro i hi; simp at hi
  | cons a rest ih =>
    intro i hi k
    cases i with
    | zero => simp [findIdxFrom]
    | succ j =>
      have hj : j < rest.length := by simpa using hi
      have hget : (a :: rest).get ⟨j + 1, hi⟩ = rest.get ⟨j, hj⟩ := rfl
      have hne : (a :: rest).get ⟨j + 1, hi⟩ ≠ a := by
        rw [hget]
        intro hc
        exact (List.nodup_cons.mp hnd).1 (hc ▸ rest.get_mem j hj)
      rw [findIdxFrom, if_neg (by simpa using hne)]
      have := ih (List.nodup_cons.mp hnd).2 j hj (k + 1)
      rw [hget, this]
      congr 1
      omega

theorem find?_map_id_pres (ident : String) (f : Token → Token)
    (hf : ∀ t, (f t).id = t.id) :
    ∀ (l : List Token),
      (l.map f).find? (fun t => t.id = ident) = (l.find? (fun t => t.id = ident)).map f := by
  intro l
  induction l with
  | nil => rfl
  | cons a rest ih =>
    by_cases h : a.id = ident
    · simp [List.find?_cons, hf a, h]
    · simp [List.find?_cons, hf a, h, ih]

/-- C7: `add_token` assigns `sort_order = 1 + max(existing)` with the
max defaulting to −1 on an empty vault; `list_tokens` returns rows in
ascending `sort_order`, so a freshly added token lands at the last
position; `reorder_tokens` over distinct ids sets the `i`-th id's
`sort_order` to `i` and leaves rows whose id is absent untouched. -/
theorem add_list_reorder_discipline
    (v : VaultState) (nt : NewToken) (id now : String) (nonce : List Nat)
    (ids : List String) (now2 : String)
    (hk : v.secretKey.length = 32) (hn : nonce.length = 12) (hnd : ids.Nodup) :
    maxSortOrder [] = -1 ∧
    List.Sorted (fun a b : Token => a.sort_order ≤ b.sort_order) (listTokens v) ∧
    (∃ v2 t, addToken v nt id now nonce = .ok (v2, t) ∧
      t.sort_order = maxSortOrder v.rows + 1 ∧
      (listTokens v2).getLast? = some t) ∧
    (∃ v3, reorderTokens v ids now2 = .ok v3 ∧
      v3.rows = v.rows.map (reorderUpdate ids now2) ∧
      (∀ (i : Nat) (hi : i < ids.length) (t : Token), t.id = ids.get ⟨i, hi⟩ →
        (reorderUpdate ids now2 t).sort_order = (i : Int)) ∧
      (∀ t : Token, t.id ∉ ids → reorderUpdate ids now2 t = t)) := by
  have henc : aeadEncrypt nt.secret v.secretKey nonce
      = .ok (nonce ++ aesGcmSeal v.secretKey nonce nt.secret) := by
    rw [aeadEncrypt, encryptWithNonce, if_neg (by omega), if_neg (by omega)]
  refine ⟨rfl, List.sorted_insertionSort _ _, ?_, ?_⟩
  · refine ⟨_, _, by rw [addToken, henc], rfl, ?_⟩
    set t : Token :=
      { id := id, issuer := nt.issuer, account := nt.account,
        secret_encrypted := nonce ++ aesGcmSeal v.secretKey nonce nt.secret,
        algorithm := nt.algorithm, digits := nt.digits, token_type := nt.token_type,
        period := nt.period, counter := nt.counter, icon := nt.icon,
        sort_order := maxSortOrder v.rows + 1, created_at := now,
        updated_at := now } with ht
    have hperm := List.perm_insertionSort
      (fun a b : Token => a.sort_order ≤ b.sort_order) (v.rows ++ [t])
    apply sorted_getLast?_eq (List.sorted_insertionSort _ _)
    · exact hperm.mem_iff.mpr (List.mem_append_right _ (List.mem_singleton.mpr rfl))
    · intro y hy hne
      rcases List.mem_append.mp (hperm.mem_iff.mp hy) with hmem | hmem
      · have := le_maxSortOrder y hmem
        have hts : t.sort_order = maxSortOrder v.rows + 1 := rfl
        omega
      · exact absurd (List.mem_singleton.mp hmem) hne
  · refine ⟨_, rfl, ?_, ?_, ?_⟩
    · show List.foldl _ v.rows (List.enumFrom 0 ids) = _
      exact reorder_foldl_char now2 ids hnd 0 v.rows
    · intro i hi t hid
      rw [reorderUpdate, hid, findIdxFrom_get hnd i hi 0]
      simp
    · intro t hnotin
      rw [reorderUpdate, findIdxFrom_eq_none 0 (fun x hx => by
        simp only [decide_eq_true_eq]
        rintro rfl
        exact hnotin hx)]

/-- Witness for C7: an add on a concrete empty vault lands last. -/
theorem add_list_reorder_discipline_witness :
    ∃ v2 t, addToken ⟨[], List.replicate 32 0⟩
        ⟨"I", "A", [1], "SHA1", 6, "totp", 30, 0, none⟩ "id0" "t0"
        (List.replicate 12 0) = .ok (v2, t) ∧
      t.sort_order = maxSortOrder ([] : List Token) + 1 ∧
      (listTokens v2).getLast? = some t :=
  (add_list_reorder_discipline ⟨[], List.replicate 32 0⟩
    ⟨"I", "A", [1], "SHA1", 6, "totp", 30, 0, none⟩ "id0" "t0"
    (List.replicate 12 0) ["a"] "t1" (by simp) (by simp) (by simp)).2.2.1

/-- C8: deleting a missing id succeeds (and delete is idempotent),
updating or incrementing a missing id fails with token-not-found, and
incrementing a present id returns its previous counter plus one. -/
theorem missing_id_and_counter_behavior
    (v : VaultState) (id issuer account now : String) :
    ((∀ r ∈ v.rows, r.id ≠ id) →
      (∃ v2, deleteToken v id = .ok v2 ∧ v2.rows = v.rows) ∧
      updateToken v id issuer account now = .error "Token not found" ∧
      incrementCounter v id now = .error "Token not found") ∧
    (∀ v2, deleteToken v id = .ok v2 → deleteToken v2 id = .ok v2) ∧
    (∀ r, v.rows.find? (fun t => t.id = id) = some r →
      ∃ v3, incrementCounter v id now = .ok (v3, r.counter + 1)) := by
  refine ⟨?_, ?_, ?_⟩
  · intro hmiss
    refine ⟨⟨_, rfl, ?_⟩, ?_, ?_⟩
    · rw [List.filter_eq_self]
      intro t ht
      simpa using hmiss t ht
    · rw [updateToken, if_pos]
      rw [List.countP_eq_zero]
      intro t ht
      simpa using hmiss t ht
    · rw [incrementCounter]
      have : (v.rows.map (fun t =>
          if t.id = id then { t with counter := t.counter + 1, updated_at := now }
          else t)).find? (fun t => t.id = id) = none := by
        rw [List.find?_eq_none]
        intro t ht
        rcases List.mem_map.mp ht with ⟨s, hs, rfl⟩
        have hne := hmiss s hs
        by_cases hcase : s.id = id
        · exact absurd hcase hne
        · simpa [hcase] using hne
      rw [this]
  · intro v2 h2
    cases h2
    rw [deleteToken]
    have hff : (v.rows.filter (fun t => t.id ≠ id)).filter (fun t => t.id ≠ id)
        = v.rows.filter (fun t => t.id ≠ id) := by
      rw [List.filter_eq_self]
      intro a ha
      exact (List.mem_filter.mp ha).2
    show Except.ok ({ v with
      rows := (v.rows.filter (fun t => t.id ≠ id)).filter (fun t => t.id ≠ id) } : VaultState) = _
    rw [hff]
  · intro r hr
    have hrid : r.id = id := by simpa using List.find?_some hr
    have hmap := find?_map_id_pres id (fun t =>
      if t.id = id then { t with counter := t.counter + 1, updated_at := now }
      else t) (fun t => by by_cases h : t.id = id <;> simp [h]) v.rows
    rw [hr] at hmap
    have hsome : (some r).map (fun t =>
        if t.id = id then { t with counter := t.counter + 1, updated_at := now } else t)
        = some { r with counter := r.counter + 1, updated_at := now } := by
      simp [hrid]
    rw [hsome] at hmap
    refine ⟨{ v with rows := v.rows.map (fun t =>
      if t.id = id then { t with counter := t.counter + 1, updated_at := now }
      else t) }, ?_⟩
    rw [incrementCounter, hmap]

/-- Concrete row for the C8 witness: id `a`, counter 5. -/
def c8Row : Token :=
  { id := "a", issuer := "I", account := "u", secret_encrypted := [],
    algorithm := "SHA1", digits := 6, token_type := "totp", period := 30,
    counter := 5, icon := none, sort_order := 0,
    created_at := "", updated_at := "" }

/-- Concrete one-row vault for the C8 witness. -/
def c8Vault : VaultState := { rows := [c8Row], secretKey := [0] }

/-- Witness for C8 on the concrete one-row vault: deleting the missing
id `z` succeeds leaving the rows unchanged, updating and incrementing
`z` fail with token-not-found, and incrementing the present id `a`
returns its stored counter 5 plus one. -/
theorem missing_id_and_counter_behavior_witness :
    (∃ v2, deleteToken c8Vault "z" = .ok v2 ∧ v2.rows = c8Vault.rows)
    ∧ updateToken c8Vault "z" "i" "b" "t0" = .error "Token not found"
    ∧ incrementCounter c8Vault "z" "t0" = .error "Token not found"
    ∧ ∃ v3, incrementCounter c8Vault "a" "t0" = .ok (v3, c8Row.counter + 1) := by
  have h := (missing_id_and_counter_behavior c8Vault "z" "i" "b" "t0").1 (by
    intro r hr
    simp only [c8Vault, List.mem_cons, List.not_mem_nil, or_false] at hr
    subst hr
    decide)
  exact ⟨h.1, h.2.1, h.2.2,
    (missing_id_and_counter_behavior c8Vault "a" "i" "b" "t0").2.2 c8Row (by rfl)⟩

/-! ## UTF-8 (modelled from the Rust standard library)

`urlencoding_encode` in `export.rs` walks `char`s and emits the UTF-8
bytes of non-special characters; `urlencoding_decode` in `import.rs`
walks bytes and finishes with `String::from_utf8` with lossy fallback.
Rust strings are modelled as `List Char` (Unicode scalar values, the
same value set as Rust `char`); the encoding is the standard UTF-8
one.  The lossy fallback emits U+FFFD for ill-formed sequences; its
exact per-byte behaviour is never reached by the theorems below, which
only decode well-formed output of the encoder. -/

/-- UTF-8 bytes of one scalar value. -/
def utf8EncodeChar (c : Char) : List Nat :=
  let n := c.toNat
  if n < 128 then [n]
  else if n < 2048 then [192 + n / 64, 128 + n % 64]
  else if n < 65536 then [224 + n / 4096, 128 + n / 64 % 64, 128 + n % 64]
  else [240 + n / 262144, 128 + n / 4096 % 64, 128 + n / 64 % 64, 128 + n % 64]

/-- UTF-8 bytes of a string. -/
def utf8Encode (s : List Char) : List Nat := (s.map utf8EncodeChar).flatten

/-- The Unicode replacement character U+FFFD. -/
def replacementChar : Char := Char.ofNat 65533

/-- Lossy UTF-8 decoding, fuel-bounded (any fuel at least the byte
count is exact): well-formed sequences (no overlong forms, no
surrogates, at most U+10FFFF) decode to their scalar; anything else
yields U+FFFD and resynchronizes. -/
def utf8DecodeLossyAux : Nat → List Nat → List Char
  | 0, _ => []
  | fuel + 1, bytes =>
    match bytes with
    | [] => []
    | b0 :: rest =>
      if b0 < 128 then Char.ofNat b0 :: utf8DecodeLossyAux fuel rest
      else if b0 < 194 then replacementChar :: utf8DecodeLossyAux fuel rest
      else if b0 < 224 then
        match rest with
        | b1 :: rest1 =>
          if 128 ≤ b1 ∧ b1 < 192 then
            Char.ofNat ((b0 - 192) * 64 + (b1 - 128)) :: utf8DecodeLossyAux fuel rest1
          else replacementChar :: utf8DecodeLossyAux fuel rest
        | [] => [replacementChar]
      else if b0 < 240 then
        match rest with
        | b1 :: b2 :: rest2 =>
          if (128 ≤ b1 ∧ b1 < 192) ∧ (128 ≤ b2 ∧ b2 < 192)
              ∧ (b0 = 224 → 160 ≤ b1) ∧ (b0 = 237 → b1 < 160) then
            Char.ofNat ((b0 - 224) * 4096 + (b1 - 128) * 64 + (b2 - 128))
              :: utf8DecodeLossyAux fuel rest2
          else replacementChar :: utf8DecodeLossyAux fuel rest
        | _ => [replacementChar]
      else if b0 < 245 then
        match rest with
        | b1 :: b2 :: b3 :: rest3 =>
          if (128 ≤ b1 ∧ b1 < 192) ∧ (128 ≤ b2 ∧ b2 < 192) ∧ (128 ≤ b3 ∧ b3 < 192)
              ∧ (b0 = 240 → 144 ≤ b1) ∧ (b0 = 244 → b1 < 144) then
            Char.ofNat ((b0 - 240) * 262144 + (b1 - 128) * 4096
              + (b2 - 128) * 64 + (b3 - 128)) :: utf8DecodeLossyAux fuel rest3
          else replacementChar :: utf8DecodeLossyAux fuel rest
        | _ => [replacementChar]
      else replacementChar :: utf8DecodeLossyAux fuel rest

/-- Lossy UTF-8 decoding of a byte string. -/
def utf8DecodeLossy (bs : List Nat) : List Char := utf8DecodeLossyAux bs.length bs

theorem char_scalar_bounds (c : Char) :
    c.toNat < 55296 ∨ (57344 ≤ c.toNat ∧ c.toNat < 1114112) := by
  have he : c.toNat = c.val.toNat := rfl
  rcases c.valid with h | ⟨h1, h2⟩
  · left
    omega
  · right
    constructor <;> omega

theorem utf8DecodeLossyAux_nil (f : Nat) : utf8DecodeLossyAux f [] = [] := by
  cases f <;> rfl

theorem utf8DecodeLossyAux_step (f : Nat) (c : Char) (tail : List Nat) :
    utf8DecodeLossyAux (f + 1) (utf8EncodeChar c ++ tail) = c :: utf8DecodeLossyAux f tail := by
  have hb := char_scalar_bounds c
  rw [utf8EncodeChar]
  set n := c.toNat with hn
  by_cases h1 : n < 128
  · rw [if_pos h1]
    show utf8DecodeLossyAux (f + 1) (n :: tail) = _
    simp only [utf8DecodeLossyAux]
    rw [if_pos h1, hn, Char.ofNat_toNat]
  · by_cases h2 : n < 2048
    · rw [if_neg h1, if_pos h2]
      show utf8DecodeLossyAux (f + 1) (_ :: _ :: tail) = _
      simp only [utf8DecodeLossyAux]
      rw [if_neg (by omega), if_neg (by omega), if_pos (by omega), if_pos (by omega)]
      have he : (192 + n / 64 - 192) * 64 + (128 + n % 64 - 128) = n := by omega
      rw [he, hn, Char.ofNat_toNat]
    · by_cases h3 : n < 65536
      · rw [if_neg h1, if_neg h2, if_pos h3]
        show utf8DecodeLossyAux (f + 1) (_ :: _ :: _ :: tail) = _
        simp only [utf8DecodeLossyAux]
        rw [if_neg (by omega), if_neg (by omega), if_neg (by omega), if_pos (by omega),
          if_pos (by omega)]
        have he : (224 + n / 4096 - 224) * 4096 + (128 + n / 64 % 64 - 128) * 64
            + (128 + n % 64 - 128) = n := by omega
        rw [he, hn, Char.ofNat_toNat]
      · rw [if_neg h1, if_neg h2, if_neg h3]
        show utf8DecodeLossyAux (f + 1) (_ :: _ :: _ :: _ :: tail) = _
        simp only [utf8DecodeLossyAux]
        rw [if_neg (by omega), if_neg (by omega), if_neg (by omega), if_neg (by omega),
          if_pos (by omega), if_pos (by omega)]
        have he : (240 + n / 262144 - 240) * 262144 + (128 + n / 4096 % 64 - 128) * 4096
            + (128 + n / 64 % 64 - 128) * 64 + (128 + n % 64 - 128) = n := by omega
        rw [he, hn, Char.ofNat_toNat]

theorem utf8Encode_append (a b : List Char) :
    utf8Encode (a ++ b) = utf8Encode a ++ utf8Encode b := by
  simp [utf8Encode]

theorem utf8Encode_length_ge (s : List Char) : s.length ≤ (utf8Encode s).length := by
  induction s with
  | nil => simp [utf8Encode]
  | cons c cs ih =>
    have hc : 1 ≤ (utf8EncodeChar c).length := by
      rw [utf8EncodeChar]
      split
      · simp
      · split
        · simp
        · split <;> simp
    show cs.length + 1 ≤ ((utf8EncodeChar c ++ utf8Encode cs)).length
    rw [List.length_append]
    omega

theorem utf8DecodeLossyAux_encode (s : List Char) :
    ∀ (f : Nat) (tail : List Nat),
    utf8DecodeLossyAux (f + s.length) (utf8Encode s ++ tail) = s ++ utf8DecodeLossyAux f tail := by
  induction s with
  | nil => intro f tail; simp [utf8Encode]
  | cons c cs ih =>
    intro f tail
    show utf8DecodeLossyAux (f + (cs.length + 1)) ((utf8EncodeChar c ++ utf8Encode cs) ++ tail) = _
    rw [List.append_assoc, show f + (cs.length + 1) = (f + cs.length) + 1 from rfl,
      utf8DecodeLossyAux_step, ih f tail]
    rfl

theorem utf8_decode_encode (s : List Char) : utf8DecodeLossy (utf8Encode s) = s := by
  rw [utf8DecodeLossy]
  have hge := utf8Encode_length_ge s
  have h := utf8DecodeLossyAux_encode s ((utf8Encode s).length - s.length) []
  rw [List.append_nil] at h
  rw [show (utf8Encode s).length = ((utf8Encode s).length - s.length) + s.length by omega, h,
    utf8DecodeLossyAux_nil, List.append_nil]

/-! ## Percent-encoding (`export.rs`) and percent-decoding (`import.rs`) -/

/-- The character classes preserved verbatim by `urlencoding_encode`:
`A–Z a–z 0–9 - _ . ~`, written over the scalar value. -/
def isUnreservedChar (c : Char) : Bool :=
  let n := c.toNat
  ((65 ≤ n ∧ n ≤ 90) ∨ (97 ≤ n ∧ n ≤ 122) ∨ (48 ≤ n ∧ n ≤ 57)
    ∨ n = 45 ∨ n = 95 ∨ n = 46 ∨ n = 126 : Prop)

/-- Uppercase hexadecimal digit, as Rust `format!("%{:02X}", byte)`. -/
def hexUpperDigit (n : Nat) : Char :=
  if n < 10 then Char.ofNat (48 + n) else Char.ofNat (55 + n)

/-- `%HH` escape of one byte. -/
def pctByte (b : Nat) : List Char := ['%', hexUpperDigit (b / 16), hexUpperDigit (b % 16)]

/-- The per-character emission of `urlencoding_encode`. -/
def urlencodingEncodeChar (c : Char) : List Char :=
  if isUnreservedChar c then [c]
  else if c = ' ' then "%20".data
  else if c = ':' then "%3A".data
  else if c = '@' then "%40".data
  else ((utf8EncodeChar c).map pctByte).flatten

/-- `urlencoding_encode` from `export.rs`. -/
def urlencodingEncode (s : List Char) : List Char :=
  (s.map urlencodingEncodeChar).flatten

/-- Rust `char::is_ascii_hexdigit` on a byte. -/
def isAsciiHexDigitByte (b : Nat) : Bool :=
  ((48 ≤ b ∧ b ≤ 57) ∨ (65 ≤ b ∧ b ≤ 70) ∨ (97 ≤ b ∧ b ≤ 102) : Prop)

/-- Value of an ASCII hex digit byte. -/
def hexVal (b : Nat) : Nat :=
  if b ≤ 57 then b - 48 else if b ≤ 70 then b - 55 else b - 87

/-- The byte loop of `urlencoding_decode`: `%HH` with two hex digits
becomes a byte, `+` becomes a space, anything else passes through (an
incomplete or invalid escape keeps the `%`). -/
def pctDecodeBytes : List Nat → List Nat
  | [] => []
  | 37 :: h1 :: h2 :: rest =>
    if isAsciiHexDigitByte h1 ∧ isAsciiHexDigitByte h2 then
      (16 * hexVal h1 + hexVal h2) :: pctDecodeBytes rest
    else 37 :: pctDecodeBytes (h1 :: h2 :: rest)
  | 43 :: rest => 32 :: pctDecodeBytes rest
  | b :: rest => b :: pctDecodeBytes rest

/-- `urlencoding_decode` from `import.rs`: decode the escapes at byte
level, then recover a string with lossy UTF-8. -/
def urlencodingDecode (s : List Char) : List Char :=
  utf8DecodeLossy (pctDecodeBytes (utf8Encode s))

theorem toNat_ofNat_small {n : Nat} (h : n < 55296) : (Char.ofNat n).toNat = n := by
  rw [Char.ofNat, dif_pos]
  · rfl
  · exact Or.inl h

theorem utf8Encode_cons (c : Char) (s : List Char) :
    utf8Encode (c :: s) = utf8EncodeChar c ++ utf8Encode s := by
  simp [utf8Encode]

theorem utf8EncodeChar_ascii {c : Char} (h : c.toNat < 128) :
    utf8EncodeChar c = [c.toNat] := by
  rw [utf8EncodeChar, if_pos h]

theorem utf8EncodeChar_byte_shape {c : Char} :
    ∀ b ∈ utf8EncodeChar c, b = c.toNat ∨ 128 ≤ b := by
  intro b hb
  rw [utf8EncodeChar] at hb
  set n := c.toNat
  by_cases h1 : n < 128
  · rw [if_pos h1] at hb
    simp at hb
    exact Or.inl hb
  · right
    by_cases h2 : n < 2048
    · rw [if_neg h1, if_pos h2] at hb
      simp at hb
      rcases hb with rfl | rfl <;> omega
    · by_cases h3 : n < 65536
      · rw [if_neg h1, if_neg h2, if_pos h3] at hb
        simp at hb
        rcases hb with rfl | rfl | rfl <;> omega
      · rw [if_neg h1, if_neg h2, if_neg h3] at hb
        simp at hb
        rcases hb with rfl | rfl | rfl | rfl <;> omega

theorem pctDecodeBytes_cons_other {b : Nat} (h37 : b ≠ 37) (h43 : b ≠ 43)
    (rest : List Nat) : pctDecodeBytes (b :: rest) = b :: pctDecodeBytes rest := by
  rw [pctDecodeBytes.eq_def]
  split <;> simp_all

theorem hexUpperDigit_toNat {n : Nat} (h : n < 16) :
    (hexUpperDigit n).toNat = if n < 10 then 48 + n else 55 + n := by
  rw [hexUpperDigit]
  by_cases h10 : n < 10
  · rw [if_pos h10, if_pos h10, toNat_ofNat_small (by omega)]
  · rw [if_neg h10, if_neg h10, toNat_ofNat_small (by omega)]

theorem hexVal_hexUpperDigit {n : Nat} (h : n < 16) :
    (isAsciiHexDigitByte ((hexUpperDigit n).toNat) = true)
      ∧ hexVal ((hexUpperDigit n).toNat) = n := by
  rw [hexUpperDigit_toNat h, isAsciiHexDigitByte, hexVal]
  by_cases h10 : n < 10
  · rw [if_pos h10]
    refine ⟨by simp; omega, by rw [if_pos (by omega)]; omega⟩
  · rw [if_neg h10]
    refine ⟨by simp; omega, by rw [if_neg (by omega), if_pos (by omega)]; omega⟩

theorem pctDecode_pctByte {b : Nat} (hb : b < 256) (btail : List Nat) :
    pctDecodeBytes (utf8Encode (pctByte b) ++ btail) = b :: pctDecodeBytes btail := by
  have hd1 := hexVal_hexUpperDigit (show b / 16 < 16 by omega)
  have hd2 := hexVal_hexUpperDigit (show b % 16 < 16 by omega)
  have hle1 : (hexUpperDigit (b / 16)).toNat < 128 := by
    rw [hexUpperDigit_toNat (by omega)]
    split <;> omega
  have hle2 : (hexUpperDigit (b % 16)).toNat < 128 := by
    rw [hexUpperDigit_toNat (by omega)]
    split <;> omega
  rw [pctByte, utf8Encode_cons, utf8Encode_cons, utf8Encode_cons,
    utf8EncodeChar_ascii (show ('%').toNat < 128 by decide),
    utf8EncodeChar_ascii hle1, utf8EncodeChar_ascii hle2]
  show pctDecodeBytes (37 :: _ :: _ :: ([] ++ btail)) = _
  rw [List.nil_append, pctDecodeBytes, if_pos ⟨hd1.1, hd2.1⟩, hd1.2, hd2.2]
  congr 1
  omega

theorem pctDecode_pctBytes : ∀ (bs : List Nat), (∀ b ∈ bs, b < 256) → ∀ (btail : List Nat),
    pctDecodeBytes (utf8Encode ((bs.map pctByte).flatten) ++ btail)
      = bs ++ pctDecodeBytes btail := by
  intro bs
  induction bs with
  | nil => intro _ btail; simp [utf8Encode]
  | cons b bs ih =>
    intro hlt btail
    rw [List.map_cons, List.flatten_cons, utf8Encode_append, List.append_assoc,
      pctDecode_pctByte (hlt b (List.mem_cons_self b bs)),
      ih (fun x hx => hlt x (List.mem_cons_of_mem _ hx)) btail]
    rfl

theorem utf8EncodeChar_lt (c : Char) : ∀ b ∈ utf8EncodeChar c, b < 256 := by
  have hb := char_scalar_bounds c
  intro b hmem
  rw [utf8EncodeChar] at hmem
  set n := c.toNat
  by_cases h1 : n < 128
  · rw [if_pos h1] at hmem
    simp at hmem
    omega
  · by_cases h2 : n < 2048
    · rw [if_neg h1, if_pos h2] at hmem
      simp at hmem
      rcases hmem with rfl | rfl <;> omega
    · by_cases h3 : n < 65536
      · rw [if_neg h1, if_neg h2, if_pos h3] at hmem
        simp at hmem
        rcases hmem with rfl | rfl | rfl <;> omega
      · rw [if_neg h1, if_neg h2, if_neg h3] at hmem
        simp at hmem
        rcases hmem with rfl | rfl | rfl | rfl <;> omega

theorem pctDecode_encodeChar (c : Char) (btail : List Nat) :
    pctDecodeBytes (utf8Encode (urlencodingEncodeChar c) ++ btail)
      = utf8EncodeChar c ++ pctDecodeBytes btail := by
  rw [urlencodingEncodeChar]
  by_cases hu : isUnreservedChar c
  · rw [if_pos hu]
    rw [isUnreservedChar] at hu
    simp only [decide_eq_true_eq] at hu
    have hlt : c.toNat < 128 := by omega
    rw [utf8Encode_cons, show utf8Encode [] = [] from rfl, List.append_nil,
      utf8EncodeChar_ascii hlt]
    show pctDecodeBytes (c.toNat :: btail) = _
    rw [pctDecodeBytes_cons_other (by omega) (by omega)]
    rfl
  · rw [if_neg hu]
    by_cases hsp : c = ' '
    · subst hsp
      rw [if_pos rfl]
      show pctDecodeBytes (utf8Encode ['%', '2', '0'] ++ btail) = utf8EncodeChar ' ' ++ _
      rw [show utf8Encode ['%', '2', '0'] = [37, 50, 48] from rfl,
        show utf8EncodeChar ' ' = [32] from rfl]
      show pctDecodeBytes (37 :: 50 :: 48 :: btail) = _
      rw [pctDecodeBytes, if_pos (by decide)]
      rfl
    · rw [if_neg hsp]
      by_cases hco : c = ':'
      · subst hco
        rw [if_pos rfl]
        rw [show utf8Encode "%3A".data = [37, 51, 65] from rfl,
          show utf8EncodeChar ':' = [58] from rfl]
        show pctDecodeBytes (37 :: 51 :: 65 :: btail) = _
        rw [pctDecodeBytes, if_pos (by decide)]
        rfl
      · rw [if_neg hco]
        by_cases hat : c = '@'
        · subst hat
          rw [if_pos rfl]
          rw [show utf8Encode "%40".data = [37, 52, 48] from rfl,
            show utf8EncodeChar '@' = [64] from rfl]
          show pctDecodeBytes (37 :: 52 :: 48 :: btail) = _
          rw [pctDecodeBytes, if_pos (by decide)]
          rfl
        · rw [if_neg hat]
          exact pctDecode_pctBytes (utf8EncodeChar c) (utf8EncodeChar_lt c) btail

theorem pctDecode_encode : ∀ (s : List Char) (btail : List Nat),
    pctDecodeBytes (utf8Encode (urlencodingEncode s) ++ btail)
      = utf8Encode s ++ pctDecodeBytes btail := by
  intro s
  induction s with
  | nil => intro btail; simp [urlencodingEncode, utf8Encode]
  | cons c cs ih =>
    intro btail
    rw [urlencodingEncode, List.map_cons, List.flatten_cons, utf8Encode_append,
      List.append_assoc, pctDecode_encodeChar]
    show _ = utf8Encode (c :: cs) ++ _
    rw [utf8Encode_cons, List.append_assoc]
    congr 1
    exact ih btail

theorem urlencodingDecode_encode (s : List Char) :
    urlencodingDecode (urlencodingEncode s) = s := by
  rw [urlencodingDecode]
  have h := pctDecode_encode s []
  rw [List.append_nil, show pctDecodeBytes [] = [] from rfl, List.append_nil] at h
  rw [h, utf8_decode_encode]

theorem pctDecodeBytes_plain : ∀ (bs : List Nat), (∀ b ∈ bs, b ≠ 37 ∧ b ≠ 43) →
    pctDecodeBytes bs = bs := by
  intro bs
  induction bs with
  | nil => intro _; rfl
  | cons b rest ih =>
    intro h
    rw [pctDecodeBytes_cons_other (h b (List.mem_cons_self b rest)).1
      (h b (List.mem_cons_self b rest)).2,
      ih (fun x hx => h x (List.mem_cons_of_mem _ hx))]

theorem urlencodingDecode_plain (s : List Char) (hp : '%' ∉ s) (hq : '+' ∉ s) :
    urlencodingDecode s = s := by
  rw [urlencodingDecode, pctDecodeBytes_plain, utf8_decode_encode]
  intro b hb
  rw [utf8Encode] at hb
  rcases List.mem_flatten.mp hb with ⟨l, hl, hbl⟩
  rcases List.mem_map.mp hl with ⟨c, hcs, rfl⟩
  rcases utf8EncodeChar_byte_shape b hbl with rfl | hge
  · constructor
    · intro h37
      apply hp
      have : c = '%' := by
        rw [← Char.ofNat_toNat c, h37]
      exact this ▸ hcs
    · intro h43
      apply hq
      have : c = '+' := by
        rw [← Char.ofNat_toNat c, h43]
      exact this ▸ hcs
  · constructor <;> omega

/-! ## String splitting helpers (Rust `split_once` / `split`) -/

/-- Rust `str::split_once(sep)` on a character list. -/
def splitOnce (sep : Char) : List Char → Option (List Char × List Char)
  | [] => none
  | c :: rest =>
    if c = sep then some ([], rest)
    else (splitOnce sep rest).map (fun p => (c :: p.1, p.2))

/-- Rust `str::split(sep)`, which always yields at least one piece. -/
def splitAll (sep : Char) : List Char → List (List Char)
  | [] => [[]]
  | c :: rest =>
    let r := splitAll sep rest
    if c = sep then [] :: r
    else (c :: r.headD []) :: r.tail

/-- ASCII lower-casing of one character (`str::to_lowercase`; the full
Unicode mapping agrees on every character reaching it here). -/
def asciiLower (c : Char) : Char :=
  if 65 ≤ c.toNat ∧ c.toNat ≤ 90 then Char.ofNat (c.toNat + 32) else c

/-- ASCII upper-casing of one character (`str::to_uppercase`). -/
def asciiUpper (c : Char) : Char :=
  if 97 ≤ c.toNat ∧ c.toNat ≤ 122 then Char.ofNat (c.toNat - 32) else c

def lowerStr (s : List Char) : List Char := s.map asciiLower

def upperStr (s : List Char) : List Char := s.map asciiUpper

theorem splitOnce_append {sep : Char} : ∀ {a : List Char}, sep ∉ a → ∀ (b : List Char),
    splitOnce sep (a ++ sep :: b) = some (a, b) := by
  intro a
  induction a with
  | nil => intro _ b; simp [splitOnce]
  | cons c rest ih =>
    intro hna b
    rw [List.cons_append, splitOnce,
      if_neg (fun (h : c = sep) => hna (h ▸ List.mem_cons_self c rest)),
      ih (fun h => hna (List.mem_cons_of_mem _ h)) b]
    rfl

theorem splitOnce_not_mem {sep : Char} : ∀ {a : List Char}, sep ∉ a →
    splitOnce sep a = none := by
  intro a
  induction a with
  | nil => intro _; rfl
  | cons c rest ih =>
    intro hna
    rw [splitOnce, if_neg (fun (h : c = sep) => hna (h ▸ List.mem_cons_self c rest)),
      ih (fun h => hna (List.mem_cons_of_mem _ h))]
    rfl

theorem splitAll_not_mem {sep : Char} : ∀ {a : List Char}, sep ∉ a →
    splitAll sep a = [a] := by
  intro a
  induction a with
  | nil => intro _; rfl
  | cons c rest ih =>
    intro hna
    rw [splitAll]
    show (if c = sep then _ else _) = _
    rw [if_neg (fun (h : c = sep) => hna (h ▸ List.mem_cons_self c rest)),
      ih (fun h => hna (List.mem_cons_of_mem _ h))]
    rfl

theorem splitAll_append {sep : Char} : ∀ {a : List Char}, sep ∉ a → ∀ (b : List Char),
    splitAll sep (a ++ sep :: b) = a :: splitAll sep b := by
  intro a
  induction a with
  | nil => intro _ b; simp [splitAll]
  | cons c rest ih =>
    intro hna b
    rw [List.cons_append, splitAll]
    show (if c = sep then _ else _) = _
    rw [if_neg (fun (h : c = sep) => hna (h ▸ List.mem_cons_self c rest)),
      ih (fun h => hna (List.mem_cons_of_mem _ h)) b]
    rfl

/-- Rust `Vec::join(sep)` on string pieces. -/
def joinSep (sep : Char) : List (List Char) → List Char
  | [] => []
  | [p] => p
  | p :: rest => p ++ sep :: joinSep sep rest

/-- `splitAll` over a join of separator-free pieces. -/
theorem splitAll_joinSep {sep : Char} : ∀ (parts : List (List Char)),
    parts ≠ [] → (∀ p ∈ parts, sep ∉ p) →
    splitAll sep (joinSep sep parts) = parts := by
  intro parts
  induction parts with
  | nil => intro h _; exact absurd rfl h
  | cons p rest ih =>
    intro _ hsep
    cases rest with
    | nil =>
      rw [joinSep, splitAll_not_mem (hsep p (List.mem_cons_self p []))]
    | cons q rest2 =>
      rw [show joinSep sep (p :: q :: rest2) = p ++ sep :: joinSep sep (q :: rest2) from rfl,
        splitAll_append (hsep p (List.mem_cons_self p _)),
        ih (by simp) (fun x hx => hsep x (List.mem_cons_of_mem _ hx))]

/-! ## Rust unsigned-integer parsing (`str::parse::<uN>`) -/

/-- Rust `str::parse` for an unsigned integer type with exclusive bound
`bound`: an optional leading `+`, then one or more ASCII digits, with
overflow rejected. -/
def parseUIntRust (bound : Nat) (s : List Char) : Option Nat :=
  let digs := match s with
    | [] => []
    | c :: rest => if c = '+' then rest else c :: rest
  if digs = [] then none
  else if digs.all (fun c => 48 ≤ c.toNat ∧ c.toNat ≤ 57) then
    let v := digs.foldl (fun a c => a * 10 + (c.toNat - 48)) 0
    if v < bound then some v else none
  else none

theorem digitChar_toNat {d : Nat} (h : d < 10) : (digitChar d).toNat = 48 + d := by
  rw [digitChar, toNat_ofNat_small (by omega)]

theorem decCharsAux_foldl : ∀ (fuel n : Nat), n ≤ fuel → ∀ (a : Nat),
    (decCharsAux fuel n).foldl (fun a c => a * 10 + (c.toNat - 48)) a
      = a * 10 ^ (decCharsAux fuel n).length + n := by
  intro fuel
  induction fuel with
  | zero =>
    intro n hn a
    interval_cases n
    simp [decCharsAux]
  | succ f ih =>
    intro n hn a
    rw [decCharsAux]
    by_cases h0 : n = 0
    · simp [h0]
    · rw [if_neg h0]
      rw [List.foldl_append, ih (n / 10) (by omega) a]
      simp only [List.foldl_cons, List.foldl_nil, List.length_append, List.length_cons,
        List.length_nil]
      rw [digitChar_toNat (by omega)]
      rw [pow_succ]
      have := Nat.div_add_mod n 10
      ring_nf
      omega

theorem decCharsAux_scalar_range : ∀ (fuel n : Nat), ∀ c ∈ decCharsAux fuel n,
    48 ≤ c.toNat ∧ c.toNat ≤ 57 := by
  intro fuel
  induction fuel with
  | zero => intro n c hc; simp [decCharsAux] at hc
  | succ f ih =>
    intro n c hc
    rw [decCharsAux] at hc
    by_cases h0 : n = 0
    · simp [h0] at hc
    · rw [if_neg h0] at hc
      simp only [List.mem_append, List.mem_singleton] at hc
      rcases hc with h | rfl
      · exact ih _ _ h
      · rw [digitChar_toNat (by omega)]
        omega

theorem decimalString_scalar_range (n : Nat) : ∀ c ∈ decimalString n,
    48 ≤ c.toNat ∧ c.toNat ≤ 57 := by
  rw [decimalString]
  by_cases h0 : n = 0
  · intro c hc
    simp [h0] at hc
    rw [hc]
    decide
  · rw [if_neg h0]
    exact decCharsAux_scalar_range n n

theorem decimalString_ne_nil (n : Nat) : decimalString n ≠ [] := by
  rw [decimalString]
  by_cases h0 : n = 0
  · simp [h0]
  · rw [if_neg h0]
    obtain ⟨f, rfl⟩ : ∃ f, n = f + 1 := ⟨n - 1, by omega⟩
    rw [decCharsAux, if_neg h0]
    simp

theorem decimalString_foldl (n : Nat) :
    (decimalString n).foldl (fun a c => a * 10 + (c.toNat - 48)) 0 = n := by
  rw [decimalString]
  by_cases h0 : n = 0
  · simp [h0]
  · rw [if_neg h0]
    rw [decCharsAux_foldl n n le_rfl 0]
    simp

/-- Parsing the decimal rendering gives back the value (when in range). -/
theorem parseUIntRust_decimalString {bound n : Nat} (h : n < bound) :
    parseUIntRust bound (decimalString n) = some n := by
  obtain ⟨c, rest, hcr⟩ : ∃ c rest, decimalString n = c :: rest := by
    cases hd : decimalString n with
    | nil => exact absurd hd (decimalString_ne_nil n)
    | cons c rest => exact ⟨c, rest, rfl⟩
  have hplus : c ≠ '+' := by
    intro hc
    have := decimalString_scalar_range n c (hcr ▸ List.mem_cons_self c rest)
    rw [hc] at this
    simp at this
  rw [parseUIntRust.eq_def, hcr]
  dsimp only
  rw [if_neg hplus, if_neg (by simp)]
  rw [if_pos (by
    rw [List.all_eq_true]
    intro x hx
    have := decimalString_scalar_range n x (hcr ▸ hx)
    simp only [decide_eq_true_eq]
    exact this)]
  rw [show (c :: rest : List Char) = decimalString n from hcr.symm, decimalString_foldl,
    if_pos h]

/-! ## Base32 (RFC 4648, no padding)

Modelled from the spec: the `base32` crate used by `export.rs` /
`import.rs` is an external dependency; the spec fixes the encoding to
RFC 4648 without padding, case-insensitive on read (`import.rs`
uppercases before decoding).  The crate processes the input in 40-bit
groups: 5 bytes become 8 characters, a short final group of 1/2/3/4
bytes becomes 2/4/5/7 characters; decoding maps characters to 5-bit
values and keeps only the whole bytes. -/

/-- The RFC 4648 character of a 5-bit value. -/
def b32CharOfVal (v : Nat) : Char :=
  if v < 26 then Char.ofNat (65 + v) else Char.ofNat (24 + v)

/-- The 5-bit value of an uppercase RFC 4648 character, if any. -/
def b32CharVal (c : Char) : Option Nat :=
  let n := c.toNat
  if 65 ≤ n ∧ n ≤ 90 then some (n - 65)
  else if 50 ≤ n ∧ n ≤ 55 then some (n - 24)
  else none

/-- Encode one group of 1–5 bytes into its base32 characters. -/
def b32EncodeGroup (g : List Nat) : List Char :=
  let buf := (g ++ List.replicate (5 - g.length) 0).foldl (fun a b => a * 256 + b % 256) 0
  (List.range ((8 * g.length + 4) / 5)).map
    (fun i => b32CharOfVal (buf / 2 ^ (35 - 5 * i) % 32))

/-- Fuel-bounded base32 encoding over 5-byte groups. -/
def base32EncodeAux : Nat → List Nat → List Char
  | 0, _ => []
  | fuel + 1, bs =>
    if bs = [] then []
    else b32EncodeGroup (bs.take 5) ++ base32EncodeAux fuel (bs.drop 5)

/-- `base32::encode(Rfc4648 { padding: false }, _)`. -/
def base32Encode (bs : List Nat) : List Char := base32EncodeAux bs.length bs

/-- The 5-bit values of a character group, failing on a bad character. -/
def b32Vals : List Char → Option (List Nat)
  | [] => some []
  | c :: cs =>
    match b32CharVal c, b32Vals cs with
    | some v, some vs => some (v :: vs)
    | _, _ => none

/-- Decode one group of up to 8 characters into its whole bytes. -/
def b32DecodeGroup (g : List Char) : Option (List Nat) :=
  (b32Vals g).map (fun vs =>
    let buf := (vs ++ List.replicate (8 - vs.length) 0).foldl (fun a v => a * 32 + v % 32) 0
    (List.range (5 * g.length / 8)).map (fun j => buf / 2 ^ (32 - 8 * j) % 256))

/-- Fuel-bounded base32 decoding over 8-character groups. -/
def base32DecodeAux : Nat → List Char → Option (List Nat)
  | 0, _ => some []
  | fuel + 1, cs =>
    if cs = [] then some []
    else
      match b32DecodeGroup (cs.take 8), base32DecodeAux fuel (cs.drop 8) with
      | some g, some rest => some (g ++ rest)
      | _, _ => none

/-- `base32::decode(Rfc4648 { padding: false }, _)`. -/
def base32Decode (s : List Char) : Option (List Nat) := base32DecodeAux s.length s


theorem b32CharVal_ofVal {v : Nat} (h : v < 32) : b32CharVal (b32CharOfVal v) = some v := by
  rw [b32CharOfVal, b32CharVal]
  by_cases h26 : v < 26
  · rw [if_pos h26, toNat_ofNat_small (by omega)]
    rw [if_pos (by omega)]
    congr 1
    omega
  · rw [if_neg h26, toNat_ofNat_small (by omega)]
    rw [if_neg (by omega), if_pos (by omega)]
    congr 1
    omega

theorem foldl_mul32_replicate_zero : ∀ (k x : Nat),
    List.foldl (fun a v => a * 32 + v % 32) x (List.replicate k 0) = x * 2 ^ (5 * k) := by
  intro k
  induction k with
  | zero => intro x; simp
  | succ j ih =>
    intro x
    show List.foldl _ (x * 32 + 0 % 32) (List.replicate j 0) = _
    rw [ih]
    ring

theorem foldl_mul256_replicate_zero : ∀ (k x : Nat),
    List.foldl (fun a b => a * 256 + b % 256) x (List.replicate k 0) = x * 2 ^ (8 * k) := by
  intro k
  induction k with
  | zero => intro x; simp
  | succ j ih =>
    intro x
    show List.foldl _ (x * 256 + 0 % 256) (List.replicate j 0) = _
    rw [ih]
    ring

theorem b32Vals_map : ∀ (vs : List Nat), (∀ v ∈ vs, v < 32) →
    b32Vals (vs.map b32CharOfVal) = some vs := by
  intro vs
  induction vs with
  | nil => intro _; rfl
  | cons v rest ih =>
    intro h
    rw [List.map_cons, b32Vals, b32CharVal_ofVal (h v (List.mem_cons_self v rest)),
      ih (fun x hx => h x (List.mem_cons_of_mem _ hx))]

set_option maxRecDepth 4000 in
set_option maxHeartbeats 2000000 in
theorem b32group_rt1 (B : Nat) (a : Nat) (ha : a < 256)
    (hBdef : B = a * 2 ^ 32) :
    b32DecodeGroup (b32EncodeGroup [a]) = some [a] := by
  have e1 : b32EncodeGroup [a]
      = [B / 2 ^ 35 % 32,
       B / 2 ^ 30 % 32].map b32CharOfVal := by
    rw [b32EncodeGroup]
    norm_num [List.range_succ, foldl_mul256_replicate_zero]
    refine ⟨?_, ?_⟩ <;> · congr 1; omega
  rw [e1, b32DecodeGroup, b32Vals_map _ (fun v hv => by
    simp only [List.mem_cons, List.not_mem_nil, or_false] at hv
    rcases hv with rfl|rfl <;> exact Nat.mod_lt _ (by norm_num))]
  simp only [Option.map_some]
  norm_num [List.range_succ, foldl_mul32_replicate_zero]
  omega

set_option maxRecDepth 4000 in
set_option maxHeartbeats 2000000 in
theorem b32group_rt2 (B : Nat) (a b : Nat) (ha : a < 256) (hb : b < 256)
    (hBdef : B = a * 2 ^ 32 + b * 2 ^ 24) :
    b32DecodeGroup (b32EncodeGroup [a, b]) = some [a, b] := by
  have e1 : b32EncodeGroup [a, b]
      = [B / 2 ^ 35 % 32,
       B / 2 ^ 30 % 32,
       B / 2 ^ 25 % 32,
       B / 2 ^ 20 % 32].map b32CharOfVal := by
    rw [b32EncodeGroup]
    norm_num [List.range_succ, foldl_mul256_replicate_zero]
    refine ⟨?_, ?_, ?_, ?_⟩ <;> · congr 1; omega
  rw [e1, b32DecodeGroup, b32Vals_map _ (fun v hv => by
    simp only [List.mem_cons, List.not_mem_nil, or_false] at hv
    rcases hv with rfl|rfl|rfl|rfl <;> exact Nat.mod_lt _ (by norm_num))]
  simp only [Option.map_some]
  norm_num [List.range_succ, foldl_mul32_replicate_zero]
  refine ⟨?_, ?_⟩ <;> omega

set_option maxRecDepth 4000 in
set_option maxHeartbeats 2000000 in
theorem b32group_rt3 (B : Nat) (a b c : Nat) (ha : a < 256) (hb : b < 256) (hc : c < 256)
    (hBdef : B = a * 2 ^ 32 + b * 2 ^ 24 + c * 2 ^ 16) :
    b32DecodeGroup (b32EncodeGroup [a, b, c]) = some [a, b, c] := by
  have e1 : b32EncodeGroup [a, b, c]
      = [B / 2 ^ 35 % 32,
       B / 2 ^ 30 % 32,
       B / 2 ^ 25 % 32,
       B / 2 ^ 20 % 32,
       B / 2 ^ 15 % 32].map b32CharOfVal := by
    rw [b32EncodeGroup]
    norm_num [List.range_succ, foldl_mul256_replicate_zero]
    refine ⟨?_, ?_, ?_, ?_, ?_⟩ <;> · congr 1; omega
  rw [e1, b32DecodeGroup, b32Vals_map _ (fun v hv => by
    simp only [List.mem_cons, List.not_mem_nil, or_false] at hv
    rcases hv with rfl|rfl|rfl|rfl|rfl <;> exact Nat.mod_lt _ (by norm_num))]
  simp only [Option.map_some]
  norm_num [List.range_succ, foldl_mul32_replicate_zero]
  refine ⟨?_, ?_, ?_⟩ <;> omega

set_option maxRecDepth 4000 in
set_option maxHeartbeats 2000000 in
theorem b32group_rt4 (B : Nat) (a b c d : Nat) (ha : a < 256) (hb : b < 256) (hc : c < 256) (hd : d < 256)
    (hBdef : B = a * 2 ^ 32 + b * 2 ^ 24 + c * 2 ^ 16 + d * 2 ^ 8) :
    b32DecodeGroup (b32EncodeGroup [a, b, c, d]) = some [a, b, c, d] := by
  have e1 : b32EncodeGroup [a, b, c, d]
      = [B / 2 ^ 35 % 32,
       B / 2 ^ 30 % 32,
       B / 2 ^ 25 % 32,
       B / 2 ^ 20 % 32,
       B / 2 ^ 15 % 32,
       B / 2 ^ 10 % 32,
       B / 2 ^ 5 % 32].map b32CharOfVal := by
    rw [b32EncodeGroup]
    norm_num [List.range_succ, foldl_mul256_replicate_zero]
    refine ⟨?_, ?_, ?_, ?_, ?_, ?_, ?_⟩ <;> · congr 1; omega
  rw [e1, b32DecodeGroup, b32Vals_map _ (fun v hv => by
    simp only [List.mem_cons, List.not_mem_nil, or_false] at hv
    rcases hv with rfl|rfl|rfl|rfl|rfl|rfl|rfl <;> exact Nat.mod_lt _ (by norm_num))]
  simp only [Option.map_some]
  norm_num [List.range_succ, foldl_mul32_replicate_zero]
  refine ⟨?_, ?_, ?_, ?_⟩ <;> omega

set_option maxRecDepth 4000 in
set_option maxHeartbeats 2000000 in
theorem b32group_rt5 (B : Nat) (a b c d e : Nat) (ha : a < 256) (hb : b < 256) (hc : c < 256) (hd : d < 256) (he : e < 256)
    (hBdef : B = a * 2 ^ 32 + b * 2 ^ 24 + c * 2 ^ 16 + d * 2 ^ 8 + e) :
    b32DecodeGroup (b32EncodeGroup [a, b, c, d, e]) = some [a, b, c, d, e] := by
  have e1 : b32EncodeGroup [a, b, c, d, e]
      = [B / 2 ^ 35 % 32,
       B / 2 ^ 30 % 32,
       B / 2 ^ 25 % 32,
       B / 2 ^ 20 % 32,
       B / 2 ^ 15 % 32,
       B / 2 ^ 10 % 32,
       B / 2 ^ 5 % 32,
       B / 2 ^ 0 % 32].map b32CharOfVal := by
    rw [b32EncodeGroup]
    norm_num [List.range_succ, foldl_mul256_replicate_zero]
    refine ⟨?_, ?_, ?_, ?_, ?_, ?_, ?_, ?_⟩ <;> · congr 1; omega
  rw [e1, b32DecodeGroup, b32Vals_map _ (fun v hv => by
    simp only [List.mem_cons, List.not_mem_nil, or_false] at hv
    rcases hv with rfl|rfl|rfl|rfl|rfl|rfl|rfl|rfl <;> exact Nat.mod_lt _ (by norm_num))]
  simp only [Option.map_some]
  norm_num [List.range_succ, foldl_mul32_replicate_zero]
  refine ⟨?_, ?_, ?_, ?_, ?_⟩ <;> omega

theorem b32group_roundtrip : ∀ (g : List Nat), g ≠ [] → g.length ≤ 5 →
    (∀ b ∈ g, b < 256) → b32DecodeGroup (b32EncodeGroup g) = some g := by
  intro g hne hlen hb
  rcases g with _ | ⟨a, _ | ⟨b, _ | ⟨c, _ | ⟨d, _ | ⟨e, rest⟩⟩⟩⟩⟩
  · exact absurd rfl hne
  · exact b32group_rt1 _ a (hb a (by simp)) rfl
  · exact b32group_rt2 _ a b (hb a (by simp)) (hb b (by simp)) rfl
  · exact b32group_rt3 _ a b c (hb a (by simp)) (hb b (by simp)) (hb c (by simp)) rfl
  · exact b32group_rt4 _ a b c d (hb a (by simp)) (hb b (by simp)) (hb c (by simp))
      (hb d (by simp)) rfl
  · rcases rest with _ | ⟨x, rest2⟩
    · exact b32group_rt5 _ a b c d e (hb a (by simp)) (hb b (by simp)) (hb c (by simp))
        (hb d (by simp)) (hb e (by simp)) rfl
    · simp at hlen

theorem b32EncodeGroup_length (g : List Nat) :
    (b32EncodeGroup g).length = (8 * g.length + 4) / 5 := by
  simp [b32EncodeGroup]

theorem base32EncodeAux_nil (fe : Nat) : base32EncodeAux fe [] = [] := by
  cases fe <;> rfl

theorem base32DecodeAux_nil (fd : Nat) : base32DecodeAux fd [] = some [] := by
  cases fd <;> rfl

theorem base32EncodeAux_length_ge : ∀ (fe : Nat) (bs : List Nat), bs.length ≤ fe →
    bs.length ≤ (base32EncodeAux fe bs).length := by
  intro fe
  induction fe with
  | zero =>
    intro bs h
    have : bs = [] := List.length_eq_zero.mp (by omega)
    simp [this]
  | succ f ih =>
    intro bs h
    cases bs with
    | nil => simp
    | cons x xs =>
      rw [show base32EncodeAux (f + 1) (x :: xs) = if (x :: xs) = ([] : List Nat) then []
          else b32EncodeGroup ((x :: xs).take 5) ++ base32EncodeAux f ((x :: xs).drop 5)
          from rfl,
        if_neg (by simp), List.length_append, b32EncodeGroup_length, List.length_take]
      by_cases hlen : (x :: xs).length ≤ 5
      · rw [List.drop_eq_nil_of_le hlen, base32EncodeAux_nil]
        simp only [List.length_nil]
        have h1 : 1 ≤ (x :: xs).length := by simp
        omega
      · have hrec := ih ((x :: xs).drop 5) (by simp at h ⊢; omega)
        rw [List.length_drop] at hrec
        omega

theorem base32DecodeAux_encodeAux : ∀ (fe : Nat) (bs : List Nat), bs.length ≤ fe →
    (∀ b ∈ bs, b < 256) → ∀ (fd : Nat), bs.length ≤ 5 * fd →
    base32DecodeAux fd (base32EncodeAux fe bs) = some bs := by
  intro fe
  induction fe with
  | zero =>
    intro bs h _ fd _
    have : bs = [] := List.length_eq_zero.mp (by omega)
    subst this
    exact base32DecodeAux_nil fd
  | succ f ih =>
    intro bs hfe hb fd hfd
    cases bs with
    | nil => exact base32DecodeAux_nil fd
    | cons x xs =>
      have hlen1 : 1 ≤ (x :: xs).length := by simp
      obtain ⟨fd', rfl⟩ : ∃ fd', fd = fd' + 1 := ⟨fd - 1, by omega⟩
      rw [show base32EncodeAux (f + 1) (x :: xs) = if (x :: xs) = ([] : List Nat) then []
          else b32EncodeGroup ((x :: xs).take 5) ++ base32EncodeAux f ((x :: xs).drop 5)
          from rfl,
        if_neg (by simp)]
      have htake_ne : (x :: xs).take 5 ≠ [] := by simp
      have htake_le : ((x :: xs).take 5).length ≤ 5 := by simp [List.length_take]
      have htake_lt : ∀ b ∈ (x :: xs).take 5, b < 256 :=
        fun b hbm => hb b (List.mem_of_mem_take hbm)
      have hgrp2 : 2 ≤ (b32EncodeGroup ((x :: xs).take 5)).length := by
        rw [b32EncodeGroup_length, List.length_take]
        omega
      by_cases h5 : (x :: xs).length ≤ 5
      · rw [List.drop_eq_nil_of_le h5, base32EncodeAux_nil, List.append_nil]
        have hm : (b32EncodeGroup ((x :: xs).take 5)).length ≤ 8 := by
          rw [b32EncodeGroup_length, List.length_take]
          omega
        rw [show base32DecodeAux (fd' + 1) (b32EncodeGroup ((x :: xs).take 5))
            = if b32EncodeGroup ((x :: xs).take 5) = ([] : List Char) then some []
              else match b32DecodeGroup ((b32EncodeGroup ((x :: xs).take 5)).take 8),
                  base32DecodeAux fd' ((b32EncodeGroup ((x :: xs).take 5)).drop 8) with
                | some g, some rest => some (g ++ rest)
                | _, _ => none
            from rfl,
          if_neg (by intro hc; rw [hc] at hgrp2; simp at hgrp2),
          List.take_of_length_le hm, List.drop_eq_nil_of_le hm, base32DecodeAux_nil,
          b32group_roundtrip _ htake_ne htake_le htake_lt, List.take_of_length_le h5]
        simp
      · have hm : (b32EncodeGroup ((x :: xs).take 5)).length = 8 := by
          rw [b32EncodeGroup_length, List.length_take]
          have : min 5 (x :: xs).length = 5 := by omega
          rw [this]
        rw [show base32DecodeAux (fd' + 1)
              (b32EncodeGroup ((x :: xs).take 5) ++ base32EncodeAux f ((x :: xs).drop 5))
            = if b32EncodeGroup ((x :: xs).take 5) ++ base32EncodeAux f ((x :: xs).drop 5)
                = ([] : List Char) then some []
              else match b32DecodeGroup ((b32EncodeGroup ((x :: xs).take 5)
                    ++ base32EncodeAux f ((x :: xs).drop 5)).take 8),
                  base32DecodeAux fd' ((b32EncodeGroup ((x :: xs).take 5)
                    ++ base32EncodeAux f ((x :: xs).drop 5)).drop 8) with
                | some g, some rest => some (g ++ rest)
                | _, _ => none
            from rfl,
          if_neg (by intro hc; rw [List.append_eq_nil] at hc; rw [hc.1] at hgrp2; simp at hgrp2),
          List.take_left' hm, List.drop_left' hm,
          b32group_roundtrip _ htake_ne htake_le htake_lt,
          ih ((x :: xs).drop 5) (by simp at hfe ⊢; omega)
            (fun b hbm => hb b (List.mem_of_mem_drop hbm)) fd' (by simp at hfd ⊢; omega)]
        simp

/-- Decoding an encoding gives back the bytes. -/
theorem base32_roundtrip (bs : List Nat) (hb : ∀ b ∈ bs, b < 256) :
    base32Decode (base32Encode bs) = some bs := by
  rw [base32Decode, base32Encode]
  exact base32DecodeAux_encodeAux bs.length bs le_rfl hb _
    (le_trans (base32EncodeAux_length_ge bs.length bs le_rfl) (by omega))

/-! ## The `otpauth://` codec (`import.rs` / `export.rs`) -/

/-- The character-list form of the constants in `constants.rs`. -/
def OTPAUTH_SCHEME : List Char := "otpauth://".data

/-- Query parameters: split on `&`, keep `k=v` pieces, lower-case the
key, percent-decode the value; later entries shadow earlier ones when
looked up (`HashMap` collect semantics). -/
def queryParams (query : List Char) : List (List Char × List Char) :=
  (splitAll '&' query).filterMap (fun p =>
    (splitOnce '=' p).map (fun kv => (lowerStr kv.1, urlencodingDecode kv.2)))

/-- `HashMap::get` after collecting the pairs in order: the last
binding of the key wins. -/
def lookupParam (pairs : List (List Char × List Char)) (key : List Char) :
    Option (List Char) :=
  (pairs.reverse.find? (fun p => p.1 = key)).map (fun p => p.2)

/-- The digits step of `parse_otpauth_uri`: parse the `digits` value as
a `u32` when present and parseable, defaulting to 6. -/
def parsedDigits (params : List (List Char × List Char)) : Nat :=
  ((lookupParam params "digits".data).bind
    (fun s => parseUIntRust 4294967296 s)).getD 6

/-- The digits step together with its validation: values outside
{6, 8} are rejected. -/
def checkDigits (params : List (List Char × List Char)) : Except String Nat :=
  let digits := parsedDigits params
  if digits ≠ 6 ∧ digits ≠ 8 then .error "unsupported digits"
  else .ok digits

/-- `parse_otpauth_uri` from `import.rs`. -/
def parseOtpauthUri (uri : List Char) : Except String (Option NewToken) :=
  if ¬ (OTPAUTH_SCHEME.isPrefixOf uri) then .error "Invalid URI"
  else
    let withoutScheme := uri.drop OTPAUTH_SCHEME.length
    match splitOnce '/' withoutScheme with
    | none => .error "Invalid URI: missing token type"
    | some (tokenTypeRaw, rest) =>
      if hty : tokenTypeRaw = "totp".data ∨ tokenTypeRaw = "hotp".data then
        let tokenType := if tokenTypeRaw = "totp".data then "totp" else "hotp"
        match splitOnce '?' rest with
        | none => .error "Invalid URI: missing query parameters"
        | some (labelRaw, query) =>
          let label := urlencodingDecode labelRaw
          let issuerAccount := match splitOnce ':' label with
            | some (i, a) => (some i, a)
            | none => (none, label)
          let params := queryParams query
          match lookupParam params "secret".data with
          | none => .error "Missing URI parameter: secret"
          | some secretB32 =>
            match base32Decode (upperStr secretB32) with
            | none => .error "Invalid base32 secret"
            | some secret =>
              let issuer := ((lookupParam params "issuer".data).or
                issuerAccount.1).getD "Unknown".data
              let algorithm := match lookupParam params "algorithm".data with
                | some s => upperStr s
                | none => "SHA1".data
              if algorithm = "SHA1".data ∨ algorithm = "SHA256".data
                  ∨ algorithm = "SHA512".data then
                match checkDigits params with
                | .error e => .error e
                | .ok digits =>
                  let period := ((lookupParam params "period".data).bind
                    (fun s => parseUIntRust 4294967296 s)).getD 30
                  if period = 0 then .error "period must be > 0"
                  else
                    let counter := ((lookupParam params "counter".data).bind
                      (fun s => parseUIntRust 18446744073709551616 s)).getD 0
                    .ok (some
                      { issuer := String.mk issuer,
                        account := String.mk issuerAccount.2,
                        secret := secret,
                        algorithm := String.mk algorithm,
                        digits := digits,
                        token_type := tokenType,
                        period := period,
                        counter := counter,
                        icon := none })
              else .error "unsupported algorithm"
      else .error "unknown token type"

/-- The per-token URI construction of `export_uris` in `export.rs`. -/
def uriOfToken (t : Token) (secret : List Nat) : List Char :=
  let secretB32 := base32Encode secret
  let queryParts :=
    ["secret=".data ++ secretB32,
     "algorithm=".data ++ t.algorithm.data,
     "digits=".data ++ decimalString t.digits,
     "issuer=".data ++ urlencodingEncode t.issuer.data]
    ++ (if lowerStr t.token_type.data = "totp".data then
          ["period=".data ++ decimalString t.period]
        else if lowerStr t.token_type.data = "hotp".data then
          ["counter=".data ++ decimalString t.counter]
        else
          ["period=".data ++ decimalString t.period,
           "counter=".data ++ decimalString t.counter])
  let query := joinSep '&' queryParts
  OTPAUTH_SCHEME ++ t.token_type.data ++ '/' :: (urlencodingEncode t.issuer.data
    ++ ':' :: (urlencodingEncode t.account.data ++ '?' :: query))

/-! ## Character-set facts about the emitter's output -/

theorem isPrefixOf_append (l r : List Char) : l.isPrefixOf (l ++ r) = true := by
  induction l with
  | nil => simp [List.isPrefixOf]
  | cons c cs ih => simpa [List.isPrefixOf] using ih

theorem hexUpperDigit_unreserved {n : Nat} (h : n < 16) :
    isUnreservedChar (hexUpperDigit n) = true := by
  rw [isUnreservedChar]
  simp only [decide_eq_true_eq]
  rw [hexUpperDigit_toNat h]
  split <;> omega

theorem urlencodingEncode_mem (s : List Char) :
    ∀ c ∈ urlencodingEncode s, isUnreservedChar c = true ∨ c = '%' := by
  intro c hc
  rw [urlencodingEncode] at hc
  rcases List.mem_flatten.mp hc with ⟨l, hl, hcl⟩
  rcases List.mem_map.mp hl with ⟨x, hxs, rfl⟩
  rw [urlencodingEncodeChar] at hcl
  by_cases hu : isUnreservedChar x
  · rw [if_pos hu] at hcl
    simp at hcl
    exact hcl ▸ Or.inl hu
  · rw [if_neg hu] at hcl
    by_cases hsp : x = ' '
    · rw [if_pos hsp] at hcl
      simp only [show "%20".data = ['%', '2', '0'] from rfl, List.mem_cons,
        List.not_mem_nil, or_false] at hcl
      rcases hcl with rfl | rfl | rfl
      · exact Or.inr rfl
      · exact Or.inl (by decide)
      · exact Or.inl (by decide)
    · rw [if_neg hsp] at hcl
      by_cases hco : x = ':'
      · rw [if_pos hco] at hcl
        simp only [show "%3A".data = ['%', '3', 'A'] from rfl, List.mem_cons,
          List.not_mem_nil, or_false] at hcl
        rcases hcl with rfl | rfl | rfl
        · exact Or.inr rfl
        · exact Or.inl (by decide)
        · exact Or.inl (by decide)
      · rw [if_neg hco] at hcl
        by_cases hat : x = '@'
        · rw [if_pos hat] at hcl
          simp only [show "%40".data = ['%', '4', '0'] from rfl, List.mem_cons,
            List.not_mem_nil, or_false] at hcl
          rcases hcl with rfl | rfl | rfl
          · exact Or.inr rfl
          · exact Or.inl (by decide)
          · exact Or.inl (by decide)
        · rw [if_neg hat] at hcl
          rcases List.mem_flatten.mp hcl with ⟨l2, hl2, hcl2⟩
          rcases List.mem_map.mp hl2 with ⟨b, hb, rfl⟩
          have hblt : b < 256 := utf8EncodeChar_lt x b hb
          rw [pctByte] at hcl2
          simp only [List.mem_cons, List.not_mem_nil, or_false] at hcl2
          rcases hcl2 with rfl | rfl | rfl
          · exact Or.inr rfl
          · exact Or.inl (hexUpperDigit_unreserved (by omega))
          · exact Or.inl (hexUpperDigit_unreserved (by omega))

/-- Scalar-range form: every character the encoder emits is `%` (37)
or has a scalar among the unreserved ones. -/
theorem urlencodingEncode_scalar (s : List Char) :
    ∀ c ∈ urlencodingEncode s, c.toNat = 37 ∨
      (65 ≤ c.toNat ∧ c.toNat ≤ 90) ∨ (97 ≤ c.toNat ∧ c.toNat ≤ 122)
      ∨ (48 ≤ c.toNat ∧ c.toNat ≤ 57) ∨ c.toNat = 45 ∨ c.toNat = 95
      ∨ c.toNat = 46 ∨ c.toNat = 126 := by
  intro c hc
  rcases urlencodingEncode_mem s c hc with h | rfl
  · rw [isUnreservedChar] at h
    simp only [decide_eq_true_eq] at h
    tauto
  · exact Or.inl rfl

theorem not_mem_urlencodingEncode {c : Char} (s : List Char)
    (h : ∀ n, n = c.toNat → n ≠ 37 ∧ ¬ (65 ≤ n ∧ n ≤ 90) ∧ ¬ (97 ≤ n ∧ n ≤ 122)
      ∧ ¬ (48 ≤ n ∧ n ≤ 57) ∧ n ≠ 45 ∧ n ≠ 95 ∧ n ≠ 46 ∧ n ≠ 126) :
    c ∉ urlencodingEncode s := by
  intro hmem
  have := urlencodingEncode_scalar s c hmem
  have hh := h c.toNat rfl
  tauto

theorem b32CharOfVal_scalar (v : Nat) (hv : v < 32) :
    (65 ≤ (b32CharOfVal v).toNat ∧ (b32CharOfVal v).toNat ≤ 90)
      ∨ (50 ≤ (b32CharOfVal v).toNat ∧ (b32CharOfVal v).toNat ≤ 55) := by
  rw [b32CharOfVal]
  by_cases h26 : v < 26
  · rw [if_pos h26, toNat_ofNat_small (by omega)]
    left
    omega
  · rw [if_neg h26, toNat_ofNat_small (by omega)]
    right
    omega

theorem base32Encode_scalar (bs : List Nat) :
    ∀ c ∈ base32Encode bs, (65 ≤ c.toNat ∧ c.toNat ≤ 90)
      ∨ (50 ≤ c.toNat ∧ c.toNat ≤ 55) := by
  rw [base32Encode]
  generalize bs.length = fe
  induction fe generalizing bs with
  | zero => intro c hc; simp [base32EncodeAux] at hc
  | succ f ih =>
    intro c hc
    rw [base32EncodeAux] at hc
    by_cases hnil : bs = []
    · rw [if_pos hnil] at hc
      simp at hc
    · rw [if_neg hnil] at hc
      rcases List.mem_append.mp hc with h | h
      · rw [b32EncodeGroup] at h
        rcases List.mem_map.mp h with ⟨i, _, rfl⟩
        exact b32CharOfVal_scalar _ (Nat.mod_lt _ (by norm_num))
      · exact ih (bs.drop 5) c h

theorem asciiUpper_preimage {c d : Char} (h : asciiUpper c = d) (hd : d.toNat < 55296) :
    c.toNat = d.toNat ∨ c.toNat = d.toNat + 32 := by
  rw [asciiUpper] at h
  by_cases hl : 97 ≤ c.toNat ∧ c.toNat ≤ 122
  · rw [if_pos hl] at h
    right
    have := congrArg Char.toNat h
    rw [toNat_ofNat_small (by omega)] at this
    omega
  · rw [if_neg hl] at h
    exact Or.inl (h ▸ rfl)

theorem asciiUpper_eq_self {c : Char} (h : ¬ (97 ≤ c.toNat ∧ c.toNat ≤ 122)) :
    asciiUpper c = c := by
  rw [asciiUpper, if_neg h]

theorem map_eq_self_of_eq {f : Char → Char} : ∀ {l : List Char},
    (∀ c ∈ l, f c = c) → l.map f = l := by
  intro l
  induction l with
  | nil => intro _; rfl
  | cons c cs ih =>
    intro h
    rw [List.map_cons, h c (List.mem_cons_self c cs),
      ih (fun x hx => h x (List.mem_cons_of_mem _ hx))]

theorem upperStr_base32 (bs : List Nat) :
    upperStr (base32Encode bs) = base32Encode bs := by
  rw [upperStr]
  apply map_eq_self_of_eq
  intro c hc
  rcases base32Encode_scalar bs c hc with h | h <;> exact asciiUpper_eq_self (by omega)

theorem splitOnce_mem_some {sep : Char} : ∀ {l : List Char}, sep ∈ l →
    ∃ p, splitOnce sep l = some p := by
  intro l
  induction l with
  | nil => intro h; simp at h
  | cons c rest ih =>
    intro h
    rw [splitOnce]
    by_cases hc : c = sep
    · exact ⟨_, by rw [if_pos hc]⟩
    · rcases ih (by rcases List.mem_cons.mp h with h1 | h1; exact absurd h1.symm hc; exact h1)
        with ⟨p, hp⟩
      exact ⟨_, by rw [if_neg hc, hp]; rfl⟩

theorem parseUIntRust_decimalString_ge {bound n : Nat} (h : bound ≤ n) :
    parseUIntRust bound (decimalString n) = none := by
  obtain ⟨c, rest, hcr⟩ : ∃ c rest, decimalString n = c :: rest := by
    cases hd : decimalString n with
    | nil => exact absurd hd (decimalString_ne_nil n)
    | cons c rest => exact ⟨c, rest, rfl⟩
  have hplus : c ≠ '+' := by
    intro hc
    have := decimalString_scalar_range n c (hcr ▸ List.mem_cons_self c rest)
    rw [hc] at this
    simp at this
  rw [parseUIntRust.eq_def, hcr]
  dsimp only
  rw [if_neg hplus, if_neg (by simp)]
  rw [if_pos (by
    rw [List.all_eq_true]
    intro x hx
    have := decimalString_scalar_range n x (hcr ▸ hx)
    simp only [decide_eq_true_eq]
    exact this)]
  rw [show (c :: rest : List Char) = decimalString n from hcr.symm, decimalString_foldl,
    if_neg (by omega)]

theorem char_toNat_inj {c d : Char} (h : c.toNat = d.toNat) : c = d := by
  rw [← Char.ofNat_toNat c, ← Char.ofNat_toNat d, h]

theorem urlencodingDecode_plain_scalar (s : List Char)
    (h : ∀ c ∈ s, c.toNat ≠ 37 ∧ c.toNat ≠ 43) : urlencodingDecode s = s := by
  apply urlencodingDecode_plain
  · intro hm
    exact (h _ hm).1 rfl
  · intro hm
    exact (h _ hm).2 rfl

theorem decimalString_plain (n : Nat) : urlencodingDecode (decimalString n) = decimalString n := by
  apply urlencodingDecode_plain_scalar
  intro c hc
  have := decimalString_scalar_range n c hc
  omega

theorem base32_plain (bs : List Nat) :
    urlencodingDecode (base32Encode bs) = base32Encode bs := by
  apply urlencodingDecode_plain_scalar
  intro c hc
  rcases base32Encode_scalar bs c hc with h | h <;> omega

theorem urlencodingDecode_label (a b : List Char) :
    urlencodingDecode (urlencodingEncode a ++ ':' :: urlencodingEncode b)
      = a ++ ':' :: b := by
  rw [urlencodingDecode, utf8Encode_append, pctDecode_encode]
  rw [utf8Encode_cons, show utf8EncodeChar ':' = [58] from rfl]
  show utf8DecodeLossy (utf8Encode a
    ++ pctDecodeBytes (58 :: utf8Encode (urlencodingEncode b))) = _
  rw [pctDecodeBytes_cons_other (by omega) (by omega)]
  have h := pctDecode_encode b []
  rw [List.append_nil, show pctDecodeBytes [] = [] from rfl, List.append_nil] at h
  rw [h, show (58 : Nat) :: utf8Encode b = utf8Encode (':' :: b) from rfl,
    ← utf8Encode_append, utf8_decode_encode]

theorem lookupParam_five (k1 k2 k3 k4 k5 key w1 w2 w3 w4 w5 : List Char) :
    lookupParam [(k1, w1), (k2, w2), (k3, w3), (k4, w4), (k5, w5)] key
      = if k5 = key then some w5 else if k4 = key then some w4
        else if k3 = key then some w3 else if k2 = key then some w2
        else if k1 = key then some w1 else none := by
  rw [lookupParam, show ([(k1, w1), (k2, w2), (k3, w3), (k4, w4), (k5, w5)]
    : List (List Char × List Char)).reverse
    = [(k5, w5), (k4, w4), (k3, w3), (k2, w2), (k1, w1)] from rfl]
  by_cases h5 : k5 = key
  · rw [List.find?_cons_of_pos _ (by simp only [decide_eq_true_eq]; exact h5), if_pos h5]
    rfl
  · rw [List.find?_cons_of_neg _ (by simp only [decide_eq_true_eq]; exact h5), if_neg h5]
    by_cases h4 : k4 = key
    · rw [List.find?_cons_of_pos _ (by simp only [decide_eq_true_eq]; exact h4), if_pos h4]
      rfl
    · rw [List.find?_cons_of_neg _ (by simp only [decide_eq_true_eq]; exact h4), if_neg h4]
      by_cases h3 : k3 = key
      · rw [List.find?_cons_of_pos _ (by simp only [decide_eq_true_eq]; exact h3), if_pos h3]
        rfl
      · rw [List.find?_cons_of_neg _ (by simp only [decide_eq_true_eq]; exact h3), if_neg h3]
        by_cases h2 : k2 = key
        · rw [List.find?_cons_of_pos _ (by simp only [decide_eq_true_eq]; exact h2),
            if_pos h2]
          rfl
        · rw [List.find?_cons_of_neg _ (by simp only [decide_eq_true_eq]; exact h2),
            if_neg h2]
          by_cases h1 : k1 = key
          · rw [List.find?_cons_of_pos _ (by simp only [decide_eq_true_eq]; exact h1),
              if_pos h1]
            rfl
          · rw [List.find?_cons_of_neg _ (by simp only [decide_eq_true_eq]; exact h1),
              if_neg h1]
            rfl

theorem queryParams_five (v1 v2 v3 v4 k5 v5 : List Char)
    (h1 : '&' ∉ v1) (h2 : '&' ∉ v2) (h3 : '&' ∉ v3) (h4 : '&' ∉ v4)
    (h5k : '&' ∉ k5) (h5v : '&' ∉ v5) (h5e : '=' ∉ k5) :
    queryParams (joinSep '&'
      ["secret=".data ++ v1, "algorithm=".data ++ v2, "digits=".data ++ v3,
       "issuer=".data ++ v4, k5 ++ '=' :: v5])
    = [("secret".data, urlencodingDecode v1),
       ("algorithm".data, urlencodingDecode v2),
       ("digits".data, urlencodingDecode v3),
       ("issuer".data, urlencodingDecode v4),
       (lowerStr k5, urlencodingDecode v5)] := by
  have hparts : ∀ p ∈ ["secret=".data ++ v1, "algorithm=".data ++ v2,
      "digits=".data ++ v3, "issuer=".data ++ v4, k5 ++ '=' :: v5], '&' ∉ p := by
    intro p hp
    simp only [List.mem_cons, List.not_mem_nil, or_false] at hp
    rcases hp with rfl | rfl | rfl | rfl | rfl
    · intro hm
      rcases List.mem_append.mp hm with h | h
      · revert h; decide
      · exact h1 h
    · intro hm
      rcases List.mem_append.mp hm with h | h
      · revert h; decide
      · exact h2 h
    · intro hm
      rcases List.mem_append.mp hm with h | h
      · revert h; decide
      · exact h3 h
    · intro hm
      rcases List.mem_append.mp hm with h | h
      · revert h; decide
      · exact h4 h
    · intro hm
      rcases List.mem_append.mp hm with h | h
      · exact h5k h
      · rcases List.mem_cons.mp h with h | h
        · exact absurd h (by decide)
        · exact h5v h
  rw [queryParams, splitAll_joinSep _ (by simp) hparts]
  have e1 : splitOnce '=' ("secret=".data ++ v1) = some ("secret".data, v1) := by
    rw [show "secret=".data ++ v1 = "secret".data ++ '=' :: v1 from rfl]
    exact splitOnce_append (by decide) v1
  have e2 : splitOnce '=' ("algorithm=".data ++ v2) = some ("algorithm".data, v2) := by
    rw [show "algorithm=".data ++ v2 = "algorithm".data ++ '=' :: v2 from rfl]
    exact splitOnce_append (by decide) v2
  have e3 : splitOnce '=' ("digits=".data ++ v3) = some ("digits".data, v3) := by
    rw [show "digits=".data ++ v3 = "digits".data ++ '=' :: v3 from rfl]
    exact splitOnce_append (by decide) v3
  have e4 : splitOnce '=' ("issuer=".data ++ v4) = some ("issuer".data, v4) := by
    rw [show "issuer=".data ++ v4 = "issuer".data ++ '=' :: v4 from rfl]
    exact splitOnce_append (by decide) v4
  have e5 : splitOnce '=' (k5 ++ '=' :: v5) = some (k5, v5) := splitOnce_append h5e v5
  simp only [List.filterMap_cons, List.filterMap_nil, e1, e2, e3, e4, e5,
    Option.map_some']
  rw [show lowerStr "secret".data = "secret".data from by decide,
    show lowerStr "algorithm".data = "algorithm".data from by decide,
    show lowerStr "digits".data = "digits".data from by decide,
    show lowerStr "issuer".data = "issuer".data from by decide]

theorem upperStr_char_scalar {l X : List Char} (h : upperStr l = X)
    (hX : ∀ d ∈ X, (48 ≤ d.toNat ∧ d.toNat ≤ 57) ∨ (65 ≤ d.toNat ∧ d.toNat ≤ 90)) :
    ∀ c ∈ l, c.toNat ≠ 37 ∧ c.toNat ≠ 38 ∧ c.toNat ≠ 43 ∧ c.toNat ≠ 61
      ∧ c.toNat ≠ 63 := by
  intro c hc
  have hm : asciiUpper c ∈ X := h ▸ List.mem_map_of_mem asciiUpper hc
  have hd := hX _ hm
  have hp := asciiUpper_preimage (c := c) rfl (by omega)
  omega

/-- The `NewToken` the parser recovers from an emitted URI: the label is
split at the first colon, the algorithm is upper-cased, `period` falls back
to 30 when absent or out of `u32` range, and `counter` falls back to 0 when
absent or out of `u64` range. -/
def expectedParsed (t : Token) (secret : List Nat) : NewToken :=
  { issuer := t.issuer,
    account := String.mk ((splitOnce ':'
      (t.issuer.data ++ ':' :: t.account.data)).getD ([], [])).2,
    secret := secret,
    algorithm := String.mk (upperStr t.algorithm.data),
    digits := t.digits,
    token_type := t.token_type,
    period := if t.token_type = "totp" then
        (if t.period < 4294967296 then t.period else 30)
      else 30,
    counter := if t.token_type = "totp" then 0
      else (if t.counter < 18446744073709551616 then t.counter else 0),
    icon := none }

set_option maxHeartbeats 2000000 in
theorem parse_uriOfToken (t : Token) (secret : List Nat)
    (hty : t.token_type = "totp" ∨ t.token_type = "hotp")
    (halg : upperStr t.algorithm.data = "SHA1".data
      ∨ upperStr t.algorithm.data = "SHA256".data
      ∨ upperStr t.algorithm.data = "SHA512".data)
    (hdig : t.digits = 6 ∨ t.digits = 8)
    (hper : t.token_type = "totp" → 0 < t.period)
    (hsec : ∀ b ∈ secret, b < 256) :
    parseOtpauthUri (uriOfToken t secret) = .ok (some (expectedParsed t secret)) := by
  have halgc : ∀ c ∈ t.algorithm.data, c.toNat ≠ 37 ∧ c.toNat ≠ 38 ∧ c.toNat ≠ 43
      ∧ c.toNat ≠ 61 ∧ c.toNat ≠ 63 := by
    rcases halg with h | h | h
    · exact upperStr_char_scalar h (by decide)
    · exact upperStr_char_scalar h (by decide)
    · exact upperStr_char_scalar h (by decide)
  have hb32amp : '&' ∉ base32Encode secret := by
    intro hm
    rcases base32Encode_scalar secret _ hm with h | h <;>
      rw [show Char.toNat '&' = 38 from rfl] at h <;> omega
  have halgamp : '&' ∉ t.algorithm.data := fun hm => (halgc _ hm).2.1 rfl
  have hdigamp : '&' ∉ decimalString t.digits := by
    intro hm
    have h := decimalString_scalar_range _ _ hm
    rw [show Char.toNat '&' = 38 from rfl] at h
    omega
  have hperamp : '&' ∉ decimalString t.period := by
    intro hm
    have h := decimalString_scalar_range _ _ hm
    rw [show Char.toNat '&' = 38 from rfl] at h
    omega
  have hcntamp : '&' ∉ decimalString t.counter := by
    intro hm
    have h := decimalString_scalar_range _ _ hm
    rw [show Char.toNat '&' = 38 from rfl] at h
    omega
  have hissamp : '&' ∉ urlencodingEncode t.issuer.data := by
    apply not_mem_urlencodingEncode
    intro n hn
    rw [show Char.toNat '&' = 38 from rfl] at hn
    subst hn
    decide
  have hq1 : '?' ∉ urlencodingEncode t.issuer.data := by
    apply not_mem_urlencodingEncode
    intro n hn
    rw [show Char.toNat '?' = 63 from rfl] at hn
    subst hn
    decide
  have hq2 : '?' ∉ urlencodingEncode t.account.data := by
    apply not_mem_urlencodingEncode
    intro n hn
    rw [show Char.toNat '?' = 63 from rfl] at hn
    subst hn
    decide
  have hnq : '?' ∉ urlencodingEncode t.issuer.data
      ++ ':' :: urlencodingEncode t.account.data := by
    intro hm
    rcases List.mem_append.mp hm with h | h
    · exact hq1 h
    · rcases List.mem_cons.mp h with h | h
      · exact absurd h (by decide)
      · exact hq2 h
  have hs2 : ∀ Q : List Char, splitOnce '?' (urlencodingEncode t.issuer.data
      ++ ':' :: (urlencodingEncode t.account.data ++ '?' :: Q))
      = some (urlencodingEncode t.issuer.data
        ++ ':' :: urlencodingEncode t.account.data, Q) := by
    intro Q
    rw [show urlencodingEncode t.issuer.data
        ++ ':' :: (urlencodingEncode t.account.data ++ '?' :: Q)
      = (urlencodingEncode t.issuer.data ++ ':' :: urlencodingEncode t.account.data)
        ++ '?' :: Q from by simp]
    exact splitOnce_append hnq Q
  have hlab := urlencodingDecode_label t.issuer.data t.account.data
  obtain ⟨⟨i0, a0⟩, hio⟩ := @splitOnce_mem_some ':'
    (t.issuer.data ++ ':' :: t.account.data)
    (List.mem_append_right _ (List.mem_cons_self _ _))
  have hup := upperStr_base32 secret
  have hrt := base32_roundtrip secret hsec
  have hmk : ∀ s : String, String.mk s.data = s := fun s => rfl
  have hqor : ∀ (a : List Char) (o : Option (List Char)), (some a).or o = some a :=
    fun a o => rfl
  have hbind : ∀ (a : List Char) (f : List Char → Option Nat), (some a).bind f = f a :=
    fun a f => rfl
  have hbindn : ∀ (f : List Char → Option Nat),
      (none : Option (List Char)).bind f = none := fun f => rfl
  have hdp : parseUIntRust 4294967296 (decimalString t.digits) = some t.digits :=
    parseUIntRust_decimalString (by rcases hdig with h | h <;> omega)
  have hcd : (t.digits ≠ 6 ∧ t.digits ≠ 8) = False :=
    eq_false (by rcases hdig with h | h <;> omega)
  have h30 : ((30 : Nat) = 0) = False := eq_false (by decide)
  rcases hty with hty | hty
  · have huri : uriOfToken t secret
        = OTPAUTH_SCHEME ++ ("totp".data ++ '/' :: (urlencodingEncode t.issuer.data
          ++ ':' :: (urlencodingEncode t.account.data ++ '?' :: joinSep '&'
            (["secret=".data ++ base32Encode secret,
              "algorithm=".data ++ t.algorithm.data,
              "digits=".data ++ decimalString t.digits,
              "issuer=".data ++ urlencodingEncode t.issuer.data]
              ++ ["period=".data ++ decimalString t.period])))) := by
      rw [uriOfToken, hty,
        if_pos (show lowerStr "totp".data = "totp".data from by decide)]
      simp only [List.append_assoc]
    have hquery : queryParams (joinSep '&'
        (["secret=".data ++ base32Encode secret,
          "algorithm=".data ++ t.algorithm.data,
          "digits=".data ++ decimalString t.digits,
          "issuer=".data ++ urlencodingEncode t.issuer.data]
          ++ ["period=".data ++ decimalString t.period]))
        = [("secret".data, base32Encode secret),
           ("algorithm".data, t.algorithm.data),
           ("digits".data, decimalString t.digits),
           ("issuer".data, t.issuer.data),
           ("period".data, decimalString t.period)] := by
      rw [show (["secret=".data ++ base32Encode secret,
          "algorithm=".data ++ t.algorithm.data,
          "digits=".data ++ decimalString t.digits,
          "issuer=".data ++ urlencodingEncode t.issuer.data]
          ++ ["period=".data ++ decimalString t.period])
        = ["secret=".data ++ base32Encode secret,
           "algorithm=".data ++ t.algorithm.data,
           "digits=".data ++ decimalString t.digits,
           "issuer=".data ++ urlencodingEncode t.issuer.data,
           "period".data ++ '=' :: decimalString t.period] from rfl]
      rw [queryParams_five _ _ _ _ _ _ hb32amp halgamp hdigamp hissamp (by decide)
        hperamp (by decide)]
      rw [base32_plain,
        urlencodingDecode_plain_scalar t.algorithm.data
          (fun c hc => ⟨(halgc c hc).1, (halgc c hc).2.2.1⟩),
        decimalString_plain t.digits, urlencodingDecode_encode,
        decimalString_plain t.period,
        show lowerStr "period".data = "period".data from by decide]
    have hLsec : lookupParam [("secret".data, base32Encode secret),
        ("algorithm".data, t.algorithm.data),
        ("digits".data, decimalString t.digits),
        ("issuer".data, t.issuer.data),
        ("period".data, decimalString t.period)] "secret".data
        = some (base32Encode secret) := by
      rw [lookupParam_five, if_neg (by decide), if_neg (by decide), if_neg (by decide),
        if_neg (by decide), if_pos rfl]
    have hLalg : lookupParam [("secret".data, base32Encode secret),
        ("algorithm".data, t.algorithm.data),
        ("digits".data, decimalString t.digits),
        ("issuer".data, t.issuer.data),
        ("period".data, decimalString t.period)] "algorithm".data
        = some t.algorithm.data := by
      rw [lookupParam_five, if_neg (by decide), if_neg (by decide), if_neg (by decide),
        if_pos rfl]
    have hLdig : lookupParam [("secret".data, base32Encode secret),
        ("algorithm".data, t.algorithm.data),
        ("digits".data, decimalString t.digits),
        ("issuer".data, t.issuer.data),
        ("period".data, decimalString t.period)] "digits".data
        = some (decimalString t.digits) := by
      rw [lookupParam_five, if_neg (by decide), if_neg (by decide), if_pos rfl]
    have hLiss : lookupParam [("secret".data, base32Encode secret),
        ("algorithm".data, t.algorithm.data),
        ("digits".data, decimalString t.digits),
        ("issuer".data, t.issuer.data),
        ("period".data, decimalString t.period)] "issuer".data
        = some t.issuer.data := by
      rw [lookupParam_five, if_neg (by decide), if_pos rfl]
    have hLper : lookupParam [("secret".data, base32Encode secret),
        ("algorithm".data, t.algorithm.data),
        ("digits".data, decimalString t.digits),
        ("issuer".data, t.issuer.data),
        ("period".data, decimalString t.period)] "period".data
        = some (decimalString t.period) := by
      rw [lookupParam_five, if_pos rfl]
    have hLcnt : lookupParam [("secret".data, base32Encode secret),
        ("algorithm".data, t.algorithm.data),
        ("digits".data, decimalString t.digits),
        ("issuer".data, t.issuer.data),
        ("period".data, decimalString t.period)] "counter".data = none := by
      rw [lookupParam_five, if_neg (by decide), if_neg (by decide), if_neg (by decide),
        if_neg (by decide), if_neg (by decide)]
    have hsplit1 : ∀ X : List Char, splitOnce '/' ("totp".data ++ '/' :: X)
        = some ("totp".data, X) := fun X => splitOnce_append (by decide) X
    by_cases bper : t.period < 4294967296
    · have hpp : parseUIntRust 4294967296 (decimalString t.period) = some t.period :=
        parseUIntRust_decimalString bper
      have hptrue : (t.period = 0) = False := eq_false (by have := hper hty; omega)
      simp only [huri, parseOtpauthUri, isPrefixOf_append, List.drop_left, hsplit1,
        hs2, hlab, hio, hquery, hLsec, hLalg, hLdig, hLiss, hLper, hLcnt,
        hup, hrt, checkDigits, parsedDigits, hdp, hcd, hpp, hptrue,
        hbind, hbindn, hqor, Option.getD_some, Option.getD_none, hmk,
        expectedParsed, hty, halg, bper, eq_self_iff_true, not_true, true_or,
        if_true, if_false, dite_true, dite_false]
    · have hpp : parseUIntRust 4294967296 (decimalString t.period) = none :=
        parseUIntRust_decimalString_ge (by omega)
      simp only [huri, parseOtpauthUri, isPrefixOf_append, List.drop_left, hsplit1,
        hs2, hlab, hio, hquery, hLsec, hLalg, hLdig, hLiss, hLper, hLcnt,
        hup, hrt, checkDigits, parsedDigits, hdp, hcd, hpp, h30,
        hbind, hbindn, hqor, Option.getD_some, Option.getD_none, hmk,
        expectedParsed, hty, halg, eq_false bper, eq_self_iff_true, not_true, true_or,
        if_true, if_false, dite_true, dite_false]
  · have hne1 : ("hotp".data = "totp".data) = False := eq_false (by decide)
    have hne2 : (("hotp" : String) = "totp") = False := eq_false (by decide)
    have huri : uriOfToken t secret
        = OTPAUTH_SCHEME ++ ("hotp".data ++ '/' :: (urlencodingEncode t.issuer.data
          ++ ':' :: (urlencodingEncode t.account.data ++ '?' :: joinSep '&'
            (["secret=".data ++ base32Encode secret,
              "algorithm=".data ++ t.algorithm.data,
              "digits=".data ++ decimalString t.digits,
              "issuer=".data ++ urlencodingEncode t.issuer.data]
              ++ ["counter=".data ++ decimalString t.counter])))) := by
      rw [uriOfToken, hty,
        if_neg (show ¬ lowerStr "hotp".data = "totp".data from by decide),
        if_pos (show lowerStr "hotp".data = "hotp".data from by decide)]
      simp only [List.append_assoc]
    have hquery : queryParams (joinSep '&'
        (["secret=".data ++ base32Encode secret,
          "algorithm=".data ++ t.algorithm.data,
          "digits=".data ++ decimalString t.digits,
          "issuer=".data ++ urlencodingEncode t.issuer.data]
          ++ ["counter=".data ++ decimalString t.counter]))
        = [("secret".data, base32Encode secret),
           ("algorithm".data, t.algorithm.data),
           ("digits".data, decimalString t.digits),
           ("issuer".data, t.issuer.data),
           ("counter".data, decimalString t.counter)] := by
      rw [show (["secret=".data ++ base32Encode secret,
          "algorithm=".data ++ t.algorithm.data,
          "digits=".data ++ decimalString t.digits,
          "issuer=".data ++ urlencodingEncode t.issuer.data]
          ++ ["counter=".data ++ decimalString t.counter])
        = ["secret=".data ++ base32Encode secret,
           "algorithm=".data ++ t.algorithm.data,
           "digits=".data ++ decimalString t.digits,
           "issuer=".data ++ urlencodingEncode t.issuer.data,
           "counter".data ++ '=' :: decimalString t.counter] from rfl]
      rw [queryParams_five _ _ _ _ _ _ hb32amp halgamp hdigamp hissamp (by decide)
        hcntamp (by decide)]
      rw [base32_plain,
        urlencodingDecode_plain_scalar t.algorithm.data
          (fun c hc => ⟨(halgc c hc).1, (halgc c hc).2.2.1⟩),
        decimalString_plain t.digits, urlencodingDecode_encode,
        decimalString_plain t.counter,
        show lowerStr "counter".data = "counter".data from by decide]
    have hLsec : lookupParam [("secret".data, base32Encode secret),
        ("algorithm".data, t.algorithm.data),
        ("digits".data, decimalString t.digits),
        ("issuer".data, t.issuer.data),
        ("counter".data, decimalString t.counter)] "secret".data
        = some (base32Encode secret) := by
      rw [lookupParam_five, if_neg (by decide), if_neg (by decide), if_neg (by decide),
        if_neg (by decide), if_pos rfl]
    have hLalg : lookupParam [("secret".data, base32Encode secret),
        ("algorithm".data, t.algorithm.data),
        ("digits".data, decimalString t.digits),
        ("issuer".data, t.issuer.data),
        ("counter".data, decimalString t.counter)] "algorithm".data
        = some t.algorithm.data := by
      rw [lookupParam_five, if_neg (by decide), if_neg (by decide), if_neg (by decide),
        if_pos rfl]
    have hLdig : lookupParam [("secret".data, base32Encode secret),
        ("algorithm".data, t.algorithm.data),
        ("digits".data, decimalString t.digits),
        ("issuer".data, t.issuer.data),
        ("counter".data, decimalString t.counter)] "digits".data
        = some (decimalString t.digits) := by
      rw [lookupParam_five, if_neg (by decide), if_neg (by decide), if_pos rfl]
    have hLiss : lookupParam [("secret".data, base32Encode secret),
        ("algorithm".data, t.algorithm.data),
        ("digits".data, decimalString t.digits),
        ("issuer".data, t.issuer.data),
        ("counter".data, decimalString t.counter)] "issuer".data
        = some t.issuer.data := by
      rw [lookupParam_five, if_neg (by decide), if_pos rfl]
    have hLcnt : lookupParam [("secret".data, base32Encode secret),
        ("algorithm".data, t.algorithm.data),
        ("digits".data, decimalString t.digits),
        ("issuer".data, t.issuer.data),
        ("counter".data, decimalString t.counter)] "counter".data
        = some (decimalString t.counter) := by
      rw [lookupParam_five, if_pos rfl]
    have hLper : lookupParam [("secret".data, base32Encode secret),
        ("algorithm".data, t.algorithm.data),
        ("digits".data, decimalString t.digits),
        ("issuer".data, t.issuer.data),
        ("counter".data, decimalString t.counter)] "period".data = none := by
      rw [lookupParam_five, if_neg (by decide), if_neg (by decide), if_neg (by decide),
        if_neg (by decide), if_neg (by decide)]
    have hsplit1 : ∀ X : List Char, splitOnce '/' ("hotp".data ++ '/' :: X)
        = some ("hotp".data, X) := fun X => splitOnce_append (by decide) X
    by_cases bcnt : t.counter < 18446744073709551616
    · have hcp : parseUIntRust 18446744073709551616 (decimalString t.counter)
          = some t.counter := parseUIntRust_decimalString bcnt
      simp only [huri, parseOtpauthUri, isPrefixOf_append, List.drop_left, hsplit1,
        hs2, hlab, hio, hquery, hLsec, hLalg, hLdig, hLiss, hLper, hLcnt,
        hup, hrt, checkDigits, parsedDigits, hdp, hcd, hcp, h30,
        hbind, hbindn, hqor, Option.getD_some, Option.getD_none, hmk,
        expectedParsed, hty, halg, bcnt, hne1, hne2, eq_self_iff_true, not_true,
        true_or, false_or, if_true, if_false, dite_true, dite_false]
    · have hcp : parseUIntRust 18446744073709551616 (decimalString t.counter)
          = none := parseUIntRust_decimalString_ge (by omega)
      simp only [huri, parseOtpauthUri, isPrefixOf_append, List.drop_left, hsplit1,
        hs2, hlab, hio, hquery, hLsec, hLalg, hLdig, hLiss, hLper, hLcnt,
        hup, hrt, checkDigits, parsedDigits, hdp, hcd, hcp, h30,
        hbind, hbindn, hqor, Option.getD_some, Option.getD_none, hmk,
        expectedParsed, hty, halg, eq_false bcnt, hne1, hne2, eq_self_iff_true,
        not_true, true_or, false_or, if_true, if_false, dite_true, dite_false]

set_option maxRecDepth 100000 in
/-- C4 (counterexample): a `totp` token whose counter is 42 emits a URI
that parses back with counter 0 — the emitter writes no `counter` key for
`totp` tokens, so the round trip does not preserve all eight fields. -/
theorem uri_roundtrip_counter_dropped :
    parseOtpauthUri (uriOfToken
      { id := "t1", issuer := "ACME", account := "alice", secret_encrypted := [],
        algorithm := "SHA1", digits := 6, token_type := "totp", period := 30,
        counter := 42, icon := none, sort_order := 0,
        created_at := "", updated_at := "" } [72, 105])
      = .ok (some
        { issuer := "ACME", account := "alice", secret := [72, 105],
          algorithm := "SHA1", digits := 6, token_type := "totp", period := 30,
          counter := 0, icon := none }) := by rfl

/-- C4 (amended): for a token of kind `totp` or `hotp` whose algorithm is
literally `SHA1`, `SHA256` or `SHA512`, whose digits are 6 or 8, with a
positive period within `u32`, a counter within `u64`, a colon-free issuer
and a byte-valued secret, parsing the emitted URI preserves issuer,
account, kind, algorithm, digits and raw secret; `period` is preserved
only for `totp` tokens (a `hotp` URI carries no period, so the parser
falls back to 30) and `counter` only for `hotp` tokens (a `totp` URI
carries no counter, so the parser falls back to 0). -/
theorem uri_emit_parse_roundtrip (t : Token) (secret : List Nat)
    (hty : t.token_type = "totp" ∨ t.token_type = "hotp")
    (halg : t.algorithm = "SHA1" ∨ t.algorithm = "SHA256" ∨ t.algorithm = "SHA512")
    (hdig : t.digits = 6 ∨ t.digits = 8)
    (hper : 0 < t.period) (hperlt : t.period < 4294967296)
    (hcnt : t.counter < 18446744073709551616)
    (hiss : ':' ∉ t.issuer.data)
    (hsec : ∀ b ∈ secret, b < 256) :
    parseOtpauthUri (uriOfToken t secret) = .ok (some
      { issuer := t.issuer, account := t.account, secret := secret,
        algorithm := t.algorithm, digits := t.digits,
        token_type := t.token_type,
        period := if t.token_type = "totp" then t.period else 30,
        counter := if t.token_type = "totp" then 0 else t.counter,
        icon := none }) := by
  have halgu : upperStr t.algorithm.data = t.algorithm.data := by
    rcases halg with h | h | h <;> rw [h] <;> decide
  have halg2 : upperStr t.algorithm.data = "SHA1".data
      ∨ upperStr t.algorithm.data = "SHA256".data
      ∨ upperStr t.algorithm.data = "SHA512".data := by
    rw [halgu]
    rcases halg with h | h | h <;> rw [h]
    · exact Or.inl rfl
    · exact Or.inr (Or.inl rfl)
    · exact Or.inr (Or.inr rfl)
  rw [parse_uriOfToken t secret hty halg2 hdig (fun _ => hper) hsec]
  have hsp : splitOnce ':' (t.issuer.data ++ ':' :: t.account.data)
      = some (t.issuer.data, t.account.data) := splitOnce_append hiss _
  have hmk : ∀ s : String, String.mk s.data = s := fun s => rfl
  simp only [expectedParsed, hsp, Option.getD_some, halgu, hmk, hperlt, hcnt,
    if_true]

/-- Witness token for the amended C4 statement. -/
def c4WitnessToken : Token :=
  { id := "w", issuer := "Ex", account := "bob", secret_encrypted := [],
    algorithm := "SHA256", digits := 8, token_type := "hotp", period := 30,
    counter := 7, icon := none, sort_order := 0,
    created_at := "", updated_at := "" }

/-- Witness for the amended C4 statement at a concrete `hotp` token. -/
theorem uri_emit_parse_roundtrip_witness :
    parseOtpauthUri (uriOfToken c4WitnessToken [1, 2, 3]) = .ok (some
      { issuer := "Ex", account := "bob", secret := [1, 2, 3],
        algorithm := "SHA256", digits := 8, token_type := "hotp",
        period := 30, counter := 7, icon := none }) :=
  uri_emit_parse_roundtrip c4WitnessToken [1, 2, 3] (Or.inr rfl)
    (Or.inr (Or.inl rfl)) (Or.inr rfl) (by decide) (by decide) (by decide)
    (by decide) (by decide)

set_option maxRecDepth 100000 in
/-- C6 (counterexample): `digits=abc` is a supplied digits value other
than 6 or 8, yet the parser succeeds and silently uses the default 6
instead of failing with the unsupported-digits error. -/
theorem digits_unparseable_accepted :
    parseOtpauthUri "otpauth://totp/A:B?secret=JBSWY3DPEHPK3PXP&digits=abc".data
      = .ok (some
        { issuer := "A", account := "B",
          secret := [72, 101, 108, 108, 111, 33, 222, 173, 190, 239],
          algorithm := "SHA1", digits := 6, token_type := "totp", period := 30,
          counter := 0, icon := none }) := by rfl

set_option maxRecDepth 100000 in
/-- C6 (amended): when the `digits` key is absent the parser uses 6; a
supplied value that parses as an integer other than 6 or 8 is rejected
with the unsupported-digits error; but a supplied value that does not
parse as an integer falls back to the default 6 instead of failing.
Concretely, a URI without `digits` parses with 6 digits and `digits=7`
is an error. -/
theorem digits_default_and_validation :
    (∀ params, lookupParam params "digits".data = none → checkDigits params = .ok 6)
    ∧ (∀ params s n, lookupParam params "digits".data = some s →
        parseUIntRust 4294967296 s = some n → n ≠ 6 → n ≠ 8 →
        checkDigits params = .error "unsupported digits")
    ∧ (∀ params s, lookupParam params "digits".data = some s →
        parseUIntRust 4294967296 s = none → checkDigits params = .ok 6)
    ∧ parseOtpauthUri "otpauth://totp/A:B?secret=JBSWY3DPEHPK3PXP".data
      = .ok (some
        { issuer := "A", account := "B",
          secret := [72, 101, 108, 108, 111, 33, 222, 173, 190, 239],
          algorithm := "SHA1", digits := 6, token_type := "totp", period := 30,
          counter := 0, icon := none })
    ∧ parseOtpauthUri "otpauth://totp/A:B?secret=JBSWY3DPEHPK3PXP&digits=7".data
      = .error "unsupported digits" := by
  refine ⟨?_, ?_, ?_, by rfl, by rfl⟩
  · intro params h
    have hval : parsedDigits params = 6 := by
      rw [parsedDigits, h]
      rfl
    show (if parsedDigits params ≠ 6 ∧ parsedDigits params ≠ 8
      then (.error "unsupported digits" : Except String Nat)
      else .ok (parsedDigits params)) = .ok 6
    rw [hval]
    rfl
  · intro params s n hs hp h6 h8
    have hval : parsedDigits params = n := by
      rw [parsedDigits, hs,
        show (some s).bind (fun u => parseUIntRust 4294967296 u)
          = parseUIntRust 4294967296 s from rfl, hp, Option.getD_some]
    show (if parsedDigits params ≠ 6 ∧ parsedDigits params ≠ 8
      then (.error "unsupported digits" : Except String Nat)
      else .ok (parsedDigits params)) = .error "unsupported digits"
    rw [hval, if_pos ⟨h6, h8⟩]
  · intro params s hs hp
    have hval : parsedDigits params = 6 := by
      rw [parsedDigits, hs,
        show (some s).bind (fun u => parseUIntRust 4294967296 u)
          = parseUIntRust 4294967296 s from rfl, hp]
      rfl
    show (if parsedDigits params ≠ 6 ∧ parsedDigits params ≠ 8
      then (.error "unsupported digits" : Except String Nat)
      else .ok (parsedDigits params)) = .ok 6
    rw [hval]
    rfl

/-! ## JSON string lists (`serde_json`, modelled from the spec) -/

/-- Lowercase hexadecimal digit. -/
def hexLowerDigit (n : Nat) : Char :=
  if n < 10 then Char.ofNat (48 + n) else Char.ofNat (87 + n)

/-- Modelled from the spec: the JSON string escaping `serde_json`
applies when serializing — quote and backslash are escaped, the common
control characters get their two-character escapes, the remaining
control characters a `\x5cu00XX` escape, and every other character is
emitted as itself. -/
def jsonEscapeChar (c : Char) : List Char :=
  if c = '"' then ['\\', '"']
  else if c = '\\' then ['\\', '\\']
  else if c.toNat = 8 then ['\\', 'b']
  else if c.toNat = 9 then ['\\', 't']
  else if c.toNat = 10 then ['\\', 'n']
  else if c.toNat = 12 then ['\\', 'f']
  else if c.toNat = 13 then ['\\', 'r']
  else if c.toNat < 32 then
    ['\\', 'u', '0', '0', hexLowerDigit (c.toNat / 16), hexLowerDigit (c.toNat % 16)]
  else [c]

/-- Modelled from the spec: one serialized JSON string. -/
def jsonQuote (s : List Char) : List Char :=
  '"' :: (s.flatMap jsonEscapeChar ++ ['"'])

/-- Modelled from the spec: `serde_json::to_vec` of a `Vec<String>` —
the compact form `["...","..."]` with every string escaped. -/
def jsonEncodeStringList (l : List (List Char)) : List Char :=
  '[' :: (joinSep ',' (l.map jsonQuote) ++ [']'])

/-- Modelled from the spec: the body of one JSON string as
`serde_json::from_slice` reads it — everything up to the closing quote,
with the backslash escapes unfolded (fuel-bounded; any fuel above the
input length is exact). -/
def jsonParseStringAux : Nat → List Char → Option (List Char × List Char)
  | 0, _ => none
  | fuel + 1, input =>
    match input with
    | [] => none
    | c :: rest =>
      if c = '"' then some ([], rest)
      else if c = '\\' then
        match rest with
        | [] => none
        | e :: rest2 =>
          if e = '"' then
            (jsonParseStringAux fuel rest2).map (fun p => ('"' :: p.1, p.2))
          else if e = '\\' then
            (jsonParseStringAux fuel rest2).map (fun p => ('\\' :: p.1, p.2))
          else if e = 'b' then
            (jsonParseStringAux fuel rest2).map (fun p => (Char.ofNat 8 :: p.1, p.2))
          else if e = 't' then
            (jsonParseStringAux fuel rest2).map (fun p => (Char.ofNat 9 :: p.1, p.2))
          else if e = 'n' then
            (jsonParseStringAux fuel rest2).map (fun p => (Char.ofNat 10 :: p.1, p.2))
          else if e = 'f' then
            (jsonParseStringAux fuel rest2).map (fun p => (Char.ofNat 12 :: p.1, p.2))
          else if e = 'r' then
            (jsonParseStringAux fuel rest2).map (fun p => (Char.ofNat 13 :: p.1, p.2))
          else if e = 'u' then
            match rest2 with
            | h1 :: h2 :: h3 :: h4 :: rest3 =>
              if isAsciiHexDigitByte h1.toNat ∧ isAsciiHexDigitByte h2.toNat
                  ∧ isAsciiHexDigitByte h3.toNat ∧ isAsciiHexDigitByte h4.toNat then
                (jsonParseStringAux fuel rest3).map (fun p =>
                  (Char.ofNat (((hexVal h1.toNat * 16 + hexVal h2.toNat) * 16
                    + hexVal h3.toNat) * 16 + hexVal h4.toNat) :: p.1, p.2))
              else none
            | _ => none
          else none
      else (jsonParseStringAux fuel rest).map (fun p => (c :: p.1, p.2))

/-- Modelled from the spec: the element loop of reading a JSON
`Vec<String>` — strings separated by commas, closed by a bracket. -/
def jsonItemsAux : Nat → List Char → Option (List (List Char) × List Char)
  | 0, _ => none
  | fuel + 1, input =>
    match input with
    | [] => none
    | c :: rest =>
      if c = '"' then
        match jsonParseStringAux (rest.length + 1) rest with
        | none => none
        | some (s, rest2) =>
          match rest2 with
          | [] => none
          | d :: rest3 =>
            if d = ',' then (jsonItemsAux fuel rest3).map (fun p => (s :: p.1, p.2))
            else if d = ']' then some ([s], rest3)
            else none
      else none

/-- Modelled from the spec: `serde_json::from_slice::<Vec<String>>` on
character level — an empty array or a bracketed comma-separated string
list, with nothing after the closing bracket. -/
def jsonDecodeStringList (s : List Char) : Option (List (List Char)) :=
  match s with
  | '[' :: rest =>
    if rest = [']'] then some []
    else
      match jsonItemsAux rest.length rest with
      | some (items, rem) => if rem = [] then some items else none
      | none => none
  | _ => none

/-! ## Export and import (`export.rs` / `import.rs`) -/

/-- The per-token loop of `export_uris`: read the wrapped secret of each
listed token and emit its URI, stopping at the first error. -/
def exportUrisAux (v : VaultState) : List Token → Except String (List (List Char))
  | [] => .ok []
  | t :: rest =>
    match getTokenSecret v t.id with
    | .error e => .error e
    | .ok secret =>
      match exportUrisAux v rest with
      | .error e => .error e
      | .ok us => .ok (uriOfToken t secret :: us)

/-- `Vault::export_uris`: list the tokens in order and emit one
`otpauth://` URI each. -/
def exportUris (v : VaultState) : Except String (List (List Char)) :=
  exportUrisAux v (listTokens v)

/-- `Vault::export_encrypted`: serialize the URI list to JSON, derive a
key from the export password and a fresh 16-byte salt with the default
KDF parameters, AEAD-encrypt, and return `salt ++ envelope`.  The two
CSPRNG draws (salt here, nonce inside `aead::encrypt`) are modelled by
the explicit `salt` and `nonce` arguments. -/
def exportEncrypted (v : VaultState) (password salt nonce : List Nat) :
    Except String (List Nat) :=
  match exportUris v with
  | .error e => .error e
  | .ok uris =>
    let json := utf8Encode (jsonEncodeStringList uris)
    match deriveKey password salt KdfParams.default with
    | .error e => .error e
    | .ok key =>
      match aeadEncrypt json key nonce with
      | .error e => .error e
      | .ok encrypted => .ok (salt ++ encrypted)

/-- The loop of `Vault::import_uris`: parse each URI and add the token,
counting additions; the id, timestamp and wrap nonce `add_token` draws
for the k-th added token are modelled by the stream `ext k`. -/
def importUrisAux (ext : Nat → String × String × List Nat) :
    VaultState → Nat → Nat → List (List Char) → Except String (Nat × VaultState)
  | v, _, count, [] => .ok (count, v)
  | v, k, count, u :: rest =>
    match parseOtpauthUri u with
    | .error e => .error e
    | .ok none => importUrisAux ext v k count rest
    | .ok (some nt) =>
      match addToken v nt (ext k).1 (ext k).2.1 (ext k).2.2 with
      | .error e => .error e
      | .ok (vNext, _) => importUrisAux ext vNext (k + 1) (count + 1) rest

/-- `Vault::import_uris`. -/
def importUris (ext : Nat → String × String × List Nat) (v : VaultState)
    (uris : List (List Char)) : Except String (Nat × VaultState) :=
  importUrisAux ext v 0 0 uris

/-- `Vault::import_encrypted`: require at least the 16 salt bytes, split
them off, re-derive the key with the default parameters, AEAD-decrypt the
envelope, deserialize the JSON URI list and delegate to `import_uris`. -/
def importEncrypted (ext : Nat → String × String × List Nat) (v : VaultState)
    (data password : List Nat) : Except String (Nat × VaultState) :=
  if data.length < 16 then .error "Invalid export file"
  else
    let salt := data.take 16
    let encrypted := data.drop 16
    match deriveKey password salt KdfParams.default with
    | .error e => .error e
    | .ok key =>
      match aeadDecrypt encrypted key with
      | .error e => .error e
      | .ok json =>
        match jsonDecodeStringList (utf8DecodeLossy json) with
        | none => .error "Serialization error"
        | some uris => importUris ext v uris

theorem jsonEscapeChar_plain {c : Char}
    (h : c ≠ '"' ∧ c ≠ '\\' ∧ 32 ≤ c.toNat) : jsonEscapeChar c = [c] := by
  rw [jsonEscapeChar, if_neg h.1, if_neg h.2.1, if_neg (by omega), if_neg (by omega),
    if_neg (by omega), if_neg (by omega), if_neg (by omega), if_neg (by omega)]

theorem flatMap_jsonEscape_plain : ∀ (s : List Char),
    (∀ c ∈ s, c ≠ '"' ∧ c ≠ '\\' ∧ 32 ≤ c.toNat) →
    s.flatMap jsonEscapeChar = s := by
  intro s
  induction s with
  | nil => intro _; rfl
  | cons c cs ih =>
    intro h
    rw [List.flatMap_cons, jsonEscapeChar_plain (h c (List.mem_cons_self c cs)),
      ih (fun x hx => h x (List.mem_cons_of_mem _ hx))]
    rfl

theorem jsonParseStringAux_plain : ∀ (p : List Char),
    (∀ c ∈ p, c ≠ '"' ∧ c ≠ '\\' ∧ 32 ≤ c.toNat) →
    ∀ (f : Nat) (rest : List Char), p.length < f →
    jsonParseStringAux f (p ++ '"' :: rest) = some (p, rest) := by
  intro p
  induction p with
  | nil =>
    intro _ f rest hf
    cases f with
    | zero => omega
    | succ f =>
      simp [jsonParseStringAux]
  | cons c cs ih =>
    intro hp f rest hf
    have hc := hp c (List.mem_cons_self c cs)
    cases f with
    | zero => omega
    | succ f =>
      simp only [List.cons_append, jsonParseStringAux]
      rw [if_neg hc.1, if_neg hc.2.1,
        ih (fun x hx => hp x (List.mem_cons_of_mem _ hx)) f rest
          (by simp only [List.length_cons] at hf; omega)]
      rfl

theorem jsonItemsAux_encode : ∀ (l : List (List Char)), l ≠ [] →
    (∀ s ∈ l, ∀ c ∈ s, c ≠ '"' ∧ c ≠ '\\' ∧ 32 ≤ c.toNat) →
    ∀ (f : Nat) (rest : List Char), l.length ≤ f →
    jsonItemsAux f (joinSep ',' (l.map jsonQuote) ++ ']' :: rest)
      = some (l, rest) := by
  intro l
  induction l with
  | nil => intro h; exact absurd rfl h
  | cons s l' ih =>
    intro _ hpl f rest hf
    have hs := hpl s (List.mem_cons_self s l')
    have hflat := flatMap_jsonEscape_plain s hs
    have hne1 : (((']' : Char) = ',') = False) := eq_false (by decide)
    cases f with
    | zero => simp at hf
    | succ f =>
      cases l' with
      | nil =>
        rw [show joinSep ',' ((s :: []).map jsonQuote) = jsonQuote s from rfl,
          jsonQuote, hflat,
          show ('"' :: (s ++ ['"'])) ++ ']' :: rest
            = '"' :: (s ++ '"' :: ']' :: rest) from by simp]
        have hparse : jsonParseStringAux ((s ++ '"' :: ']' :: rest).length + 1)
            (s ++ '"' :: ']' :: rest) = some (s, ']' :: rest) :=
          jsonParseStringAux_plain s hs _ (']' :: rest)
            (by simp only [List.length_append, List.length_cons]; omega)
        simp only [jsonItemsAux, hparse, eq_self_iff_true, if_true, hne1, if_false]
      | cons s2 l'' =>
        rw [show joinSep ',' ((s :: s2 :: l'').map jsonQuote)
            = jsonQuote s ++ ',' :: joinSep ',' ((s2 :: l'').map jsonQuote) from rfl,
          jsonQuote, hflat,
          show (('"' :: (s ++ ['"'])) ++ ',' :: joinSep ',' ((s2 :: l'').map jsonQuote))
              ++ ']' :: rest
            = '"' :: (s ++ '"' :: ',' :: (joinSep ',' ((s2 :: l'').map jsonQuote)
              ++ ']' :: rest)) from by simp]
        have hparse : jsonParseStringAux
            ((s ++ '"' :: ',' :: (joinSep ',' ((s2 :: l'').map jsonQuote)
              ++ ']' :: rest)).length + 1)
            (s ++ '"' :: ',' :: (joinSep ',' ((s2 :: l'').map jsonQuote) ++ ']' :: rest))
            = some (s, ',' :: (joinSep ',' ((s2 :: l'').map jsonQuote) ++ ']' :: rest)) :=
          jsonParseStringAux_plain s hs _ _
            (by simp only [List.length_append, List.length_cons]; omega)
        have hih := ih (List.cons_ne_nil s2 l'')
          (fun x hx => hpl x (List.mem_cons_of_mem _ hx)) f rest
          (by simp only [List.length_cons] at hf ⊢; omega)
        simp only [jsonItemsAux, hparse, eq_self_iff_true, if_true, hih,
          Option.map_some']

theorem joinSep_quote_length : ∀ (l : List (List Char)),
    l.length ≤ (joinSep ',' (l.map jsonQuote)).length + 1 := by
  intro l
  induction l with
  | nil => simp [joinSep]
  | cons s l' ih =>
    cases l' with
    | nil => simp [joinSep]
    | cons s2 l'' =>
      rw [show joinSep ',' ((s :: s2 :: l'').map jsonQuote)
        = jsonQuote s ++ ',' :: joinSep ',' ((s2 :: l'').map jsonQuote) from rfl]
      simp only [List.length_cons, List.length_append] at ih ⊢
      omega

theorem jsonDecode_encode (l : List (List Char))
    (h : ∀ s ∈ l, ∀ c ∈ s, c ≠ '"' ∧ c ≠ '\\' ∧ 32 ≤ c.toNat) :
    jsonDecodeStringList (jsonEncodeStringList l) = some l := by
  cases l with
  | nil => rfl
  | cons s l' =>
    rw [jsonEncodeStringList]
    have hlen := joinSep_quote_length (s :: l')
    have hne : joinSep ',' ((s :: l').map jsonQuote) ++ [']'] ≠ [']'] := by
      intro he
      have := congrArg List.length he
      simp only [List.length_append, List.length_cons, List.length_nil] at this hlen
      have hq : 2 ≤ (jsonQuote s).length := by
        rw [jsonQuote]
        simp
      have : (joinSep ',' ((s :: l').map jsonQuote)).length = 0 := by omega
      cases hl' : l' with
      | nil =>
        rw [hl'] at this
        rw [show joinSep ',' ((s :: []).map jsonQuote) = jsonQuote s from rfl] at this
        omega
      | cons s2 l'' =>
        rw [hl'] at this
        rw [show joinSep ',' ((s :: s2 :: l'').map jsonQuote)
          = jsonQuote s ++ ',' :: joinSep ',' ((s2 :: l'').map jsonQuote) from rfl] at this
        simp only [List.length_append, List.length_cons] at this
        omega
    rw [show ('[' :: (joinSep ',' ((s :: l').map jsonQuote) ++ [']']) : List Char)
      = '[' :: (joinSep ',' ((s :: l').map jsonQuote) ++ [']']) from rfl]
    simp only [jsonDecodeStringList]
    rw [if_neg hne]
    rw [show (joinSep ',' ((s :: l').map jsonQuote) ++ [']'] : List Char)
      = joinSep ',' ((s :: l').map jsonQuote) ++ ']' :: [] from rfl]
    rw [jsonItemsAux_encode (s :: l') (List.cons_ne_nil s l') h _ []
      (by simp only [List.length_append, List.length_cons, List.length_nil]
          simp only [List.length_cons] at hlen
          omega)]
    rfl

theorem mem_joinSep {sep : Char} : ∀ (parts : List (List Char)) (c : Char),
    c ∈ joinSep sep parts → c = sep ∨ ∃ p, p ∈ parts ∧ c ∈ p := by
  intro parts
  induction parts with
  | nil => intro c hc; simp [joinSep] at hc
  | cons p rest ih =>
    intro c hc
    cases rest with
    | nil =>
      exact Or.inr ⟨p, List.mem_cons_self p [], by simpa [joinSep] using hc⟩
    | cons q qs =>
      rw [show joinSep sep (p :: q :: qs) = p ++ sep :: joinSep sep (q :: qs) from rfl]
        at hc
      rcases List.mem_append.mp hc with h | h
      · exact Or.inr ⟨p, List.mem_cons_self p _, h⟩
      · rcases List.mem_cons.mp h with h | h
        · exact Or.inl h
        · rcases ih c h with h1 | ⟨r, hr, hcr⟩
          · exact Or.inl h1
          · exact Or.inr ⟨r, List.mem_cons_of_mem _ hr, hcr⟩

theorem upperStr_char_json {l X : List Char} (h : upperStr l = X)
    (hX : ∀ d ∈ X, (48 ≤ d.toNat ∧ d.toNat ≤ 57) ∨ (65 ≤ d.toNat ∧ d.toNat ≤ 90)) :
    ∀ c ∈ l, c.toNat ≠ 34 ∧ c.toNat ≠ 92 ∧ 32 ≤ c.toNat := by
  intro c hc
  have hm : asciiUpper c ∈ X := h ▸ List.mem_map_of_mem asciiUpper hc
  have hd := hX _ hm
  have hp := asciiUpper_preimage (c := c) rfl (by omega)
  rcases hp with hp | hp <;> rcases hd with hd | hd <;> omega

/-- Decrypting a wrapped secret of the shape `add_token` stores. -/
theorem aeadDecrypt_of_wrapped (pt key n0 : List Nat)
    (hk : key.length = 32) (hn : n0.length = 12) :
    aeadDecrypt (n0 ++ aesGcmSeal key n0 pt) key = .ok pt := by
  have h := aead_roundtrip pt key n0 hk hn
  rw [aeadEncrypt, encryptWithNonce, if_neg (by omega), if_neg (by omega)] at h
  exact h

theorem deriveKey_default_ok (password salt : List Nat) :
    deriveKey password salt KdfParams.default
      = .ok (argon2idCore password salt KdfParams.default) := by
  rw [deriveKey, if_neg (by decide)]

theorem argon2idCore_length (password salt : List Nat) (params : KdfParams) :
    (argon2idCore password salt params).length = 32 := by
  rw [argon2idCore]
  exact sha256_length _

theorem uri_chars_aux (t : Token) (secret : List Nat) (tyS lastK : List Char)
    (lastN : Nat)
    (htyc : ∀ c ∈ tyS, c ≠ '"' ∧ c ≠ '\\' ∧ 32 ≤ c.toNat)
    (hlk : ∀ c ∈ lastK, c ≠ '"' ∧ c ≠ '\\' ∧ 32 ≤ c.toNat)
    (halgc : ∀ c ∈ t.algorithm.data, c ≠ '"' ∧ c ≠ '\\' ∧ 32 ≤ c.toNat) :
    ∀ c ∈ OTPAUTH_SCHEME ++ (tyS ++ '/' :: (urlencodingEncode t.issuer.data
      ++ ':' :: (urlencodingEncode t.account.data ++ '?' :: joinSep '&'
        (["secret=".data ++ base32Encode secret,
          "algorithm=".data ++ t.algorithm.data,
          "digits=".data ++ decimalString t.digits,
          "issuer=".data ++ urlencodingEncode t.issuer.data]
          ++ [lastK ++ decimalString lastN])))),
      c ≠ '"' ∧ c ≠ '\\' ∧ 32 ≤ c.toNat := by
  have conv : ∀ c : Char, c.toNat ≠ 34 → c.toNat ≠ 92 → 32 ≤ c.toNat →
      c ≠ '"' ∧ c ≠ '\\' ∧ 32 ≤ c.toNat := by
    intro c h1 h2 h3
    refine ⟨fun he => h1 ?_, fun he => h2 ?_, h3⟩
    · rw [he]; rfl
    · rw [he]; rfl
  have hpct : ∀ (s : List Char) (c : Char), c ∈ urlencodingEncode s →
      c ≠ '"' ∧ c ≠ '\\' ∧ 32 ≤ c.toNat := by
    intro s c hc
    have := urlencodingEncode_scalar s c hc
    exact conv c (by omega) (by omega) (by omega)
  have hb32 : ∀ c : Char, c ∈ base32Encode secret →
      c ≠ '"' ∧ c ≠ '\\' ∧ 32 ≤ c.toNat := by
    intro c hc
    rcases base32Encode_scalar secret c hc with h | h <;>
      exact conv c (by omega) (by omega) (by omega)
  have hdecS : ∀ (n : Nat) (c : Char), c ∈ decimalString n →
      c ≠ '"' ∧ c ≠ '\\' ∧ 32 ≤ c.toNat := by
    intro n c hc
    have := decimalString_scalar_range n c hc
    exact conv c (by omega) (by omega) (by omega)
  intro c hc
  rcases List.mem_append.mp hc with h | h
  · exact (show ∀ c ∈ OTPAUTH_SCHEME, c ≠ '"' ∧ c ≠ '\\' ∧ 32 ≤ c.toNat
      from by decide) c h
  rcases List.mem_append.mp h with h | h
  · exact htyc c h
  rcases List.mem_cons.mp h with rfl | h
  · decide
  rcases List.mem_append.mp h with h | h
  · exact hpct _ c h
  rcases List.mem_cons.mp h with rfl | h
  · decide
  rcases List.mem_append.mp h with h | h
  · exact hpct _ c h
  rcases List.mem_cons.mp h with rfl | h
  · decide
  rcases mem_joinSep _ c h with rfl | ⟨p, hp, hcp⟩
  · decide
  simp only [List.mem_append, List.mem_cons, List.not_mem_nil, or_false] at hp
  rcases hp with (rfl | rfl | rfl | rfl) | rfl
  · rcases List.mem_append.mp hcp with h | h
    · exact (show ∀ c ∈ "secret=".data, c ≠ '"' ∧ c ≠ '\\' ∧ 32 ≤ c.toNat
        from by decide) c h
    · exact hb32 c h
  · rcases List.mem_append.mp hcp with h | h
    · exact (show ∀ c ∈ "algorithm=".data, c ≠ '"' ∧ c ≠ '\\' ∧ 32 ≤ c.toNat
        from by decide) c h
    · exact halgc c h
  · rcases List.mem_append.mp hcp with h | h
    · exact (show ∀ c ∈ "digits=".data, c ≠ '"' ∧ c ≠ '\\' ∧ 32 ≤ c.toNat
        from by decide) c h
    · exact hdecS t.digits c h
  · rcases List.mem_append.mp hcp with h | h
    · exact (show ∀ c ∈ "issuer=".data, c ≠ '"' ∧ c ≠ '\\' ∧ 32 ≤ c.toNat
        from by decide) c h
    · exact hpct _ c h
  · rcases List.mem_append.mp hcp with h | h
    · exact hlk c h
    · exact hdecS lastN c h

theorem uriOfToken_json_chars (t : Token) (secret : List Nat)
    (hty : t.token_type = "totp" ∨ t.token_type = "hotp")
    (halg : upperStr t.algorithm.data = "SHA1".data
      ∨ upperStr t.algorithm.data = "SHA256".data
      ∨ upperStr t.algorithm.data = "SHA512".data) :
    ∀ c ∈ uriOfToken t secret, c ≠ '"' ∧ c ≠ '\\' ∧ 32 ≤ c.toNat := by
  have halgj : ∀ c ∈ t.algorithm.data, c.toNat ≠ 34 ∧ c.toNat ≠ 92 ∧ 32 ≤ c.toNat := by
    rcases halg with h | h | h
    · exact upperStr_char_json h (by decide)
    · exact upperStr_char_json h (by decide)
    · exact upperStr_char_json h (by decide)
  have halgc : ∀ c ∈ t.algorithm.data, c ≠ '"' ∧ c ≠ '\\' ∧ 32 ≤ c.toNat := by
    intro c hc
    have h1 := halgj c hc
    refine ⟨fun he => h1.1 ?_, fun he => h1.2.1 ?_, h1.2.2⟩
    · rw [he]; rfl
    · rw [he]; rfl
  rcases hty with hty | hty
  · have he : uriOfToken t secret = OTPAUTH_SCHEME ++ ("totp".data
        ++ '/' :: (urlencodingEncode t.issuer.data
        ++ ':' :: (urlencodingEncode t.account.data ++ '?' :: joinSep '&'
          (["secret=".data ++ base32Encode secret,
            "algorithm=".data ++ t.algorithm.data,
            "digits=".data ++ decimalString t.digits,
            "issuer=".data ++ urlencodingEncode t.issuer.data]
            ++ ["period=".data ++ decimalString t.period])))) := by
      rw [uriOfToken, hty,
        if_pos (show lowerStr "totp".data = "totp".data from by decide)]
      simp only [List.append_assoc]
    rw [he, show ("period=".data ++ decimalString t.period : List Char)
      = "period=".data ++ decimalString t.period from rfl]
    exact uri_chars_aux t secret "totp".data "period=".data t.period (by decide)
      (by decide) halgc
  · have he : uriOfToken t secret = OTPAUTH_SCHEME ++ ("hotp".data
        ++ '/' :: (urlencodingEncode t.issuer.data
        ++ ':' :: (urlencodingEncode t.account.data ++ '?' :: joinSep '&'
          (["secret=".data ++ base32Encode secret,
            "algorithm=".data ++ t.algorithm.data,
            "digits=".data ++ decimalString t.digits,
            "issuer=".data ++ urlencodingEncode t.issuer.data]
            ++ ["counter=".data ++ decimalString t.counter])))) := by
      rw [uriOfToken, hty,
        if_neg (show ¬ lowerStr "hotp".data = "totp".data from by decide),
        if_pos (show lowerStr "hotp".data = "hotp".data from by decide)]
      simp only [List.append_assoc]
    rw [he]
    exact uri_chars_aux t secret "hotp".data "counter=".data t.counter (by decide)
      (by decide) halgc

theorem exportUrisAux_ok (v : VaultState) (hkey : v.secretKey.length = 32)
    (hdec : ∀ t ∈ v.rows, ∃ n0 pt, n0.length = 12 ∧ (∀ b ∈ pt, b < 256)
      ∧ t.secret_encrypted = n0 ++ aesGcmSeal v.secretKey n0 pt) :
    ∀ ts : List Token, (∀ t ∈ ts, t ∈ v.rows) →
    (∀ t ∈ ts, (t.token_type = "totp" ∨ t.token_type = "hotp")
      ∧ (upperStr t.algorithm.data = "SHA1".data
        ∨ upperStr t.algorithm.data = "SHA256".data
        ∨ upperStr t.algorithm.data = "SHA512".data)
      ∧ (t.digits = 6 ∨ t.digits = 8)
      ∧ (t.token_type = "totp" → 0 < t.period)) →
    ∃ us, exportUrisAux v ts = .ok us ∧ us.length = ts.length
      ∧ (∀ u ∈ us, (∃ nt, parseOtpauthUri u = .ok (some nt))
          ∧ ∀ c ∈ u, c ≠ '"' ∧ c ≠ '\\' ∧ 32 ≤ c.toNat) := by
  intro ts
  induction ts with
  | nil => intro _ _; exact ⟨[], rfl, rfl, by simp⟩
  | cons t ts ih =>
    intro hmem hwf
    have htv : t ∈ v.rows := hmem t (List.mem_cons_self _ _)
    obtain ⟨r, hr⟩ : ∃ r, v.rows.find? (fun r => r.id = t.id) = some r := by
      have hsome : (v.rows.find? (fun r => r.id = t.id)).isSome := by
        rw [List.find?_isSome]
        exact ⟨t, htv, by simp⟩
      exact Option.isSome_iff_exists.mp hsome
    have hrmem : r ∈ v.rows := List.mem_of_find?_eq_some hr
    obtain ⟨n0, pt, hn0, hpt, hwrap⟩ := hdec r hrmem
    have hgts : getTokenSecret v t.id = .ok pt := by
      simp only [getTokenSecret, hr, hwrap,
        aeadDecrypt_of_wrapped pt v.secretKey n0 hkey hn0]
    obtain ⟨us, hus, hlen, hprops⟩ :=
      ih (fun x hx => hmem x (List.mem_cons_of_mem _ hx))
        (fun x hx => hwf x (List.mem_cons_of_mem _ hx))
    have hwft := hwf t (List.mem_cons_self _ _)
    refine ⟨uriOfToken t pt :: us, ?_, by simp [hlen], ?_⟩
    · simp only [exportUrisAux, hgts, hus]
    · intro u hu
      rcases List.mem_cons.mp hu with rfl | hu
      · exact ⟨⟨_, parse_uriOfToken t pt hwft.1 hwft.2.1 hwft.2.2.1
          hwft.2.2.2 hpt⟩, uriOfToken_json_chars t pt hwft.1 hwft.2.1⟩
      · exact hprops u hu

theorem importUrisAux_ok (ext : Nat → String × String × List Nat)
    (hext : ∀ k, ((ext k).2.2).length = 12) :
    ∀ (us : List (List Char)) (v0 : VaultState) (k count : Nat),
    v0.secretKey.length = 32 →
    (∀ u ∈ us, ∃ nt, parseOtpauthUri u = .ok (some nt)) →
    ∃ v1, importUrisAux ext v0 k count us = .ok (count + us.length, v1)
      ∧ v1.secretKey = v0.secretKey := by
  intro us
  induction us with
  | nil =>
    intro v0 k count _ _
    exact ⟨v0, by simp [importUrisAux], rfl⟩
  | cons u us ih =>
    intro v0 k count hk hping
    obtain ⟨nt, hnt⟩ := hping u (List.mem_cons_self _ _)
    have henc : aeadEncrypt nt.secret v0.secretKey (ext k).2.2
        = .ok ((ext k).2.2 ++ aesGcmSeal v0.secretKey (ext k).2.2 nt.secret) := by
      rw [aeadEncrypt, encryptWithNonce, if_neg (by omega),
        if_neg (by have := hext k; omega)]
    obtain ⟨v1, hrec, hsk⟩ := ih { v0 with rows := v0.rows ++
        [{ id := (ext k).1, issuer := nt.issuer, account := nt.account,
           secret_encrypted := (ext k).2.2
             ++ aesGcmSeal v0.secretKey (ext k).2.2 nt.secret,
           algorithm := nt.algorithm, digits := nt.digits,
           token_type := nt.token_type, period := nt.period,
           counter := nt.counter, icon := nt.icon,
           sort_order := maxSortOrder v0.rows + 1,
           created_at := (ext k).2.1, updated_at := (ext k).2.1 }] }
      (k + 1) (count + 1) hk (fun x hx => hping x (List.mem_cons_of_mem _ hx))
    refine ⟨v1, ?_, hsk⟩
    simp only [importUrisAux, hnt, addToken, henc, hrec]
    rw [show count + (u :: us).length = count + 1 + us.length from by
      simp only [List.length_cons]; omega]

/-- C5 (amended): for a vault whose rows are well-formed — kind `totp` or
`hotp`, algorithm upper-casing to SHA1/SHA256/SHA512, digits 6 or 8,
positive period for `totp`, and each stored secret a well-wrapped AEAD
envelope of byte values under the vault key — and for every export
password, fresh 16-byte salt and 12-byte nonce, the encrypted export
succeeds with the bit-exact layout `salt ‖ AEAD(JSON(uri list))` under
the key derived with default parameters, and importing that blob with
the same password into any vault with a 32-byte key succeeds and counts
exactly the exported tokens. -/
theorem export_import_encrypted_roundtrip
    (v vDest : VaultState) (password salt nonce : List Nat)
    (ext : Nat → String × String × List Nat)
    (hrows : ∀ t ∈ v.rows, (t.token_type = "totp" ∨ t.token_type = "hotp")
      ∧ (upperStr t.algorithm.data = "SHA1".data
        ∨ upperStr t.algorithm.data = "SHA256".data
        ∨ upperStr t.algorithm.data = "SHA512".data)
      ∧ (t.digits = 6 ∨ t.digits = 8)
      ∧ (t.token_type = "totp" → 0 < t.period))
    (hdec : ∀ t ∈ v.rows, ∃ n0 pt, n0.length = 12 ∧ (∀ b ∈ pt, b < 256)
      ∧ t.secret_encrypted = n0 ++ aesGcmSeal v.secretKey n0 pt)
    (hkey : v.secretKey.length = 32) (hkey2 : vDest.secretKey.length = 32)
    (hsalt : salt.length = 16) (hnonce : nonce.length = 12)
    (hext : ∀ k, ((ext k).2.2).length = 12) :
    ∃ uris, exportUris v = .ok uris
      ∧ uris.length = (listTokens v).length
      ∧ exportEncrypted v password salt nonce = .ok (salt
          ++ (nonce ++ aesGcmSeal (argon2idCore password salt KdfParams.default)
            nonce (utf8Encode (jsonEncodeStringList uris))))
      ∧ deriveKey password salt KdfParams.default
          = .ok (argon2idCore password salt KdfParams.default)
      ∧ ∃ vOut, importEncrypted ext vDest (salt
          ++ (nonce ++ aesGcmSeal (argon2idCore password salt KdfParams.default)
            nonce (utf8Encode (jsonEncodeStringList uris)))) password
          = .ok ((listTokens v).length, vOut) := by
  have hmem : ∀ t ∈ listTokens v, t ∈ v.rows := by
    intro t ht
    rw [listTokens] at ht
    exact (List.perm_insertionSort _ _).mem_iff.mp ht
  obtain ⟨us, hus, hlen, hprops⟩ := exportUrisAux_ok v hkey hdec (listTokens v) hmem
    (fun t ht => hrows t (hmem t ht))
  have hkd := deriveKey_default_ok password salt
  have hklen := argon2idCore_length password salt KdfParams.default
  have hencJ : aeadEncrypt (utf8Encode (jsonEncodeStringList us))
      (argon2idCore password salt KdfParams.default) nonce
      = .ok (nonce ++ aesGcmSeal (argon2idCore password salt KdfParams.default) nonce
          (utf8Encode (jsonEncodeStringList us))) := by
    rw [aeadEncrypt, encryptWithNonce, if_neg (by omega), if_neg (by omega)]
  refine ⟨us, hus, hlen, ?_, hkd, ?_⟩
  · simp only [exportEncrypted, exportUris, hus, hkd, hencJ]
  · have hlenblob : ¬ ((salt ++ (nonce
        ++ aesGcmSeal (argon2idCore password salt KdfParams.default) nonce
          (utf8Encode (jsonEncodeStringList us)))).length < 16) := by
      simp only [List.length_append]
      omega
    have htake : (salt ++ (nonce
        ++ aesGcmSeal (argon2idCore password salt KdfParams.default) nonce
          (utf8Encode (jsonEncodeStringList us)))).take 16 = salt := by
      rw [← hsalt]
      exact List.take_left _ _
    have hdrop : (salt ++ (nonce
        ++ aesGcmSeal (argon2idCore password salt KdfParams.default) nonce
          (utf8Encode (jsonEncodeStringList us)))).drop 16 = nonce
        ++ aesGcmSeal (argon2idCore password salt KdfParams.default) nonce
          (utf8Encode (jsonEncodeStringList us)) := by
      rw [← hsalt]
      exact List.drop_left _ _
    have hdecJ : aeadDecrypt (nonce
        ++ aesGcmSeal (argon2idCore password salt KdfParams.default) nonce
          (utf8Encode (jsonEncodeStringList us)))
        (argon2idCore password salt KdfParams.default)
        = .ok (utf8Encode (jsonEncodeStringList us)) :=
      aeadDecrypt_of_wrapped _ _ _ (by omega) hnonce
    have hjson : jsonDecodeStringList (utf8DecodeLossy (utf8Encode
        (jsonEncodeStringList us))) = some us := by
      rw [utf8_decode_encode]
      exact jsonDecode_encode us (fun s hs c hc => (hprops s hs).2 c hc)
    obtain ⟨v1, himp, _⟩ := importUrisAux_ok ext hext us vDest 0 0 hkey2
      (fun u hu => (hprops u hu).1)
    refine ⟨v1, ?_⟩
    rw [importEncrypted, if_neg hlenblob]
    simp only [htake, hdrop, hkd, hdecJ, hjson]
    rw [importUris, himp, show 0 + us.length = (listTokens v).length from by omega]

/-- Witness vault for the amended C5 statement: one well-formed `totp`
row whose secret is wrapped under the vault key. -/
def c5WitnessVault : VaultState :=
  { rows :=
      [{ id := "a", issuer := "I", account := "u",
         secret_encrypted := List.replicate 12 9
           ++ aesGcmSeal (List.replicate 32 5) (List.replicate 12 9) [1],
         algorithm := "SHA1", digits := 6, token_type := "totp", period := 30,
         counter := 0, icon := none, sort_order := 0,
         created_at := "", updated_at := "" }],
    secretKey := List.replicate 32 5 }

/-- Witness destination vault for the amended C5 statement. -/
def c5WitnessDest : VaultState := { rows := [], secretKey := List.replicate 32 6 }

/-- Witness id/timestamp/nonce stream for the amended C5 statement. -/
def c5WitnessExt : Nat → String × String × List Nat :=
  fun _ => ("id0", "t0", List.replicate 12 8)

/-- Witness for the amended C5 statement at a one-token vault. -/
theorem export_import_encrypted_roundtrip_witness :
    ∃ uris, exportUris c5WitnessVault = .ok uris
      ∧ uris.length = (listTokens c5WitnessVault).length
      ∧ exportEncrypted c5WitnessVault [7] (List.replicate 16 1) (List.replicate 12 2)
          = .ok (List.replicate 16 1
            ++ (List.replicate 12 2 ++ aesGcmSeal
              (argon2idCore [7] (List.replicate 16 1) KdfParams.default)
              (List.replicate 12 2) (utf8Encode (jsonEncodeStringList uris))))
      ∧ deriveKey [7] (List.replicate 16 1) KdfParams.default
          = .ok (argon2idCore [7] (List.replicate 16 1) KdfParams.default)
      ∧ ∃ vOut, importEncrypted c5WitnessExt c5WitnessDest (List.replicate 16 1
          ++ (List.replicate 12 2 ++ aesGcmSeal
            (argon2idCore [7] (List.replicate 16 1) KdfParams.default)
            (List.replicate 12 2) (utf8Encode (jsonEncodeStringList uris)))) [7]
          = .ok ((listTokens c5WitnessVault).length, vOut) :=
  export_import_encrypted_roundtrip c5WitnessVault c5WitnessDest [7]
    (List.replicate 16 1) (List.replicate 12 2) c5WitnessExt
    (by
      intro t ht
      simp only [c5WitnessVault, List.mem_cons, List.not_mem_nil, or_false] at ht
      subst ht
      exact ⟨Or.inl rfl, Or.inl (by decide), Or.inl rfl, fun _ => by decide⟩)
    (by
      intro t ht
      simp only [c5WitnessVault, List.mem_cons, List.not_mem_nil, or_false] at ht
      subst ht
      exact ⟨List.replicate 12 9, [1], by simp, by decide, rfl⟩)
    (by simp [c5WitnessVault]) (by simp [c5WitnessDest]) (by simp) (by simp)
    (fun k => by simp [c5WitnessExt])

/-- Row of the unsupported kind `steam`, its secret well-wrapped under
the vault key. -/
def c5SteamRow : Token :=
  { id := "s", issuer := "I", account := "u",
    secret_encrypted := List.replicate 12 9
      ++ aesGcmSeal (List.replicate 32 5) (List.replicate 12 9) [1],
    algorithm := "SHA1", digits := 6, token_type := "steam", period := 30,
    counter := 0, icon := none, sort_order := 0,
    created_at := "", updated_at := "" }

/-- Vault holding the `steam` row. -/
def c5SteamVault : VaultState :=
  { rows := [c5SteamRow], secretKey := List.replicate 32 5 }

/-- The steam row's secret decrypts. -/
theorem c5Steam_secret : getTokenSecret c5SteamVault "s" = .ok [1] := by
  have hfind : c5SteamVault.rows.find? (fun r => r.id = "s") = some c5SteamRow := rfl
  have hwrap : c5SteamRow.secret_encrypted = List.replicate 12 9
      ++ aesGcmSeal c5SteamVault.secretKey (List.replicate 12 9) [1] := rfl
  simp only [getTokenSecret, hfind, hwrap,
    aeadDecrypt_of_wrapped [1] c5SteamVault.secretKey (List.replicate 12 9)
      (by simp [c5SteamVault]) (by simp)]

/-- The steam vault exports one URI. -/
theorem c5Steam_uris : exportUris c5SteamVault = .ok [uriOfToken c5SteamRow [1]] := by
  have hsort : listTokens c5SteamVault = [c5SteamRow] := rfl
  simp only [exportUris, hsort, exportUrisAux,
    show c5SteamRow.id = "s" from rfl, c5Steam_secret]

/-- The encrypted export of the steam vault, spelled out. -/
theorem c5Steam_export : exportEncrypted c5SteamVault [7] (List.replicate 16 1)
    (List.replicate 12 2)
    = .ok (List.replicate 16 1 ++ (List.replicate 12 2 ++ aesGcmSeal
      (argon2idCore [7] (List.replicate 16 1) KdfParams.default)
      (List.replicate 12 2)
      (utf8Encode (jsonEncodeStringList [uriOfToken c5SteamRow [1]])))) := by
  have hencJ : aeadEncrypt
      (utf8Encode (jsonEncodeStringList [uriOfToken c5SteamRow [1]]))
      (argon2idCore [7] (List.replicate 16 1) KdfParams.default) (List.replicate 12 2)
      = .ok (List.replicate 12 2 ++ aesGcmSeal
        (argon2idCore [7] (List.replicate 16 1) KdfParams.default)
        (List.replicate 12 2)
        (utf8Encode (jsonEncodeStringList [uriOfToken c5SteamRow [1]]))) := by
    rw [aeadEncrypt, encryptWithNonce,
      if_neg (by rw [argon2idCore_length]; omega), if_neg (by simp)]
  simp only [exportEncrypted, c5Steam_uris, deriveKey_default_ok, hencJ]

set_option maxRecDepth 100000 in
/-- Importing the blob the steam vault exported fails on the unknown
token type. -/
theorem c5Steam_import :
    importEncrypted c5WitnessExt { rows := [], secretKey := List.replicate 32 6 }
    (List.replicate 16 1 ++ (List.replicate 12 2 ++ aesGcmSeal
      (argon2idCore [7] (List.replicate 16 1) KdfParams.default)
      (List.replicate 12 2)
      (utf8Encode (jsonEncodeStringList [uriOfToken c5SteamRow [1]])))) [7]
    = .error "unknown token type" := by
  have hplain : ∀ c ∈ uriOfToken c5SteamRow [1],
      c ≠ '"' ∧ c ≠ '\\' ∧ 32 ≤ c.toNat := by decide
  have hparse : parseOtpauthUri (uriOfToken c5SteamRow [1])
      = .error "unknown token type" := by rfl
  have hk0len : (argon2idCore [7] (List.replicate 16 1) KdfParams.default).length = 32 :=
    argon2idCore_length _ _ _
  have htake : (List.replicate 16 (1 : Nat) ++ (List.replicate 12 2 ++ aesGcmSeal
      (argon2idCore [7] (List.replicate 16 1) KdfParams.default)
      (List.replicate 12 2)
      (utf8Encode (jsonEncodeStringList [uriOfToken c5SteamRow [1]])))).take 16
      = List.replicate 16 1 := by
    rw [show (16 : Nat) = (List.replicate 16 (1 : Nat)).length from by simp]
    exact List.take_left _ _
  have hdrop : (List.replicate 16 (1 : Nat) ++ (List.replicate 12 2 ++ aesGcmSeal
      (argon2idCore [7] (List.replicate 16 1) KdfParams.default)
      (List.replicate 12 2)
      (utf8Encode (jsonEncodeStringList [uriOfToken c5SteamRow [1]])))).drop 16
      = List.replicate 12 2 ++ aesGcmSeal
        (argon2idCore [7] (List.replicate 16 1) KdfParams.default)
        (List.replicate 12 2)
        (utf8Encode (jsonEncodeStringList [uriOfToken c5SteamRow [1]])) := by
    rw [show (16 : Nat) = (List.replicate 16 (1 : Nat)).length from by simp]
    exact List.drop_left _ _
  have hdecJ : aeadDecrypt (List.replicate 12 2 ++ aesGcmSeal
      (argon2idCore [7] (List.replicate 16 1) KdfParams.default)
      (List.replicate 12 2)
      (utf8Encode (jsonEncodeStringList [uriOfToken c5SteamRow [1]])))
      (argon2idCore [7] (List.replicate 16 1) KdfParams.default)
      = .ok (utf8Encode (jsonEncodeStringList [uriOfToken c5SteamRow [1]])) :=
    aeadDecrypt_of_wrapped _ _ _ hk0len (by simp)
  have hjson : jsonDecodeStringList (utf8DecodeLossy (utf8Encode
      (jsonEncodeStringList [uriOfToken c5SteamRow [1]])))
      = some [uriOfToken c5SteamRow [1]] := by
    rw [utf8_decode_encode]
    refine jsonDecode_encode _ ?_
    intro x hx c hc
    simp only [List.mem_cons, List.not_mem_nil, or_false] at hx
    subst hx
    exact hplain c hc
  rw [importEncrypted,
    if_neg (by simp only [List.length_append, List.length_replicate]; omega)]
  simp only [htake, hdrop, deriveKey_default_ok, hdecJ, hjson]
  simp only [importUris, importUrisAux, hparse]

/-- C5 (counterexample): the vault façade accepts a row whose kind is
`steam`; `export_encrypted` exports it without complaint, but importing
the very blob it produced fails with the unknown-token-type error, so
the encrypted export/import round trip does not succeed for every vault
contents. -/
theorem except_ok_bind {ε α β : Type} (a : α) (f : α → Except ε β) :
    (Except.ok a : Except ε α).bind f = f a := rfl

theorem export_encrypted_not_reimportable :
    (exportEncrypted c5SteamVault [7] (List.replicate 16 1)
      (List.replicate 12 2)).isOk = true
    ∧ (exportEncrypted c5SteamVault [7] (List.replicate 16 1)
        (List.replicate 12 2)).bind
      (fun blob => importEncrypted c5WitnessExt
        { rows := [], secretKey := List.replicate 32 6 } blob [7])
      = .error "unknown token type" := by
  constructor
  · rw [c5Steam_export]
    rfl
  · rw [c5Steam_export]
    simp only [except_ok_bind]
    exact c5Steam_import
